import Mathlib

/-!
Verification of the virtualized list widget from
`internal/tui/exp/list/list.go`.

The Go code is shallowly embedded: strings are `List Char`, Go `int` is
`Int`, the concurrent map/slice containers (`csync.Map`, `csync.Slice`) are
plain association lists / lists (only `Get`/`Set`/`Del`/indexed access are
used, so iteration order never matters), and external collaborators
(lipgloss styling, the terminal cell grid, the uniseg grapheme segmenter)
are abstracted at their call boundaries exactly as the code consumes them.
-/

namespace CrushList

/-- Go strings, embedded as lists of characters.  The only byte the list
code ever inspects positionally is `'\n'`, which is a single byte in UTF-8,
so character offsets and Go's byte offsets coincide structurally. -/
abbrev Str := List Char

/-- `lipgloss.Height`: the number of lines of a string, i.e. the number of
newline characters plus one (also `1` for the empty string). -/
def heightL (s : Str) : Int :=
  (s.count '\n' : Int) + 1

/-- Render direction of the list (`DirectionForward` / `DirectionBackward`). -/
inductive Direction where
  | forward
  | backward
deriving DecidableEq, Repr

/-- `viewPosition`: converts offset, viewport height, direction and the
total rendered height into the inclusive visible line range, exactly as in
`list.go` (`renderedLines := renderedHeight - 1`, direction-dependent
formulas, then `start = min(start, end)`). -/
def viewPosition (dir : Direction) (offset height renderedHeight : Int) : Int × Int :=
  let renderedLines := renderedHeight - 1
  let start := if dir = .forward then max 0 offset
               else max 0 (renderedLines - offset - height + 1)
  let stop  := if dir = .forward then min (offset + height - 1) renderedLines
               else max 0 (renderedLines - offset)
  (min start stop, stop)

/-- The visible-range formula exactly as the specification words it:
forward `start = max(0, offset)`, `end = min(offset + viewportHeight − 1,
totalRenderedHeight − 1)`; backward `end = max(0, totalRenderedHeight − 1 −
offset)`, `start = max(0, end − viewportHeight + 1)`; finally start is
clamped so that `start ≤ end`. -/
def viewPositionSpec (dir : Direction) (offset height renderedHeight : Int) : Int × Int :=
  match dir with
  | .forward =>
    let start := max 0 offset
    let stop := min (offset + height - 1) (renderedHeight - 1)
    (min start stop, stop)
  | .backward =>
    let stop := max 0 (renderedHeight - 1 - offset)
    let start := max 0 (stop - height + 1)
    (min start stop, stop)

/-! ## Rendered-buffer line index (`setRendered` / `getLines`) -/

/-- The scanning loop of `setRendered`: starting at character position
`pos`, emit `pos' + 1` for every newline found at position `pos'`
(Go: `offset += idx + 1; append(lineOffsets, offset)`). -/
def lineOffsetsAux : Str → Nat → List Nat
  | [], _ => []
  | c :: rest, pos =>
    if c = '\n' then (pos + 1) :: lineOffsetsAux rest (pos + 1)
    else lineOffsetsAux rest (pos + 1)

/-- The line-offset index built by `setRendered`: for a non-empty buffer,
offset `0` followed by the offset just after each newline; `nil` for an
empty buffer. -/
def lineOffsetsOf (s : Str) : List Nat :=
  if s.isEmpty then [] else 0 :: lineOffsetsAux s 0

/-- `getLines`: slice the inclusive line range `[start, stop]` out of the
rendered buffer using the precomputed line-offset index, exactly as in
`list.go` (clamping `stop` to the last line, empty result for an empty or
out-of-range request).  The final `take` mirrors Go's
`rendered[startOffset:endOffset]`; for the offset indexes produced by
`setRendered` the bounds are always ordered, so the `Nat` truncation never
diverges from Go. -/
def getLines (rendered : Str) (lineOffsets : List Nat) (start stop : Nat) : Str :=
  if lineOffsets.length = 0 ∨ start ≥ lineOffsets.length then []
  else
    let stop := if stop ≥ lineOffsets.length then lineOffsets.length - 1 else stop
    if start > stop then []
    else
      let startOffset := lineOffsets.getD start 0
      let endOffset :=
        if stop + 1 < lineOffsets.length then lineOffsets.getD (stop + 1) 0 - 1
        else rendered.length
      if startOffset ≥ rendered.length then []
      else
        let endOffset := min endOffset rendered.length
        (rendered.drop startOffset).take (endOffset - startOffset)

/-- Splitting a buffer into its lines at newline characters (the inverse
of how the rendered buffer is put together; used to state what `getLines`
must return). -/
def splitNl : Str → List Str
  | [] => [[]]
  | c :: rest =>
    if c = '\n' then [] :: splitNl rest
    else
      match splitNl rest with
      | [] => [[c]]
      | l :: ls => (c :: l) :: ls

/-- Joining a list of lines with newline separators. -/
def linesJoin : List Str → Str
  | [] => []
  | [l] => l
  | l :: ls => l ++ '\n' :: linesJoin ls

/-- No line of the list contains a newline character. -/
def NlFree (L : List Str) : Prop := ∀ l ∈ L, '\n' ∉ l

/-- Character length of the first `k` lines, counting one separator per
line (`Σ_{j<k} (|line_j| + 1)`): the `setRendered` offset of line `k`. -/
def lineStart (L : List Str) (k : Nat) : Nat :=
  ((L.take k).map (fun l => l.length + 1)).sum

/-! ## The list state machine

The mutable state of `list[T]` and its methods.  Items are the external
collaborators: each supplies a stable identifier, a rendered view and the
`Focusable` capability; the model treats an item's view as fixed (the
list itself never rewrites item content).  `tea.Cmd` values returned by
mutators are modelled by the `Cmd` inductive below; commands produced by
the items themselves (`Init`, `SetSize`, focus/blur return values) carry
no list-state effect and are represented by the focus/blur tags. -/

/-- An item as the list consumes it (`Item` + optional `layout.Focusable`
capability): stable identifier, rendered view text (`Item.View()`),
whether the item implements `Focusable`, and its current focus state. -/
structure GoItem where
  id : String
  view : Str
  focusable : Bool
  isFocused : Bool
deriving DecidableEq, Repr

/-- A `renderedItem` cache entry: rendered view, line height, and the
start/end line offsets inside the rendered buffer. -/
structure RenderedItem where
  view : Str
  height : Int
  start : Int
  end_ : Int
deriving DecidableEq, Repr

/-- `csync.Map` lookup (`Get`). -/
def mapGet (m : List (String × β)) (k : String) : Option β :=
  (m.find? (fun p => p.1 = k)).map (·.2)

/-- `csync.Map` removal (`Del`). -/
def mapDel (m : List (String × β)) (k : String) : List (String × β) :=
  m.filter (fun p => ¬p.1 = k)

/-- `csync.Map` insertion/update (`Set`). -/
def mapSet (m : List (String × β)) (k : String) (v : β) : List (String × β) :=
  (k, v) :: mapDel m k

/-- Follow-up actions (`tea.Cmd`) a mutator hands back to the event loop. -/
inductive Cmd where
  | focusItem (id : String)
  | blurItem (id : String)
  | renderContinuation (finishIndex : Nat)
deriving DecidableEq, Repr

/-- The state of `list[T]`.  The `cachedView` memoization fields are
omitted: they replay a previously computed view verbatim and are not
observable through any state transition. -/
structure ListState where
  width : Int
  height : Int
  gap : Int
  wrap : Bool
  direction : Direction
  focused : Bool
  items : List GoItem
  indexMap : List (String × Nat)
  renderedItems : List (String × RenderedItem)
  rendered : Str
  renderedHeight : Int
  lineOffsets : List Nat
  offset : Int
  selectedItem : String
  prevSelectedItem : String
  movingByItem : Bool
  selectionStartCol : Int
  selectionStartLine : Int
  selectionEndCol : Int
  selectionEndLine : Int
  selectionActive : Bool
deriving DecidableEq, Repr

/-- `viewPosition` on the current state. -/
def viewPositionS (s : ListState) : Int × Int :=
  viewPosition s.direction s.offset s.height s.renderedHeight

/-- `setRendered`: store the buffer, its height, and the line-offset
index. -/
def setRendered (s : ListState) (rendered : Str) : ListState :=
  { s with rendered := rendered, renderedHeight := heightL rendered,
           lineOffsets := lineOffsetsOf rendered }

/-- `renderItem`: measure an item's view (`start`/`end` are zero values,
filled in by the caller). -/
def renderItem (item : GoItem) : RenderedItem :=
  { view := item.view, height := heightL item.view, start := 0, end_ := 0 }

/-- The loop of `recalculateItemPositionsFrom`: walk the remaining items,
rewriting the cached `start`/`end` of every cached entry; items without a
cache entry are skipped without advancing the running height. -/
def recalcLoop (gap : Int) : List GoItem → Int → List (String × RenderedItem)
    → List (String × RenderedItem)
  | [], _, cache => cache
  | it :: rest, current, cache =>
    match mapGet cache it.id with
    | none => recalcLoop gap rest current cache
    | some r =>
      let r2 : RenderedItem := { r with start := current, end_ := current + r.height - 1 }
      recalcLoop gap rest (r2.end_ + 1 + gap) (mapSet cache it.id r2)

/-- `recalculateItemPositionsFrom`. -/
def recalculateItemPositionsFrom (s : ListState) (startIdx : Nat) : ListState :=
  let current : Int :=
    if startIdx > 0 then
      match s.items.get? (startIdx - 1) with
      | some prevItem =>
        match mapGet s.renderedItems prevItem.id with
        | some r => r.end_ + 1 + s.gap
        | none => 0
      | none => 0
    else 0
  { s with renderedItems := recalcLoop s.gap (s.items.drop startIdx) current s.renderedItems }

/-- `recalculateItemPositions`. -/
def recalculateItemPositions (s : ListState) : ListState :=
  recalculateItemPositionsFrom s 0

/-- A fragment accumulated by `renderIterator`: an item's view plus the
number of newline characters to write after it. -/
structure RenderFragment where
  view : Str
  gap : Int
deriving DecidableEq, Repr

/-- Gap writing (`newlineBuffer[:gap]`).  A negative gap would panic in
Go; it is truncated to zero here and unreachable for configured gaps. -/
def fragGap (g : Int) : Str := List.replicate g.toNat '\n'

/-- The direction-order index of loop iteration `i` (`inx` in
`renderIterator`). -/
def dirIdx (len : Nat) (dir : Direction) (i : Nat) : Nat :=
  if dir = .forward then i else len - 1 - i

/-- First pass of `renderIterator`: accumulate fragments (and fill the
cache) until the height limit is hit or the items run out; returns the
fragments, the stopping index (`finalIndex`), and the updated cache.
The Go `for i := startInx; i < itemsLen; i++` loop is driven here by the
structurally decreasing count of remaining iterations (`remaining =
itemsLen - i`, which the caller establishes), so the recursion is
kernel-reducible. -/
def renderIterLoop (items : List GoItem) (dir : Direction) (height gap : Int)
    (limitHeight : Bool) :
    (remaining : Nat) → (i : Nat) → (current : Int)
    → (cache : List (String × RenderedItem)) → (frags : List RenderFragment)
    → List RenderFragment × Nat × List (String × RenderedItem)
  | 0, _, _, cache, frags => (frags, items.length, cache)
  | remaining + 1, i, current, cache, frags =>
    if limitHeight ∧ current ≥ height then (frags, i, cache)
    else
      let inx := dirIdx items.length dir i
      let fgap : Int := if inx = items.length - 1 then 0 else gap + 1
      match items.get? inx with
      | none => renderIterLoop items dir height gap limitHeight remaining (i + 1) current cache frags
      | some item =>
        match mapGet cache item.id with
        | some rItem =>
          renderIterLoop items dir height gap limitHeight remaining (i + 1) (rItem.end_ + 1 + gap)
            cache (frags ++ [{ view := rItem.view, gap := fgap }])
        | none =>
          let r0 := renderItem item
          let rItem : RenderedItem :=
            { view := r0.view, height := r0.height, start := current, end_ := current + r0.height - 1 }
          renderIterLoop items dir height gap limitHeight remaining (i + 1) (rItem.end_ + 1 + gap)
            (mapSet cache item.id rItem) (frags ++ [{ view := rItem.view, gap := fgap }])

/-- Second pass of `renderIterator`, forward direction: write the base
buffer, then every fragment followed by its gap. -/
def assembleForward (rendered : Str) (frags : List RenderFragment) : Str :=
  rendered ++ (frags.map (fun f => f.view ++ fragGap f.gap)).flatten

/-- Second pass, backward direction: fragments in reverse order, then the
base buffer. -/
def assembleBackward (rendered : Str) (frags : List RenderFragment) : Str :=
  ((frags.reverse).map (fun f => f.view ++ fragGap f.gap)).flatten ++ rendered

/-- `renderIterator`. -/
def renderIterator (s : ListState) (startInx : Nat) (limitHeight : Bool) (rendered : Str) :
    Str × Nat × List (String × RenderedItem) :=
  let out := renderIterLoop s.items s.direction s.height s.gap limitHeight
    (s.items.length - startInx) startInx (heightL rendered - 1) s.renderedItems []
  if s.direction = .forward then (assembleForward rendered out.1, out.2.1, out.2.2)
  else (assembleBackward rendered out.1, out.2.1, out.2.2)

/-- Search a list of candidate indices for the first focusable item
(the `layout.Focusable` capability test in the Go search loops). -/
def firstFocusableIn (items : List GoItem) (idxs : List Nat) : Option Nat :=
  idxs.find? (fun i => ((items.get? i).map (·.focusable)).getD false)

/-- `firstSelectableItemAbove`: scan indices `inx-1 … 0`; on a miss at the
top with wrap enabled, the Go code recurses once from `items.Len()` (for a
non-empty list that call cannot wrap again, so one unfolding is exact; on
an empty list the Go recursion would never terminate, and no caller
reaches that state). -/
def firstSelectableItemAbove (items : List GoItem) (wrap : Bool) (inx : Nat) : Option Nat :=
  match firstFocusableIn items ((List.range inx).reverse) with
  | some i => some i
  | none =>
    if inx = 0 ∧ wrap ∧ items.length ≠ 0 then
      firstFocusableIn items ((List.range items.length).reverse)
    else none

/-- `firstSelectableItemBelow`: scan indices `inx+1 … len-1` (the argument
is an `Int` because the Go code calls it with `-1`); on a miss at the
bottom with wrap enabled, rescan from the front (one unfolding of the Go
recursion, exact for non-empty lists). -/
def firstSelectableItemBelow (items : List GoItem) (wrap : Bool) (inx : Int) : Option Nat :=
  match firstFocusableIn items ((List.range items.length).filter (fun i => inx < (i : Int))) with
  | some i => some i
  | none =>
    if inx = (items.length : Int) - 1 ∧ wrap ∧ items.length ≠ 0 then
      firstFocusableIn items (List.range items.length)
    else none

/-- `selectFirstItem`. -/
def selectFirstItem (s : ListState) : ListState :=
  match firstSelectableItemBelow s.items s.wrap (-1) with
  | some inx =>
    match s.items.get? inx with
    | some item => { s with selectedItem := item.id }
    | none => s
  | none => s

/-- `selectLastItem`. -/
def selectLastItem (s : ListState) : ListState :=
  match firstSelectableItemAbove s.items s.wrap s.items.length with
  | some inx =>
    match s.items.get? inx with
    | some item => { s with selectedItem := item.id }
    | none => s
  | none => s

/-- `setDefaultSelected`. -/
def setDefaultSelected (s : ListState) : ListState :=
  if s.selectedItem = "" then
    if s.direction = .forward then selectFirstItem s else selectLastItem s
  else s

/-- Update the focus flag of the item at `idx` (the state change performed
by the item's own `Focus()`/`Blur()`). -/
def setItemFocus (items : List GoItem) (idx : Nat) (f : Bool) : List GoItem :=
  match items.get? idx with
  | some it => items.set idx { it with isFocused := f }
  | none => items

/-- `focusSelectedItem`: blur the previously selected item, focus the
selected one; each transition evicts the item's render-cache entry. -/
def focusSelectedItem (s : ListState) : ListState × List Cmd :=
  if s.selectedItem = "" ∨ ¬s.focused then (s, [])
  else
    let blurStep : ListState × List Cmd :=
      if s.prevSelectedItem ≠ "" ∧ s.prevSelectedItem ≠ s.selectedItem then
        match mapGet s.indexMap s.prevSelectedItem with
        | some prevIdx =>
          match s.items.get? prevIdx with
          | some prevItem =>
            if prevItem.focusable ∧ prevItem.isFocused then
              ({ s with items := setItemFocus s.items prevIdx false,
                        renderedItems := mapDel s.renderedItems prevItem.id },
               [Cmd.blurItem prevItem.id])
            else (s, [])
          | none => (s, [])
        | none => (s, [])
      else (s, [])
    let s1 := blurStep.1
    let focusStep : ListState × List Cmd :=
      match mapGet s1.indexMap s1.selectedItem with
      | some idx =>
        match s1.items.get? idx with
        | some item =>
          if item.focusable ∧ ¬item.isFocused then
            ({ s1 with items := setItemFocus s1.items idx true,
                       renderedItems := mapDel s1.renderedItems item.id },
             [Cmd.focusItem item.id])
          else (s1, [])
        | none => (s1, [])
      | none => (s1, [])
    ({ focusStep.1 with prevSelectedItem := focusStep.1.selectedItem },
     blurStep.2 ++ focusStep.2)

/-- `blurSelectedItem`. -/
def blurSelectedItem (s : ListState) : ListState × List Cmd :=
  if s.selectedItem = "" ∨ s.focused then (s, [])
  else
    match mapGet s.indexMap s.selectedItem with
    | some idx =>
      match s.items.get? idx with
      | some item =>
        if item.focusable ∧ item.isFocused then
          ({ s with items := setItemFocus s.items idx false,
                    renderedItems := mapDel s.renderedItems item.id },
           [Cmd.blurItem item.id])
        else (s, [])
      | none => (s, [])
    | none => (s, [])

/-- The offset-assigning tail of `scrollToSelection` (reached after the
in-view early returns). -/
def scrollCore (s : ListState) (rItem : RenderedItem) (start stop : Int) : ListState :=
  if rItem.height ≥ s.height then
    if s.direction = .forward then { s with offset := rItem.start }
    else { s with offset := max 0 (s.renderedHeight - (rItem.start + s.height)) }
  else
    let renderedLines := s.renderedHeight - 1
    if rItem.start < start then
      if s.direction = .forward then { s with offset := rItem.start }
      else { s with offset := max 0 (renderedLines - rItem.start - s.height + 1) }
    else if rItem.end_ > stop then
      if s.direction = .forward then { s with offset := max 0 (rItem.end_ - s.height + 1) }
      else { s with offset := max 0 (renderedLines - rItem.end_) }
    else s

/-- `scrollToSelection`.  The `movingByItem` flag is cleared by a `defer`
registered after the moving-by-item in-view early return, so exactly the
paths that reach `scrollCore` reset it. -/
def scrollToSelection (s : ListState) : ListState :=
  match mapGet s.renderedItems s.selectedItem with
  | none => setDefaultSelected { s with selectedItem := "" }
  | some rItem =>
    let pos := viewPositionS s
    let start := pos.1
    let stop := pos.2
    if rItem.start ≤ start ∧ rItem.end_ ≥ stop then s
    else if s.movingByItem then
      if rItem.start ≥ start ∧ rItem.end_ ≤ stop then s
      else scrollCore { s with movingByItem := false } rItem start stop
    else
      if rItem.start ≥ start ∧ rItem.start ≤ stop then s
      else if rItem.end_ ≥ start ∧ rItem.end_ ≤ stop then s
      else scrollCore s rItem start stop

/-- `render`.  When the buffer already exists, a full synchronous
re-render; on first render, a height-limited pass plus a deferred
continuation command carrying `finishIndex`. -/
def render (s : ListState) : ListState × List Cmd :=
  if s.width ≤ 0 ∨ s.height ≤ 0 ∨ s.items.length = 0 then (s, [])
  else
    let s := setDefaultSelected s
    let fc := if s.focused then focusSelectedItem s else blurSelectedItem s
    let s := fc.1
    let focusCmds := fc.2
    if s.rendered ≠ [] then
      let out := renderIterator s 0 false []
      let s := setRendered { s with renderedItems := out.2.2 } out.1
      let s := if s.direction = .backward then recalculateItemPositions s else s
      let s := if s.focused then scrollToSelection s else s
      (s, focusCmds)
    else
      let out := renderIterator s 0 true []
      let s := setRendered { s with renderedItems := out.2.2 } out.1
      let s := if s.direction = .backward then recalculateItemPositions s else s
      (s, focusCmds ++ [Cmd.renderContinuation out.2.1])

/-- The deferred `renderCmd` closure produced by the initial `render`:
reset the offset, render the remainder onto the current buffer, recompute
positions for backward direction, scroll the selection into view. -/
def runRenderContinuation (s : ListState) (finishIndex : Nat) : ListState :=
  let s := { s with offset := 0 }
  let out := renderIterator s finishIndex false s.rendered
  let s := setRendered { s with renderedItems := out.2.2 } out.1
  let s := if s.direction = .backward then recalculateItemPositions s else s
  if s.focused then scrollToSelection s else s

/-- `hasSelection`. -/
def hasSelection (s : ListState) : Bool :=
  s.selectionEndCol ≠ s.selectionStartCol ∨ s.selectionEndLine ≠ s.selectionStartLine

/-- The downward candidate loop of `changeSelectionWhenScrolling`.  The Go
`for` loop advances `inx` through `firstSelectableItemBelow`; the fuel
argument bounds the iterations (without wrap the candidate index strictly
increases, so `items.length + 1` iterations always suffice; with wrap the
Go loop can cycle forever, a state no claim depends on). -/
def cswsLoopBelow (s : ListState) (start stop : Int) : Nat → Int → ListState × List Cmd
  | 0, _ => (s, [])
  | fuel + 1, inx =>
    match firstSelectableItemBelow s.items s.wrap inx with
    | none => (s, [])
    | some i =>
      match s.items.get? i with
      | none => cswsLoopBelow s start stop fuel i
      | some item =>
        match mapGet s.renderedItems item.id with
        | none => cswsLoopBelow s start stop fuel i
        | some rItem =>
          if rItem.start ≤ start ∧ rItem.end_ ≥ stop then
            render { s with selectedItem := item.id }
          else if rItem.start ≥ start ∧ rItem.start ≤ stop then
            render { s with selectedItem := item.id }
          else cswsLoopBelow s start stop fuel i

/-- The upward candidate loop of `changeSelectionWhenScrolling`. -/
def cswsLoopAbove (s : ListState) (start stop : Int) : Nat → Nat → ListState × List Cmd
  | 0, _ => (s, [])
  | fuel + 1, inx =>
    match firstSelectableItemAbove s.items s.wrap inx with
    | none => (s, [])
    | some i =>
      match s.items.get? i with
      | none => cswsLoopAbove s start stop fuel i
      | some item =>
        match mapGet s.renderedItems item.id with
        | none => cswsLoopAbove s start stop fuel i
        | some rItem =>
          if rItem.start ≤ start ∧ rItem.end_ ≥ stop then
            render { s with selectedItem := item.id }
          else if rItem.end_ ≥ start ∧ rItem.end_ ≤ stop then
            render { s with selectedItem := item.id }
          else cswsLoopAbove s start stop fuel i

/-- `changeSelectionWhenScrolling` (`itemMiddle` uses Go's truncating
integer division). -/
def changeSelectionWhenScrolling (s : ListState) : ListState × List Cmd :=
  match mapGet s.renderedItems s.selectedItem with
  | none => (s, [])
  | some rItem =>
    let pos := viewPositionS s
    let start := pos.1
    let stop := pos.2
    if rItem.start ≤ start ∧ rItem.end_ ≥ stop then (s, [])
    else if rItem.start ≥ start ∧ rItem.end_ ≤ stop then (s, [])
    else
      let itemMiddle := rItem.start + Int.div rItem.height 2
      if itemMiddle < start then
        match mapGet s.indexMap s.selectedItem with
        | none => (s, [])
        | some inx => cswsLoopBelow s start stop (s.items.length + 1) (inx : Int)
      else if itemMiddle > stop then
        match mapGet s.indexMap s.selectedItem with
        | none => (s, [])
        | some inx => cswsLoopAbove s start stop (s.items.length + 1) inx
      else (s, [])

/-- `incrementOffset`. -/
def incrementOffset (s : ListState) (n : Int) : ListState :=
  if s.renderedHeight ≤ s.height then s
  else
    let maxOffset := s.renderedHeight - s.height
    let n := min n (maxOffset - s.offset)
    if n ≤ 0 then s
    else { s with offset := s.offset + n }

/-- `decrementOffset`. -/
def decrementOffset (s : ListState) (n : Int) : ListState :=
  let n := min n s.offset
  if n ≤ 0 then s
  else
    let offset := s.offset - n
    { s with offset := if offset < 0 then 0 else offset }

/-- `MoveDown`.  (In the passive selection shift the Go code's inner
comparison selects between two identical updates, so a single update is
written here.) -/
def MoveDown (s : ListState) (n : Int) : ListState × List Cmd :=
  let oldOffset := s.offset
  let s1 := if s.direction = .forward then incrementOffset s n else decrementOffset s n
  if oldOffset = s1.offset then (s1, [])
  else
    let s2 :=
      if hasSelection s1 ∧ ¬s1.selectionActive then
        { s1 with selectionStartLine := s1.selectionStartLine - n,
                  selectionEndLine := s1.selectionEndLine - n }
      else s1
    let s3 :=
      if s2.selectionActive then
        if s2.selectionStartLine < s2.selectionEndLine then
          { s2 with selectionStartLine := s2.selectionStartLine - n }
        else { s2 with selectionEndLine := s2.selectionEndLine - n }
      else s2
    changeSelectionWhenScrolling s3

/-- `MoveUp`. -/
def MoveUp (s : ListState) (n : Int) : ListState × List Cmd :=
  let oldOffset := s.offset
  let s1 := if s.direction = .forward then decrementOffset s n else incrementOffset s n
  if oldOffset = s1.offset then (s1, [])
  else
    let s2 :=
      if hasSelection s1 ∧ ¬s1.selectionActive then
        { s1 with selectionStartLine := s1.selectionStartLine + n,
                  selectionEndLine := s1.selectionEndLine + n }
      else s1
    let s3 :=
      if s2.selectionActive then
        if s2.selectionStartLine > s2.selectionEndLine then
          { s2 with selectionStartLine := s2.selectionStartLine + n }
        else { s2 with selectionEndLine := s2.selectionEndLine + n }
      else s2
    changeSelectionWhenScrolling s3

/-- `GoToBottom`. -/
def GoToBottom (s : ListState) : ListState × List Cmd :=
  render { s with offset := 0, selectedItem := "", direction := .backward }

/-- `GoToTop`. -/
def GoToTop (s : ListState) : ListState × List Cmd :=
  render { s with offset := 0, selectedItem := "", direction := .forward }

/-- Rebuilding the id→index map from scratch (`New`, `PrependItem`,
`reset`). -/
def rebuildIndexMap (items : List GoItem) : List (String × Nat) :=
  (items.enum).foldl (fun m p => mapSet m p.2.id p.1) []

/-- The suffix re-indexing loop of `DeleteItem` (`for i := inx; …`). -/
def reindexFrom (m : List (String × Nat)) (items : List GoItem) (inx : Nat) :
    List (String × Nat) :=
  ((items.drop inx).enum).foldl (fun m2 p => mapSet m2 p.2.id (inx + p.1)) m

/-- `AppendItem`.  (`item.Init()`/`item.SetSize` commands belong to the
item and contribute no list-state effect.) -/
def AppendItem (s : ListState) (item : GoItem) : ListState × List Cmd :=
  let newIndex := s.items.length
  let s := { s with items := s.items ++ [item],
                    indexMap := mapSet s.indexMap item.id newIndex }
  let rc := render s
  let s := rc.1
  if s.direction = .backward then
    if s.offset = 0 then
      let gb := GoToBottom s
      (gb.1, rc.2 ++ gb.2)
    else
      match mapGet s.renderedItems item.id with
      | some newItem =>
        let newLines := newItem.height + (if s.items.length > 1 then s.gap else 0)
        ({ s with offset := min (s.renderedHeight - 1) (s.offset + newLines) }, rc.2)
      | none => (s, rc.2)
  else (s, rc.2)

/-- `PrependItem`. -/
def PrependItem (s : ListState) (item : GoItem) : ListState × List Cmd :=
  let s := { s with items := item :: s.items }
  let s := { s with indexMap := rebuildIndexMap s.items }
  let rc := render s
  let s := rc.1
  if s.direction = .forward then
    if s.offset = 0 then
      let gt := GoToTop s
      (gt.1, rc.2 ++ gt.2)
    else
      match mapGet s.renderedItems item.id with
      | some newItem =>
        let newLines := newItem.height + (if s.items.length > 1 then s.gap else 0)
        ({ s with offset := min (s.renderedHeight - 1) (s.offset + newLines) }, rc.2)
      | none => (s, rc.2)
  else (s, rc.2)

/-- `DeleteItem`. -/
def DeleteItem (s : ListState) (id : String) : ListState × List Cmd :=
  match mapGet s.indexMap id with
  | none => (s, [])
  | some inx =>
    let s := { s with items := s.items.eraseIdx inx,
                      renderedItems := mapDel s.renderedItems id,
                      indexMap := mapDel s.indexMap id }
    let s := { s with indexMap := reindexFrom s.indexMap s.items inx }
    let s :=
      if s.selectedItem = id then
        if inx > 0 then
          match s.items.get? (inx - 1) with
          | some item => { s with selectedItem := item.id }
          | none => { s with selectedItem := "" }
        else { s with selectedItem := "" }
      else s
    let rc := render s
    let s := rc.1
    let s :=
      if s.rendered ≠ [] then
        if s.renderedHeight ≤ s.height then { s with offset := 0 }
        else
          let maxOffset := s.renderedHeight - s.height
          if s.offset > maxOffset then { s with offset := maxOffset } else s
      else s
    (s, rc.2)

/-- `ordered.Clamp` from `charmbracelet/x/exp/ordered`: normalize the
bounds, then clamp. -/
def clampOrdered (v low high : Int) : Int :=
  let lo := if low > high then high else low
  let hi := if low > high then low else high
  max lo (min v hi)

/-- `UpdateItem`. -/
def UpdateItem (s : ListState) (id : String) (item : GoItem) : ListState × List Cmd :=
  match mapGet s.indexMap id with
  | none => (s, [])
  | some inx =>
    let s := { s with items := s.items.set inx item }
    let oldItem? := mapGet s.renderedItems id
    let oldPosition : Int := if s.direction = .backward then s.renderedHeight - 1 - s.offset else s.offset
    let s := { s with renderedItems := mapDel s.renderedItems id }
    let rc := render s
    let s := rc.1
    match oldItem? with
    | none => (s, rc.2)
    | some oldItem =>
      if s.direction = .backward then
        if oldPosition < oldItem.end_ then
          match mapGet s.renderedItems item.id with
          | some newItem =>
            let newLines := newItem.height - oldItem.height
            ({ s with offset := clampOrdered (s.offset + newLines) 0 (s.renderedHeight - 1) },
             rc.2)
          | none => (s, rc.2)
        else (s, rc.2)
      else
        if s.offset > oldItem.start then
          match mapGet s.renderedItems item.id with
          | some newItem =>
            let newLines := newItem.height - oldItem.height
            ({ s with offset := clampOrdered (s.offset + newLines) 0 (s.renderedHeight - 1) },
             rc.2)
          | none => (s, rc.2)
        else (s, rc.2)

/-- `reset`. -/
def reset (s : ListState) (selectedItem : String) : ListState × List Cmd :=
  let s := { s with rendered := [], renderedHeight := 0, offset := 0,
                    selectedItem := selectedItem,
                    indexMap := rebuildIndexMap s.items,
                    renderedItems := [] }
  render s

/-- `SetItems`. -/
def SetItems (s : ListState) (items : List GoItem) : ListState × List Cmd :=
  reset { s with items := items } ""

/-- `SetSize`: a width change forces a full reset; a height-only change
just records the new size. -/
def SetSize (s : ListState) (width height : Int) : ListState × List Cmd :=
  let oldWidth := s.width
  let s := { s with width := width, height := height }
  if oldWidth ≠ width then reset s s.selectedItem
  else (s, [])

/-- `New`: the constructor with its options applied. -/
def New (items : List GoItem) (width height gap : Int) (dir : Direction)
    (wrap focused : Bool) (selectedItem : String) : ListState :=
  { width := width, height := height, gap := gap, wrap := wrap,
    direction := dir, focused := focused,
    items := items, indexMap := rebuildIndexMap items, renderedItems := [],
    rendered := [], renderedHeight := 0, lineOffsets := [],
    offset := 0, selectedItem := selectedItem, prevSelectedItem := "",
    movingByItem := false,
    selectionStartCol := -1, selectionStartLine := -1,
    selectionEndCol := -1, selectionEndLine := -1, selectionActive := false }

/-- `Init`. -/
def Init (s : ListState) : ListState × List Cmd := render s

/-- `View()` without the external lipgloss padding/selection overlay: the
visible slice of the rendered buffer. -/
def viewText (s : ListState) : Str :=
  if s.height ≤ 0 ∨ s.width ≤ 0 then []
  else
    let pos := viewPositionS s
    let viewStart := max 0 pos.1
    if viewStart > pos.2 then []
    else getLines s.rendered s.lineOffsets viewStart.toNat pos.2.toNat

/-- Execute the deferred render-continuation commands a mutator returned
(the host event loop runs returned commands and feeds results back). -/
def runPendingRenders (r : ListState × List Cmd) : ListState :=
  r.2.foldl
    (fun st c =>
      match c with
      | Cmd.renderContinuation fi => runRenderContinuation st fi
      | _ => st)
    r.1

/-- A constructed list after `New`, `Init` and the deferred continuation
render: the fully loaded steady state. -/
def initialized (s : ListState) : ListState := runPendingRenders (Init s)

/-- A focusable test item with a fixed view. -/
def mkItem (id : String) (view : Str) : GoItem :=
  { id := id, view := view, focusable := true, isFocused := false }

/-- A non-focusable test item with a fixed view. -/
def mkPlainItem (id : String) (view : Str) : GoItem :=
  { id := id, view := view, focusable := false, isFocused := false }

/-- Five single-line focusable items `i0 … i4` with views `a … e`. -/
def fiveItems : List GoItem :=
  [mkItem "i0" ['a'], mkItem "i1" ['b'], mkItem "i2" ['c'],
   mkItem "i3" ['d'], mkItem "i4" ['e']]

/-- The five-item forward list with viewport height 3, fully loaded. -/
def fiveReady : ListState :=
  initialized (New fiveItems 10 3 0 .forward false true "")

/-- A fully loaded two-item forward list (focusable items `A`, `B`). -/
def pairReady : ListState :=
  initialized (New [mkItem "A" ['x'], mkItem "B" ['y']] 10 5 0 .forward false true "")

/-- A five-line item view. -/
def tallFive : Str := ['1', '\n', '2', '\n', '3', '\n', '4', '\n', '5']

/-- A fully loaded, unfocused forward list of two non-focusable five-line
items with a two-line viewport (total rendered height 10). -/
def tallPairReady : ListState :=
  initialized (New [mkPlainItem "A" tallFive, mkPlainItem "B" tallFive] 5 2 0 .forward false false "")

/-- The scroll-offset invariant of the data model:
`0 ≤ offset ≤ max(0, totalRenderedHeight − viewportHeight)`. -/
def Inv (s : ListState) : Prop :=
  0 ≤ s.offset ∧ s.offset ≤ max 0 (s.renderedHeight - s.height)

instance (s : ListState) : Decidable (Inv s) := by unfold Inv; infer_instance

/-- `lipgloss.Height` of an item's view. -/
def itemHeight (it : GoItem) : Int := heightL it.view

/-- The accumulated rendered height after the first `i` loop iterations of
a fresh height-limited render pass: each item contributes its measured
height plus the configured gap (this is the `currentContentHeight` value
at the top of iteration `i`). -/
def accHeight (items : List GoItem) (dir : Direction) (gap : Int) : Nat → Int
  | 0 => 0
  | i + 1 =>
    accHeight items dir gap i +
      (match items.get? (dirIdx items.length dir i) with
       | some it => itemHeight it + gap
       | none => 0)

/-! ## Selection engine (`selectionView`, `findWordBoundaries`) -/

/-- A terminal cell as the selection engine reads it: the cell's string
content (`cell.String()`), whether its style carries a background
(`cell.Style.Bg != nil`), and whether the text-selection restyle has been
applied to it (the write of the theme's `TextSelection` colors). -/
structure Cell where
  str : Str
  bg : Bool
  selStyled : Bool
deriving DecidableEq, Repr

/-- The drawn screen buffer (`uv.NewScreenBuffer` + `Draw`, both external):
rows of cells, `none` where `CellAt` returns nil. -/
abbrev Screen := List (List (Option Cell))

/-- `scr.CellAt(x, y)`: nil outside the buffer. -/
def cellAt (scr : Screen) (x y : Int) : Option Cell :=
  if x < 0 ∨ y < 0 then none
  else ((scr.get? y.toNat).bind (fun row => row.get? x.toNat)).join

/-- The selection rectangle after canonicalization. -/
structure SelRect where
  minX : Int
  minY : Int
  maxX : Int
  maxY : Int
deriving DecidableEq, Repr

/-- `uv.Rectangle.Canon` applied to the rectangle with `Min =
(startCol, startLine)`, `Max = (endCol, endLine)`: swap the coordinates of
each axis so min ≤ max. -/
def canonRect (startCol startLine endCol endLine : Int) : SelRect :=
  { minX := if startCol > endCol then endCol else startCol,
    maxX := if startCol > endCol then startCol else endCol,
    minY := if startLine > endLine then endLine else startLine,
    maxY := if startLine > endLine then startLine else endLine }

/-- `isNonWhitespace` from `selectionView`. -/
def isNonWhitespace (c : Char) : Bool :=
  c ≠ ' ' ∧ c ≠ '\t' ∧ c ≠ Char.ofNat 0 ∧ c ≠ '\n' ∧ c ≠ '\r'

/-- The per-line selection bounds (`selectionBounds`): full width for
interior lines, partial bounds for the first/last line, exact bounds for a
single-line selection. -/
def lineSelectionAt (r : SelRect) (width y : Int) : Int × Int × Bool :=
  if r.minY ≤ y ∧ y ≤ r.maxY then
    if r.minY = r.maxY then (r.minX, r.maxX, true)
    else if y = r.minY then (r.minX, width, true)
    else if y = r.maxY then (0, width, true)
    else (0, width, true)
  else (-1, -1, false)

/-- The first-pass real-text bounds of a line (`lineBounds`): first/last
cell that is non-whitespace and not an ignorable glyph, or carries a
background style; `(-1, -1)` when the line has none. -/
def lineTextBounds (specialChars : List Str) (scr : Screen) (width : Nat) (y : Int) :
    Int × Int :=
  (List.range width).foldl
    (fun b x =>
      match cellAt scr (x : Int) y with
      | none => b
      | some cell =>
        match cell.str with
        | [] => b
        | c :: _ =>
          if (isNonWhitespace c ∧ ¬cell.str ∈ specialChars) ∨ cell.bg then
            (if b.1 = -1 then (x : Int) else b.1, (x : Int) + 1)
          else b)
    (-1, -1)

/-- Apply the text-selection restyle to one cell (`scr.SetCell` with the
`TextSelection` background/foreground). -/
def setCellSelected (scr : Screen) (x y : Int) : Screen :=
  if x < 0 ∨ y < 0 then scr
  else
    match scr.get? y.toNat with
    | none => scr
    | some row =>
      match row.get? x.toNat with
      | some (some cell) => scr.set y.toNat (row.set x.toNat (some { cell with selStyled := true }))
      | _ => scr

/-- The inner x-loop of `selectionView`'s second pass over
`[scanStart, scanEnd)`: skip nil/empty/ignorable cells, collect the cell
text (the `textOnly` output) and restyle the cell (the display output).
The Go function computes one or the other depending on `textOnly`; the two
outputs do not interact, so they are produced together here. -/
def scanSelectedLine (specialChars : List Str) (y scanStart scanEnd : Int) :
    Screen × Str → Screen × Str :=
  fun acc0 =>
    (List.range (scanEnd - scanStart).toNat).foldl
      (fun acc k =>
        let x := scanStart + (k : Int)
        match cellAt acc.1 x y with
        | none => acc
        | some cell =>
          match cell.str with
          | [] => acc
          | _ :: _ =>
            if cell.str ∈ specialChars then acc
            else (setCellSelected acc.1 x y, acc.2 ++ cell.str))
      acc0

/-- The body of `selectionView` after canonicalization: for every screen
line that intersects the selection, intersect the selection bounds with
the real-text bounds and process the covered cells; an intersected line
with no real text contributes only a line break to the extracted text.
Text bounds are computed from the original screen, as in the Go first
pass. -/
def selectionViewCore (specialChars : List Str) (scr : Screen) (width height : Nat)
    (r : SelRect) : Screen × Str :=
  (List.range height).foldl
    (fun acc y =>
      let sel := lineSelectionAt r (width : Int) (y : Int)
      if ¬sel.2.2 then acc
      else
        let tb := lineTextBounds specialChars scr width (y : Int)
        if tb.1 < 0 then (acc.1, acc.2 ++ ['\n'])
        else
          let scanStart := max tb.1 sel.1
          let scanEnd := min tb.2 sel.2.1
          let out := scanSelectedLine specialChars (y : Int) scanStart scanEnd acc
          (out.1, out.2 ++ ['\n']))
    (scr, [])

/-- `unicode.IsSpace` over the ASCII whitespace the buffers contain. -/
def isSpaceChar (c : Char) : Bool :=
  c = ' ' ∨ c = '\t' ∨ c = '\n' ∨ c = Char.ofNat 11 ∨ c = Char.ofNat 12 ∨ c = '\r'

/-- `strings.TrimSpace`. -/
def trimSpace (s : Str) : Str :=
  ((s.dropWhile isSpaceChar).reverse.dropWhile isSpaceChar).reverse

/-- `selectionView`: canonicalize the selection rectangle spanned by the
two endpoints, then produce both outputs — the restyled screen
(`textOnly = false`, rendered by the external cell grid) and the trimmed
extracted text (`textOnly = true`). -/
def selectionView (specialChars : List Str) (scr : Screen) (width height : Nat)
    (startCol startLine endCol endLine : Int) : Screen × Str :=
  let core := selectionViewCore specialChars scr width height
    (canonRect startCol startLine endCol endLine)
  (core.1, trimSpace core.2)

/-- One grapheme cluster (`uniseg`), as its string content. -/
abbrev Grapheme := Str

/-- The grapheme loop of `findWordBoundaries`: `upTo` counts down from the
target column; `wb i` abstracts `gr.IsWordBoundary()` at iteration `i`
(the uniseg word-boundary classifier is an external collaborator).  A
boundary while `upTo > 0` moves the start column; a boundary while
`upTo < 0` fixes the end column and breaks; landing exactly on a space
(`upTo = 0`) returns `(0, 0)` immediately; a loop that never set the
start column also returns `(0, 0)`. -/
def findWordLoop (wb : Nat → Bool) (col : Int) :
    List Grapheme → Nat → Int → Int → Int × Int
  | [], _, startCol, endCol => if startCol = -1 then (0, 0) else (startCol, endCol)
  | g :: rest, i, startCol, endCol =>
    let upTo := col - i
    if wb i ∧ upTo > 0 then
      findWordLoop wb col rest (i + 1) (col - upTo + 1) endCol
    else if wb i ∧ upTo < 0 then
      if startCol = -1 then (0, 0) else (startCol, col - upTo + 1)
    else if upTo = 0 ∧ g = [' '] then (0, 0)
    else findWordLoop wb col rest (i + 1) startCol endCol

/-- The screen-line → rendered-buffer-line translation shared by
`findWordBoundaries` and `findParagraphBoundaries` (backward-direction
re-anchoring, then the scroll offset). -/
def translateLine (numLines : Nat) (height offset : Int) (dir : Direction) (line : Int) :
    Int :=
  let line := if dir = .backward ∧ (numLines : Int) > height
              then ((numLines : Int) - 1) - height + line + 1 else line
  if offset > 0 then (if dir = .backward then line - offset else line + offset) else line

/-- `findWordBoundaries`: translate the clicked line into rendered-buffer
coordinates, guard the bounds, then scan the target line's graphemes.
`lines` is the ANSI-stripped rendered buffer split into lines, each given
as its grapheme clusters (`strings.Split` + `ansi.Strip` + `uniseg` are
the external pipeline). -/
def findWordBoundaries (lines : List (List Grapheme)) (height offset : Int)
    (dir : Direction) (wb : Nat → Nat → Bool) (col line : Int) : Int × Int :=
  let tline := translateLine lines.length height offset dir line
  if tline < 0 ∨ tline ≥ (lines.length : Int) then (0, 0)
  else
    match lines.get? tline.toNat with
    | some grs => findWordLoop (wb tline.toNat) col grs 0 (-1) 0
    | none => (0, 0)

/-- `SelectWord`: write the word bounds into the selection state
(coincident line, inactive). -/
def SelectWord (s : ListState) (lines : List (List Grapheme)) (wb : Nat → Nat → Bool)
    (col line : Int) : ListState :=
  let bounds := findWordBoundaries lines s.height s.offset s.direction wb col line
  { s with selectionStartCol := bounds.1, selectionStartLine := line,
           selectionEndCol := bounds.2, selectionEndLine := line,
           selectionActive := false }

/-! ## Canonical layout of a fully rendered list -/

/-- The canonical rendered buffer: all item views joined with `gap + 1`
newline characters between consecutive items (what a full `renderIterator`
pass builds). -/
def joinViews (gap : Int) : List GoItem → Str
  | [] => []
  | [it] => it.view
  | it :: rest => it.view ++ fragGap (gap + 1) ++ joinViews gap rest

/-- The canonical start line offset of item `i` in the rendered buffer. -/
def canonStart (items : List GoItem) (gap : Int) (i : Nat) : Int :=
  ((items.take i).map (fun it => itemHeight it + gap)).sum

/-- The canonical render-cache entry of item `i`. -/
def canonEntry (items : List GoItem) (gap : Int) (i : Nat) (it : GoItem) : RenderedItem :=
  { view := it.view, height := itemHeight it,
    start := canonStart items gap i,
    end_ := canonStart items gap i + itemHeight it - 1 }

/-- The canonical fragment sequence of a full forward render pass. -/
def canonFrags (gap : Int) : List GoItem → List RenderFragment
  | [] => []
  | [it] => [{ view := it.view, gap := 0 }]
  | it :: rest => { view := it.view, gap := gap + 1 } :: canonFrags gap rest

/-- Every cache entry present for an item is that item's canonical
entry (entries may be missing). -/
def SubCanonCache (items : List GoItem) (gap : Int)
    (cache : List (String × RenderedItem)) : Prop :=
  ∀ j it r, items.get? j = some it → mapGet cache it.id = some r →
    r = canonEntry items gap j it

/-- Every item has a cache entry and it is the canonical one. -/
def FullCanonCache (items : List GoItem) (gap : Int)
    (cache : List (String × RenderedItem)) : Prop :=
  ∀ j it, items.get? j = some it → mapGet cache it.id = some (canonEntry items gap j it)

/-- Every cache entry present for an item records that item's view and
measured height (its position fields may be stale). -/
def HVCache (items : List GoItem) (cache : List (String × RenderedItem)) : Prop :=
  ∀ j it r, items.get? j = some it → mapGet cache it.id = some r →
    r.view = it.view ∧ r.height = itemHeight it

/-- Every item has a cache entry recording its view and measured height. -/
def FullHVCache (items : List GoItem) (cache : List (String × RenderedItem)) : Prop :=
  ∀ j it, items.get? j = some it →
    ∃ r, mapGet cache it.id = some r ∧ r.view = it.view ∧ r.height = itemHeight it

/-- Cache keys all belong to the item sequence. -/
def CacheDomSub (items : List GoItem) (cache : List (String × RenderedItem)) : Prop :=
  ∀ p ∈ cache, p.1 ∈ items.map GoItem.id

/-- Well-formedness of a fully rendered, steady list state: positive
viewport, non-negative gap, non-empty items with unique non-empty
identifiers and non-empty views, an index map and render cache that match
the item sequence's canonical layout, the rendered buffer equal to the
canonical join with its recorded height, and a selected identifier that is
either empty or an existing item's. -/
def WF (s : ListState) : Prop :=
  s.items ≠ [] ∧
  1 ≤ s.width ∧ 1 ≤ s.height ∧ 0 ≤ s.gap ∧
  (s.items.map GoItem.id).Nodup ∧
  (∀ i, (h : i < s.items.length) → s.items[i].view ≠ [] ∧ s.items[i].id ≠ "") ∧
  (∀ i, (h : i < s.items.length) → mapGet s.indexMap s.items[i].id = some i) ∧
  (∀ i, (h : i < s.items.length) →
    mapGet s.renderedItems s.items[i].id
      = some (canonEntry s.items s.gap i s.items[i])) ∧
  CacheDomSub s.items s.renderedItems ∧
  s.rendered = joinViews s.gap s.items ∧
  s.renderedHeight = heightL s.rendered ∧
  (s.selectedItem = "" ∨ s.selectedItem ∈ s.items.map GoItem.id)

instance (s : ListState) : Decidable (WF s) := by
  unfold WF CacheDomSub
  infer_instance

/-- Every cache entry retrievable by key has a non-negative start and end
line, a positive height and a non-empty view.  Holds for canonical caches
and is preserved by the renderer even on caches whose positions are stale
(after structural edits). -/
def CacheOK (cache : List (String × RenderedItem)) : Prop :=
  ∀ k r, mapGet cache k = some r →
    0 ≤ r.start ∧ 0 ≤ r.end_ ∧ 1 ≤ r.height ∧ r.view ≠ []

/-- The structural facts `render` needs to rebuild a canonical buffer and
cache: non-negative gap, unique item identifiers, non-empty views, a
render cache whose present entries are canonical and whose keys are item
identifiers, and a rendered buffer that is the canonical join with its
recorded height.  (Everything in `WF` except the viewport bounds, the
index map, identifier non-emptiness and the selection facts.) -/
def RenderReady (s : ListState) : Prop :=
  0 ≤ s.gap ∧
  (s.items.map GoItem.id).Nodup ∧
  (∀ it ∈ s.items, it.view ≠ []) ∧
  SubCanonCache s.items s.gap s.renderedItems ∧
  CacheDomSub s.items s.renderedItems ∧
  s.rendered = joinViews s.gap s.items ∧
  s.renderedHeight = heightL s.rendered

/-! ## Theorems -/

/-- **C1.** For every offset, viewport height and rendered buffer height,
in both directions, the visible line range computed by `viewPosition`
equals the specification's formula (forward `start = max(0, offset)`,
`end = min(offset + viewportHeight − 1, totalRenderedHeight − 1)`;
backward `end = max(0, totalRenderedHeight − 1 − offset)`,
`start = max(0, end − viewportHeight + 1)`; start clamped so
`start ≤ end`). -/
theorem viewPosition_eq_spec (dir : Direction) (offset height renderedHeight : Int) :
    viewPosition dir offset height renderedHeight
      = viewPositionSpec dir offset height renderedHeight := by
  cases dir <;>
    simp only [viewPosition, viewPositionSpec, reduceCtorEq, if_false, if_true,
      reduceIte, Prod.mk.injEq, and_true] <;>
    omega

theorem splitNl_ne_nil (s : Str) : splitNl s ≠ [] := by
  induction s with
  | nil => simp [splitNl]
  | cons c rest ih =>
    simp only [splitNl]
    split
    · simp
    · match h : splitNl rest with
      | [] => simp
      | l :: ls => simp

theorem nlFree_splitNl (s : Str) : NlFree (splitNl s) := by
  induction s with
  | nil => intro l hl; simp [splitNl] at hl; simp [hl]
  | cons c rest ih =>
    intro l hl
    simp only [splitNl] at hl
    by_cases hc : c = '\n'
    · rw [if_pos hc] at hl
      rcases List.mem_cons.mp hl with h | h
      · simp [h]
      · exact ih l h
    · rw [if_neg hc] at hl
      rcases hsp : splitNl rest with _ | ⟨m, ms⟩
      · exact absurd hsp (splitNl_ne_nil rest)
      · rw [hsp] at hl
        rcases List.mem_cons.mp hl with h | h
        · subst h
          intro hmem
          rcases List.mem_cons.mp hmem with h | h
          · exact hc h.symm
          · exact ih m (by simp [hsp]) h
        · exact ih l (by simp [hsp, h])

theorem linesJoin_splitNl (s : Str) : linesJoin (splitNl s) = s := by
  induction s with
  | nil => simp [splitNl, linesJoin]
  | cons c rest ih =>
    simp only [splitNl]
    by_cases hc : c = '\n'
    · rw [if_pos hc]
      rcases hsp : splitNl rest with _ | ⟨m, ms⟩
      · exact absurd hsp (splitNl_ne_nil rest)
      · rw [hsp] at ih
        subst hc
        simp only [linesJoin, List.nil_append]
        rw [ih]
    · rw [if_neg hc]
      rcases hsp : splitNl rest with _ | ⟨m, ms⟩
      · exact absurd hsp (splitNl_ne_nil rest)
      · rw [hsp] at ih
        cases ms with
        | nil => simp only [linesJoin] at ih ⊢; rw [ih]
        | cons m2 ms2 =>
          simp only [linesJoin] at ih ⊢
          rw [List.cons_append, ih]

theorem lineOffsetsAux_append (l : Str) (hl : '\n' ∉ l) (s : Str) (pos : Nat) :
    lineOffsetsAux (l ++ s) pos = lineOffsetsAux s (pos + l.length) := by
  induction l generalizing pos with
  | nil => simp [lineOffsetsAux]
  | cons c cs ih =>
    have hc : ¬c = '\n' := fun h => hl (by simp [h])
    simp only [List.cons_append, lineOffsetsAux, if_neg hc, List.append_eq]
    rw [ih (fun h => hl (List.mem_cons_of_mem _ h)) (pos + 1)]
    congr 1
    simp only [List.length_cons]
    omega

theorem lineStart_zero (L : List Str) : lineStart L 0 = 0 := by
  simp [lineStart]

theorem lineStart_cons_succ (l : Str) (L : List Str) (k : Nat) :
    lineStart (l :: L) (k + 1) = l.length + 1 + lineStart L k := by
  simp only [lineStart, List.take_succ_cons, List.map_cons, List.sum_cons]

theorem linesJoin_cons_of_ne_nil (l : Str) (L : List Str) (h : L ≠ []) :
    linesJoin (l :: L) = l ++ '\n' :: linesJoin L := by
  cases L with
  | nil => cases h rfl
  | cons m ms => rfl

theorem lineOffsetsAux_linesJoin (L : List Str) (l : Str) (hl : '\n' ∉ l)
    (hL : NlFree L) (pos : Nat) :
    lineOffsetsAux (linesJoin (l :: L)) pos
      = (List.range L.length).map (fun k => pos + lineStart (l :: L) (k + 1)) := by
  induction L generalizing l pos with
  | nil =>
    have h1 : linesJoin [l] = l ++ ([] : Str) := by simp [linesJoin]
    rw [h1, lineOffsetsAux_append l hl [] pos]
    simp [lineOffsetsAux]
  | cons m ms ih =>
    rw [linesJoin_cons_of_ne_nil l (m :: ms) (by simp),
      lineOffsetsAux_append l hl _ pos]
    simp only [lineOffsetsAux, reduceIte]
    have hm : '\n' ∉ m := hL m (by simp)
    have hms : NlFree ms := fun x hx => hL x (by simp [hx])
    rw [ih m hm hms (pos + l.length + 1)]
    rw [List.length_cons, List.range_succ_eq_map]
    simp only [List.map_cons, List.map_map, Function.comp_def, Nat.succ_eq_add_one]
    congr 1
    apply List.map_congr_left
    intro k _
    rw [lineStart_cons_succ l (m :: ms) (k + 1)]
    omega

theorem lineOffsetsOf_linesJoin (L : List Str) (hne : L ≠ []) (hL : NlFree L)
    (hj : linesJoin L ≠ []) :
    lineOffsetsOf (linesJoin L) = (List.range L.length).map (lineStart L) := by
  rcases L with _ | ⟨l, ls⟩
  · exact absurd rfl hne
  unfold lineOffsetsOf
  rw [if_neg (by simpa using hj)]
  rw [lineOffsetsAux_linesJoin ls l (hL l (by simp)) (fun x hx => hL x (by simp [hx])) 0]
  rw [List.length_cons, List.range_succ_eq_map]
  simp only [List.map_cons, List.map_map, lineStart_zero]
  congr 1
  apply List.map_congr_left
  intro k _
  simp only [Function.comp_apply, Nat.succ_eq_add_one, Nat.zero_add]

theorem getD_range_map (f : Nat → Nat) (n k : Nat) (hk : k < n) :
    ((List.range n).map f).getD k 0 = f k := by
  have hlen : k < ((List.range n).map f).length := by simpa using hk
  rw [List.getD_eq_getElem _ _ hlen]
  simp

theorem lineStart_add (L : List Str) (a m : Nat) :
    lineStart L (a + m) = lineStart L a + lineStart (L.drop a) m := by
  simp only [lineStart, List.take_add, List.map_append, List.sum_append]

theorem length_le_sum_lens (M : List Str) :
    M.length ≤ (M.map (fun l => l.length + 1)).sum := by
  induction M with
  | nil => simp
  | cons l ls ih => simp only [List.length_cons, List.map_cons, List.sum_cons]; omega

theorem min_le_lineStart (L : List Str) (k : Nat) :
    min k L.length ≤ lineStart L k := by
  have h1 := length_le_sum_lens (L.take k)
  simpa [lineStart] using h1

theorem length_linesJoin (L : List Str) (hne : L ≠ []) :
    (linesJoin L).length + 1 = lineStart L L.length := by
  induction L with
  | nil => cases hne rfl
  | cons l ls ih =>
    cases ls with
    | nil => simp [linesJoin, lineStart]
    | cons m ms =>
      rw [linesJoin_cons_of_ne_nil l (m :: ms) (by simp)]
      rw [List.length_cons, lineStart_cons_succ]
      have h2 := ih (by simp)
      rw [List.length_cons] at h2
      simp only [List.length_append, List.length_cons]
      omega

theorem drop_lineStart (L : List Str) (a : Nat) (ha : a < L.length) :
    (linesJoin L).drop (lineStart L a) = linesJoin (L.drop a) := by
  induction a generalizing L with
  | zero => simp [lineStart_zero]
  | succ a ih =>
    rcases L with _ | ⟨l, ls⟩
    · simp at ha
    rcases ls with _ | ⟨m, ms⟩
    · simp at ha
    rw [linesJoin_cons_of_ne_nil l (m :: ms) (by simp), lineStart_cons_succ]
    have h1 : l.length + 1 + lineStart (m :: ms) a
        = l.length + (lineStart (m :: ms) a + 1) := by omega
    rw [h1, ← List.drop_drop, List.drop_left, List.drop_succ_cons]
    exact ih (m :: ms) (by simpa using ha)

theorem lineStart_take (M : List Str) (k m : Nat) (h : k ≤ m) :
    lineStart (M.take m) k = lineStart M k := by
  simp only [lineStart, List.take_take, min_eq_left h]

theorem lineStart_mono (L : List Str) (a c : Nat) (h : a ≤ c) :
    lineStart L a ≤ lineStart L c := by
  have := lineStart_add L a (c - a)
  rw [Nat.add_sub_cancel' h] at this
  omega

theorem linesJoin_take_append (M : List Str) (k : Nat) (hk1 : 1 ≤ k) (hk : k < M.length) :
    linesJoin M = linesJoin (M.take k) ++ '\n' :: linesJoin (M.drop k) := by
  induction M generalizing k with
  | nil => simp at hk
  | cons l ls ih =>
    match k, hk1 with
    | 1, _ =>
      have hls : ls ≠ [] := by
        intro h; rw [h] at hk; simp at hk
      rw [linesJoin_cons_of_ne_nil l ls hls]
      simp [linesJoin]
    | (k' + 2), _ =>
      have hk'lt : k' + 1 < ls.length := by
        have := hk
        simp only [List.length_cons] at this
        omega
      have hls : ls ≠ [] := by
        intro h; rw [h] at hk'lt; simp at hk'lt
      rw [linesJoin_cons_of_ne_nil l ls hls]
      rw [List.take_succ_cons, List.drop_succ_cons]
      have htake : ls.take (k' + 1) ≠ [] := by
        have hlen : (ls.take (k' + 1)).length = min (k' + 1) ls.length := by simp
        intro h
        rw [h] at hlen
        simp at hlen
        omega
      rw [linesJoin_cons_of_ne_nil l _ htake]
      rw [ih (k' + 1) (by omega) hk'lt]
      simp

theorem take_linesJoin_take (M : List Str) (k : Nat) (hk1 : 1 ≤ k) (hk : k < M.length) :
    (linesJoin M).take (linesJoin (M.take k)).length = linesJoin (M.take k) := by
  rw [linesJoin_take_append M k hk1 hk]
  exact List.take_left _ _

theorem getLines_linesJoin (L : List Str) (hne : L ≠ []) (hnl : NlFree L)
    (hj : linesJoin L ≠ []) (a b : Nat) (hab : a ≤ b) :
    getLines (linesJoin L) (lineOffsetsOf (linesJoin L)) a b
      = linesJoin ((L.drop a).take (b - a + 1)) := by
  have hoff := lineOffsetsOf_linesJoin L hne hnl hj
  have hn : 0 < L.length := List.length_pos.mpr hne
  have hslen : (linesJoin L).length + 1 = lineStart L L.length := length_linesJoin L hne
  rw [hoff]
  have hlen : ((List.range L.length).map (lineStart L)).length = L.length := by simp
  simp only [getLines, hlen]
  by_cases ha : a ≥ L.length
  · rw [if_pos (Or.inr ha)]
    rw [List.drop_eq_nil_of_le ha]
    simp [linesJoin]
  · rw [if_neg (by push_neg; exact ⟨by omega, by omega⟩)]
    push_neg at ha
    have hSa : ((List.range L.length).map (lineStart L)).getD a 0 = lineStart L a :=
      getD_range_map _ _ _ ha
    have hdroplen : (L.drop a).length = L.length - a := by simp
    have hadd' := lineStart_add L a (L.length - a)
    rw [Nat.add_sub_cancel' (le_of_lt ha)] at hadd'
    have hmin' := min_le_lineStart (L.drop a) (L.length - a)
    rw [hdroplen, min_self] at hmin'
    by_cases hbn : b ≥ L.length
    · -- requested range runs past the last line: clamp to the buffer end
      rw [if_pos hbn]
      rw [if_neg (show ¬a > L.length - 1 by omega)]
      rw [hSa]
      by_cases hsa : lineStart L a ≥ (linesJoin L).length
      · rw [if_pos hsa]
        have hone : L.length - a = 1 := by omega
        rcases hdrop : L.drop a with _ | ⟨x, xs⟩
        · exfalso
          have hl2 := congrArg List.length hdrop
          rw [hdroplen] at hl2
          simp at hl2
          omega
        · have hl2 := congrArg List.length hdrop
          rw [hdroplen, hone] at hl2
          cases xs with
          | cons y ys => simp at hl2
          | nil =>
            have hlast := hadd'
            rw [hone, hdrop] at hlast
            have hx : x = [] := by
              have hx1 : x.length + 1 = lineStart [x] 1 := by simp [lineStart]
              refine List.eq_nil_of_length_eq_zero ?_
              omega
            subst hx
            have htk : ([([] : Str)].take (b - a + 1)) = [([] : Str)] :=
              List.take_all_of_le (by simp)
            rw [htk]
            rfl
      · rw [if_neg hsa]
        push_neg at hsa
        have hdropS : (linesJoin L).drop (lineStart L a) = linesJoin (L.drop a) :=
          drop_lineStart L a ha
        rw [if_neg (show ¬(L.length - 1 + 1 < L.length) by omega)]
        rw [min_self]
        have htail : (L.drop a).take (b - a + 1) = L.drop a :=
          List.take_all_of_le (by rw [hdroplen]; omega)
        rw [htail, hdropS]
        have hlen2 : (linesJoin (L.drop a)).length
            = (linesJoin L).length - lineStart L a := by
          rw [← hdropS]
          simp
        rw [← hlen2, List.take_length]
    · -- range fully within the buffer: stop is b itself
      push_neg at hbn
      rw [if_neg (show ¬b ≥ L.length by omega)]
      rw [if_neg (show ¬a > b by omega)]
      rw [hSa]
      by_cases hsa : lineStart L a ≥ (linesJoin L).length
      · rw [if_pos hsa]
        have hone : L.length - a = 1 := by omega
        have hban : b = a := by omega
        rcases hdrop : L.drop a with _ | ⟨x, xs⟩
        · exfalso
          have hl2 := congrArg List.length hdrop
          rw [hdroplen] at hl2
          simp at hl2
          omega
        · have hl2 := congrArg List.length hdrop
          rw [hdroplen, hone] at hl2
          cases xs with
          | cons y ys => simp at hl2
          | nil =>
            have hlast := hadd'
            rw [hone, hdrop] at hlast
            have hx : x = [] := by
              have hx1 : x.length + 1 = lineStart [x] 1 := by simp [lineStart]
              refine List.eq_nil_of_length_eq_zero ?_
              omega
            subst hx
            have htk : ([([] : Str)].take (b - a + 1)) = [([] : Str)] :=
              List.take_all_of_le (by simp)
            rw [htk]
            rfl
      · rw [if_neg hsa]
        push_neg at hsa
        have hdropS : (linesJoin L).drop (lineStart L a) = linesJoin (L.drop a) :=
          drop_lineStart L a ha
        by_cases hb3 : b + 1 < L.length
        · -- interior slice: ends strictly before the last line
          rw [if_pos hb3]
          have hSb1 : ((List.range L.length).map (lineStart L)).getD (b + 1) 0
              = lineStart L (b + 1) := getD_range_map _ _ _ hb3
          rw [hSb1]
          have hadd : lineStart L (b + 1)
              = lineStart L a + lineStart (L.drop a) (b - a + 1) := by
            have h0 := lineStart_add L a (b - a + 1)
            rw [show a + (b - a + 1) = b + 1 by omega] at h0
            exact h0
          have hmin1 := min_le_lineStart (L.drop a) (b - a + 1)
          have hmineq : min (b - a + 1) (L.drop a).length = b - a + 1 := by
            rw [hdroplen]; omega
          rw [hmineq] at hmin1
          have hTne : (L.drop a).take (b - a + 1) ≠ [] := by
            intro h
            have hl3 := congrArg List.length h
            simp only [List.length_take, hdroplen, List.length_nil] at hl3
            omega
          have hTlen : ((L.drop a).take (b - a + 1)).length = b - a + 1 := by
            simp only [List.length_take, hdroplen]
            omega
          have hTjoin : (linesJoin ((L.drop a).take (b - a + 1))).length + 1
              = lineStart ((L.drop a).take (b - a + 1)) (b - a + 1) := by
            have h0 := length_linesJoin _ hTne
            rw [hTlen] at h0
            exact h0
          have hTS : lineStart ((L.drop a).take (b - a + 1)) (b - a + 1)
              = lineStart (L.drop a) (b - a + 1) :=
            lineStart_take _ _ _ (le_refl _)
          have hSmono : lineStart L (b + 1) ≤ lineStart L L.length :=
            lineStart_mono L _ _ (by omega)
          have hminout : min (lineStart L (b + 1) - 1) (linesJoin L).length
              = lineStart L (b + 1) - 1 := by
            apply min_eq_left
            omega
          rw [hminout]
          have hcount : lineStart L (b + 1) - 1 - lineStart L a
              = (linesJoin ((L.drop a).take (b - a + 1))).length := by
            omega
          rw [hcount, hdropS]
          have hkd : b - a + 1 < (L.drop a).length := by
            rw [hdroplen]; omega
          exact take_linesJoin_take (L.drop a) (b - a + 1) (by omega) hkd
        · -- b is exactly the last line: slice to the end of the buffer
          rw [if_neg hb3]
          rw [min_self]
          have htail : (L.drop a).take (b - a + 1) = L.drop a :=
            List.take_all_of_le (by rw [hdroplen]; omega)
          rw [htail, hdropS]
          have hlen2 : (linesJoin (L.drop a)).length
              = (linesJoin L).length - lineStart L a := by
            rw [← hdropS]
            simp
          rw [← hlen2, List.take_length]

/-- **C3.**  For every inclusive line range `(start, stop)` with
`0 ≤ start ≤ stop`, `getLines` applied to a rendered buffer together with
the line-offset index that `setRendered` builds for that buffer returns
exactly the lines between the two inclusive line indices of the buffer,
and a range extending past the end of the buffer is clamped to the buffer
length rather than failing.  Both functions consume only the final buffer
string, so the result is independent of how the buffer was incrementally
built. -/
theorem getLines_returns_range (s : Str) (a b : Nat) (hab : a ≤ b) :
    getLines s (lineOffsetsOf s) a b
      = linesJoin (((splitNl s).drop a).take (b - a + 1)) := by
  by_cases hs : s = []
  · subst hs
    cases a with
    | zero =>
      have htk : ([([] : Str)].take (b - 0 + 1)) = [([] : Str)] :=
        List.take_all_of_le (by simp)
      simp [getLines, lineOffsetsOf, splitNl, htk, linesJoin]
    | succ a0 => simp [getLines, lineOffsetsOf, splitNl, linesJoin]
  · have h := getLines_linesJoin (splitNl s) (splitNl_ne_nil s) (nlFree_splitNl s)
      (by rw [linesJoin_splitNl]; exact hs) a b hab
    rwa [linesJoin_splitNl] at h

/-- Witness for **C3**: a concrete slice of the buffer `"ab\ncd\nef"`
(lines 1 through 5, clamped to the last line). -/
theorem getLines_returns_range_witness :
    1 ≤ 5 ∧
      getLines ['a', 'b', '\n', 'c', 'd', '\n', 'e', 'f']
          (lineOffsetsOf ['a', 'b', '\n', 'c', 'd', '\n', 'e', 'f']) 1 5
        = linesJoin (((splitNl ['a', 'b', '\n', 'c', 'd', '\n', 'e', 'f']).drop 1).take 5) :=
  ⟨by decide, getLines_returns_range ['a', 'b', '\n', 'c', 'd', '\n', 'e', 'f'] 1 5 (by decide)⟩

/-- **C9.** For every identifier not present in the index map, `DeleteItem`
and `UpdateItem` with that identifier are silent no-ops: they return no
command and leave the whole state (item sequence, index map, render cache,
rendered buffer, scroll offset) unchanged. -/
theorem deleteItem_updateItem_unknown_id_noop (s : ListState) (id : String) (item : GoItem)
    (h : mapGet s.indexMap id = none) :
    DeleteItem s id = (s, []) ∧ UpdateItem s id item = (s, []) := by
  unfold DeleteItem UpdateItem
  rw [h]
  exact ⟨rfl, rfl⟩

/-- Witness for **C9**: deleting/updating the unknown id `"zz"` on a
two-item list. -/
theorem deleteItem_updateItem_unknown_id_noop_witness :
    mapGet pairReady.indexMap "zz" = none ∧
      (DeleteItem pairReady "zz" = (pairReady, []) ∧
        UpdateItem pairReady "zz" (mkItem "zz" ['q']) = (pairReady, [])) :=
  ⟨by decide, deleteItem_updateItem_unknown_id_noop pairReady "zz" (mkItem "zz" ['q'])
    (by decide)⟩

/-- **C4 counterexample.** In the five-single-line-item scenario (viewport
height 3, forward direction), `GoToBottom` followed by `MoveUp(2)` shows
items 0–2 (`"a\nb\nc"`), not items 2–4 (`"c\nd\ne"`) as claimed:
`GoToBottom` anchors the view at the bottom (already showing items 2–4)
and `MoveUp(2)` then scrolls two lines up, away from them. -/
theorem goToBottom_moveUp_shows_items_2_4_cex :
    viewText (MoveUp (GoToBottom fiveReady).1 2).1 = ['a', '\n', 'b', '\n', 'c'] ∧
      ¬viewText (MoveUp (GoToBottom fiveReady).1 2).1
          = linesJoin [['c'], ['d'], ['e']] := by
  constructor
  · rfl
  · decide

/-- **C4 amended.** In the same scenario, `GoToBottom` shows items 2–4 and
the subsequent `MoveUp(2)` leaves the visible range showing items 0
through 2 (0-indexed) in original top-to-bottom order. -/
theorem goToBottom_moveUp_visible_range :
    viewText (GoToBottom fiveReady).1 = linesJoin [['c'], ['d'], ['e']] ∧
      viewText (MoveUp (GoToBottom fiveReady).1 2).1
        = linesJoin [['a'], ['b'], ['c']] := by
  constructor <;> rfl

/-- **C10 counterexample.** `GoToBottom` does not leave the selected
identifier cleared: the re-render it triggers immediately re-selects the
default (last focusable) item, here `"B"`. -/
theorem goToBottom_clears_selection_cex :
    (GoToBottom pairReady).1.selectedItem = "B" ∧
      ¬(GoToBottom pairReady).1.selectedItem = "" := by
  constructor
  · rfl
  · decide

/-- **C2 counterexample.** The offset invariant
`0 ≤ offset ≤ max(0, totalRenderedHeight − viewportHeight)` is not
preserved by every mutator: starting from a fully loaded 10-line list with
viewport height 2 scrolled to the bottom (offset 8, where the invariant
holds), `SetSize` with the same width and height 5 leaves the offset at 8,
above the new bound `max(0, 10 − 5) = 5`. -/
theorem offset_invariant_setSize_cex :
    Inv (MoveDown tallPairReady 8).1 ∧
      (MoveDown tallPairReady 8).1.offset = 8 ∧
      (SetSize (MoveDown tallPairReady 8).1 5 5).1.offset = 8 ∧
      (SetSize (MoveDown tallPairReady 8).1 5 5).1.renderedHeight = 10 ∧
      (SetSize (MoveDown tallPairReady 8).1 5 5).1.height = 5 ∧
      ¬Inv (SetSize (MoveDown tallPairReady 8).1 5 5).1 := by
  refine ⟨by decide, rfl, rfl, rfl, rfl, by decide⟩

theorem selectFirstItem_direction (s : ListState) :
    (selectFirstItem s).direction = s.direction := by
  unfold selectFirstItem
  repeat' split
  all_goals rfl

theorem selectLastItem_direction (s : ListState) :
    (selectLastItem s).direction = s.direction := by
  unfold selectLastItem
  repeat' split
  all_goals rfl

theorem setDefaultSelected_direction (s : ListState) :
    (setDefaultSelected s).direction = s.direction := by
  unfold setDefaultSelected
  repeat' split
  all_goals first
    | rfl
    | exact selectFirstItem_direction s
    | exact selectLastItem_direction s

theorem focusSelectedItem_direction (s : ListState) :
    (focusSelectedItem s).1.direction = s.direction := by
  simp only [focusSelectedItem]
  repeat' split
  all_goals rfl

theorem blurSelectedItem_direction (s : ListState) :
    (blurSelectedItem s).1.direction = s.direction := by
  simp only [blurSelectedItem]
  repeat' split
  all_goals rfl

theorem scrollCore_direction (s : ListState) (r : RenderedItem) (a b : Int) :
    (scrollCore s r a b).direction = s.direction := by
  unfold scrollCore
  repeat' split
  all_goals rfl

theorem scrollToSelection_direction (s : ListState) :
    (scrollToSelection s).direction = s.direction := by
  simp only [scrollToSelection]
  repeat' split
  all_goals first
    | rfl
    | exact setDefaultSelected_direction _
    | exact scrollCore_direction _ _ _ _

theorem setRendered_direction (s : ListState) (r : Str) :
    (setRendered s r).direction = s.direction := rfl

theorem recalculateItemPositions_direction (s : ListState) :
    (recalculateItemPositions s).direction = s.direction := rfl

theorem render_direction (s : ListState) :
    (render s).1.direction = s.direction := by
  simp only [render]
  repeat' split
  all_goals
    simp only [scrollToSelection_direction, setRendered_direction,
      recalculateItemPositions_direction, focusSelectedItem_direction,
      blurSelectedItem_direction, setDefaultSelected_direction]

/-- **C10 amended.** `GoToBottom` writes offset `0`, an empty selected
identifier and backward direction into the state before triggering the
re-render (and `GoToTop` symmetrically with forward direction); the
re-render re-selects a default item and may scroll it into view, but never
touches the direction flag — so after the full call the render direction
is always backward after `GoToBottom` and always forward after `GoToTop`,
in every state. -/
theorem goToBottom_goToTop_direction (s : ListState) :
    (GoToBottom s).1.direction = Direction.backward ∧
      (GoToTop s).1.direction = Direction.forward := by
  unfold GoToBottom GoToTop
  rw [render_direction, render_direction]
  exact ⟨rfl, rfl⟩

theorem mapGet_cons (p : String × β) (rest : List (String × β)) (k : String) :
    mapGet (p :: rest) k = if p.1 = k then some p.2 else mapGet rest k := by
  by_cases h : p.1 = k <;> simp [mapGet, List.find?, h]

theorem mapGet_del (m : List (String × β)) (k k' : String) :
    mapGet (mapDel m k) k' = if k' = k then none else mapGet m k' := by
  induction m with
  | nil => simp [mapGet, mapDel]
  | cons p rest ih =>
    by_cases hp : p.1 = k
    · rw [show mapDel (p :: rest) k = mapDel rest k by simp [mapDel, hp]]
      rw [ih, mapGet_cons]
      by_cases hk : k' = k
      · simp [hk]
      · have : ¬p.1 = k' := by rw [hp]; exact fun hc => hk hc.symm
        simp [hk, this]
    · rw [show mapDel (p :: rest) k = p :: mapDel rest k by simp [mapDel, hp]]
      rw [mapGet_cons, ih, mapGet_cons]
      by_cases hq : p.1 = k'
      · have hk : ¬k' = k := by rw [← hq]; exact fun hc => hp hc
        simp [hq, hk]
      · simp [hq]

theorem mapGet_set (m : List (String × β)) (k k' : String) (v : β) :
    mapGet (mapSet m k v) k' = if k' = k then some v else mapGet m k' := by
  unfold mapSet
  rw [mapGet_cons, mapGet_del]
  by_cases hk : k' = k <;> simp [hk]
  intro h
  exact absurd h.symm hk

theorem mapGet_set_self (m : List (String × β)) (k : String) (v : β) :
    mapGet (mapSet m k v) k = some v := by
  rw [mapGet_set]; simp

theorem mapGet_set_ne (m : List (String × β)) (k k' : String) (v : β) (h : k' ≠ k) :
    mapGet (mapSet m k v) k' = mapGet m k' := by
  rw [mapGet_set]; simp [h]

theorem mapGet_del_self (m : List (String × β)) (k : String) :
    mapGet (mapDel m k) k = none := by
  rw [mapGet_del]; simp

theorem mapGet_del_ne (m : List (String × β)) (k k' : String) (h : k' ≠ k) :
    mapGet (mapDel m k) k' = mapGet m k' := by
  rw [mapGet_del]; simp [h]

theorem mapGet_some_mem (m : List (String × β)) (k : String) (v : β)
    (h : mapGet m k = some v) : (k, v) ∈ m := by
  unfold mapGet at h
  rcases hf : m.find? (fun p => p.1 = k) with _ | p
  · rw [hf] at h; simp at h
  · rw [hf] at h
    simp at h
    have hmem := List.mem_of_find?_eq_some hf
    have hpred := List.find?_some hf
    simp at hpred
    rw [← hpred, ← h]
    exact hmem

theorem dirIdx_lt (len : Nat) (dir : Direction) (j : Nat) (h : j < len) :
    dirIdx len dir j < len := by
  unfold dirIdx
  split <;> omega

theorem dirIdx_inj (len : Nat) (dir : Direction) (i j : Nat)
    (hi : i < len) (hj : j < len) (h : dirIdx len dir i = dirIdx len dir j) : i = j := by
  unfold dirIdx at h
  split at h <;> omega

theorem id_inj_of_nodup (items : List GoItem) (h : (items.map GoItem.id).Nodup)
    (a b : Nat) (ita itb : GoItem) (ha : items.get? a = some ita) (hb : items.get? b = some itb)
    (heq : ita.id = itb.id) : a = b := by
  have ha' : a < items.length := by
    by_contra hc
    rw [List.get?_eq_none.mpr (by omega)] at ha
    exact Option.noConfusion ha
  have hb' : b < items.length := by
    by_contra hc
    rw [List.get?_eq_none.mpr (by omega)] at hb
    exact Option.noConfusion hb
  have hma : (items.map GoItem.id).get? a = some ita.id := by
    rw [List.get?_map, ha]; rfl
  have hmb : (items.map GoItem.id).get? b = some itb.id := by
    rw [List.get?_map, hb]; rfl
  rw [heq] at hma
  exact List.get?_inj (by simpa using ha') h (hma.trans hmb.symm)

theorem renderIterLoop_limit_char (items : List GoItem) (dir : Direction) (height gap : Int)
    (hnodup : (items.map GoItem.id).Nodup) :
    ∀ (remaining i : Nat) (cache : List (String × RenderedItem))
      (frags : List RenderFragment),
      remaining + i = items.length →
      (∀ j, i ≤ j → j < items.length →
        ∀ it, items.get? (dirIdx items.length dir j) = some it → mapGet cache it.id = none) →
      ∀ current, current = accHeight items dir gap i →
        i ≤ (renderIterLoop items dir height gap true remaining i current cache frags).2.1 ∧
        (renderIterLoop items dir height gap true remaining i current cache frags).2.1
          ≤ items.length ∧
        ((renderIterLoop items dir height gap true remaining i current cache frags).2.1
            < items.length →
          accHeight items dir gap
              (renderIterLoop items dir height gap true remaining i current cache frags).2.1
            ≥ height) ∧
        (∀ m, i ≤ m →
          m < (renderIterLoop items dir height gap true remaining i current cache frags).2.1 →
          accHeight items dir gap m < height) := by
  intro remaining
  induction remaining with
  | zero =>
    intro i cache frags hsum hcache current hcur
    simp only [renderIterLoop]
    have hi : i = items.length := by omega
    refine ⟨by omega, le_refl _, by omega, ?_⟩
    intro m hm1 hm2
    omega
  | succ remaining ih =>
    intro i cache frags hsum hcache current hcur
    have hi : i < items.length := by omega
    have hlt := dirIdx_lt items.length dir i hi
    simp only [renderIterLoop]
    split
    case isTrue hstop =>
      dsimp only
      refine ⟨le_refl _, by omega, ?_, ?_⟩
      · intro _
        rw [← hcur]
        exact hstop.2
      · intro m hm1 hm2
        omega
    case isFalse hstop =>
      have hnostop : ¬current ≥ height := fun hc => hstop ⟨by trivial, hc⟩
      split
      case h_1 hget =>
        exfalso
        rw [List.get?_eq_none] at hget
        omega
      case h_2 it hget =>
        have hfresh : mapGet cache it.id = none :=
          hcache i (le_refl _) hi it hget
        split
        case h_1 rItem hhit =>
          rw [hfresh] at hhit
          exact Option.noConfusion hhit
        case h_2 hmiss =>
          have hacc : accHeight items dir gap (i + 1)
              = current + (itemHeight it + gap) := by
            rw [hcur]
            simp only [accHeight, hget]
          have hstep := ih (i + 1)
            (mapSet cache it.id
              { view := (renderItem it).view, height := (renderItem it).height, start := current, end_ := current + (renderItem it).height - 1 })
            (frags ++ [{ view := (renderItem it).view, gap := if dirIdx items.length dir i = items.length - 1 then (0 : Int) else gap + 1 }])
            (by omega)
            (by
              intro j hj1 hj2 itj hgetj
              have hne : itj.id ≠ it.id := by
                intro hideq
                have hidx := id_inj_of_nodup items hnodup _ _ _ _ hgetj hget hideq
                have := dirIdx_inj items.length dir j i hj2 hi
                omega
              rw [mapGet_set_ne _ _ _ _ hne]
              exact hcache j (by omega) hj2 itj hgetj)
            (current + (renderItem it).height - 1 + 1 + gap)
            (by
              rw [hacc]
              simp only [renderItem, itemHeight]
              ring)
          -- the recursive call in the goal matches hstep's subject
          refine ⟨by omega, hstep.2.1, hstep.2.2.1, ?_⟩
          intro m hm1 hm2
          by_cases hmi : m = i
          · subst hmi
            rw [← hcur]
            omega
          · exact hstep.2.2.2 m (by omega) hm2

/-- **C8.** On the initial height-limited render pass (fresh cache, empty
base buffer), `renderIterator` walks the items in direction order and the
returned `finishIndex` is exactly the first iteration index at which the
accumulated rendered height meets or exceeds the viewport height — or
`items.length` when every item was rendered before reaching it — so the
continuation pass can resume from that index. -/
theorem renderIterator_initial_finishIndex (s : ListState)
    (hcache : s.renderedItems = [])
    (hnodup : (s.items.map GoItem.id).Nodup) :
    (renderIterator s 0 true []).2.1 ≤ s.items.length ∧
      ((renderIterator s 0 true []).2.1 < s.items.length →
        accHeight s.items s.direction s.gap (renderIterator s 0 true []).2.1 ≥ s.height) ∧
      (∀ m, m < (renderIterator s 0 true []).2.1 →
        accHeight s.items s.direction s.gap m < s.height) := by
  have h := renderIterLoop_limit_char s.items s.direction s.height s.gap hnodup
    (s.items.length - 0) 0 s.renderedItems [] (by omega)
    (by intro j h1 h2 it hget; rw [hcache]; rfl)
    (heightL [] - 1) (by rfl)
  unfold renderIterator
  split <;> dsimp only <;> exact ⟨h.2.1, h.2.2.1, fun m hm => h.2.2.2 m (by omega) hm⟩

/-- Witness for **C8**: the five-item list with viewport height 3 before
its first render. -/
theorem renderIterator_initial_finishIndex_witness :
    (New fiveItems 10 3 0 .forward false true "").renderedItems = [] ∧
      ((New fiveItems 10 3 0 .forward false true "").items.map GoItem.id).Nodup ∧
      ((renderIterator (New fiveItems 10 3 0 .forward false true "") 0 true []).2.1
          ≤ (New fiveItems 10 3 0 .forward false true "").items.length ∧
        ((renderIterator (New fiveItems 10 3 0 .forward false true "") 0 true []).2.1
            < (New fiveItems 10 3 0 .forward false true "").items.length →
          accHeight (New fiveItems 10 3 0 .forward false true "").items
              (New fiveItems 10 3 0 .forward false true "").direction
              (New fiveItems 10 3 0 .forward false true "").gap
              (renderIterator (New fiveItems 10 3 0 .forward false true "") 0 true []).2.1
            ≥ (New fiveItems 10 3 0 .forward false true "").height) ∧
        (∀ m, m < (renderIterator (New fiveItems 10 3 0 .forward false true "") 0 true []).2.1 →
          accHeight (New fiveItems 10 3 0 .forward false true "").items
              (New fiveItems 10 3 0 .forward false true "").direction
              (New fiveItems 10 3 0 .forward false true "").gap m
            < (New fiveItems 10 3 0 .forward false true "").height)) :=
  ⟨rfl, by decide,
    renderIterator_initial_finishIndex (New fiveItems 10 3 0 .forward false true "")
      rfl (by decide)⟩

theorem canonRect_comm (c1 l1 c2 l2 : Int) :
    canonRect c2 l2 c1 l1 = canonRect c1 l1 c2 l2 := by
  simp only [canonRect, SelRect.mk.injEq]
  refine ⟨?_, ?_, ?_, ?_⟩ <;> split_ifs <;> omega

/-- **C5.** For every ignorable-glyph set, drawn screen, dimensions and
pair of selection-rectangle endpoints, the selection result with the
endpoints given in reversed order (max before min) — both the restyled
screen and the extracted text — is identical to the result with the
endpoints in canonical order: the rectangle is canonicalized before any
other processing. -/
theorem selectionView_endpoint_swap (specialChars : List Str) (scr : Screen)
    (width height : Nat) (startCol startLine endCol endLine : Int) :
    selectionView specialChars scr width height endCol endLine startCol startLine
      = selectionView specialChars scr width height startCol startLine endCol endLine := by
  unfold selectionView
  rw [canonRect_comm]

theorem findWordLoop_space (wb : Nat → Bool) (col : Int) :
    ∀ (grs : List Grapheme) (i : Nat) (startCol endCol : Int),
      0 ≤ col - i → grs.get? (col - i).toNat = some [' '] →
      findWordLoop wb col grs i startCol endCol = (0, 0) := by
  intro grs
  induction grs with
  | nil =>
    intro i startCol endCol hge hget
    simp at hget
  | cons g rest ih =>
    intro i startCol endCol hge hget
    simp only [findWordLoop]
    by_cases h0 : col - i = 0
    · have hg : g = [' '] := by
        rw [h0] at hget
        simpa using hget
      rw [if_neg (by simp [h0] : ¬(wb i = true ∧ col - i > 0)),
        if_neg (by simp [h0] : ¬(wb i = true ∧ col - i < 0)),
        if_pos ⟨h0, hg⟩]
    · have hpos : col - i > 0 := by omega
      have hget2 : rest.get? (col - (i + 1)).toNat = some [' '] := by
        have hn : (col - i).toNat = ((col - (i + 1)).toNat) + 1 := by omega
        rw [hn] at hget
        simpa using hget
      by_cases hwb : wb i
      · rw [if_pos ⟨hwb, hpos⟩]
        exact ih (i + 1) _ _ (by omega) hget2
      · rw [if_neg (by simp [hwb]), if_neg (by simp [hwb]),
          if_neg (by simp [h0] : ¬(col - i = 0 ∧ g = [' ']))]
        exact ih (i + 1) _ _ (by omega) hget2

/-- **C6.** For every rendered buffer (given as its ANSI-stripped grapheme
lines), every scroll state and every word-boundary classifier, word
selection at a column that lands exactly on a space character yields an
empty selection: `findWordBoundaries` returns `(0, 0)` and the selection
state written by `SelectWord` has coincident endpoints, so no selection
exists. -/
theorem selectWord_on_space_empty (s : ListState) (lines : List (List Grapheme))
    (wb : Nat → Nat → Bool) (col line : Int) (grs : List Grapheme)
    (hcol : 0 ≤ col)
    (hlo : 0 ≤ translateLine lines.length s.height s.offset s.direction line)
    (hhi : translateLine lines.length s.height s.offset s.direction line
      < (lines.length : Int))
    (hgrs : lines.get?
      (translateLine lines.length s.height s.offset s.direction line).toNat = some grs)
    (hspace : grs.get? col.toNat = some [' ']) :
    findWordBoundaries lines s.height s.offset s.direction wb col line = (0, 0) ∧
      (SelectWord s lines wb col line).selectionStartCol = 0 ∧
      (SelectWord s lines wb col line).selectionEndCol = 0 ∧
      (SelectWord s lines wb col line).selectionStartLine
        = (SelectWord s lines wb col line).selectionEndLine ∧
      hasSelection (SelectWord s lines wb col line) = false := by
  have hfind : findWordBoundaries lines s.height s.offset s.direction wb col line = (0, 0) := by
    unfold findWordBoundaries
    rw [if_neg (by push_neg; exact ⟨hlo, hhi⟩)]
    rw [hgrs]
    apply findWordLoop_space
    · simpa using hcol
    · simpa using hspace
  refine ⟨hfind, ?_, ?_, rfl, ?_⟩
  · simp [SelectWord, hfind]
  · simp [SelectWord, hfind]
  · simp [hasSelection, SelectWord, hfind]

/-- Witness for **C6**: clicking column 2 (the space) of the single line
`"ab c"` (graphemes `a`, `b`, space, `c`) in a forward list with zero
offset. -/
theorem selectWord_on_space_empty_witness :
    (0 : Int) ≤ 2 ∧
      findWordBoundaries [[['a'], ['b'], [' '], ['c']]] 3 0 Direction.forward
          (fun _ _ => true) 2 0 = (0, 0) := by
  have h := selectWord_on_space_empty
    (New [] 10 3 0 .forward false true "") [[['a'], ['b'], [' '], ['c']]]
    (fun _ _ => true) 2 0 [['a'], ['b'], [' '], ['c']]
    (by decide) (by decide) (by decide) (by decide) (by decide)
  exact ⟨by decide, h.1⟩

theorem itemHeight_pos (it : GoItem) : 1 ≤ itemHeight it := by
  unfold itemHeight heightL
  have : (0 : Int) ≤ (it.view.count '\n' : Int) := Int.ofNat_nonneg _
  omega

theorem heightL_append (a b : Str) : heightL (a ++ b) = heightL a + heightL b - 1 := by
  unfold heightL
  rw [List.count_append]
  push_cast
  ring

theorem heightL_fragGap (g : Int) (hg : 0 ≤ g) : heightL (fragGap g) = g + 1 := by
  unfold heightL fragGap
  rw [List.count_replicate]
  simp
  omega

theorem canonStart_zero (items : List GoItem) (gap : Int) : canonStart items gap 0 = 0 := by
  simp [canonStart]

theorem canonStart_succ (items : List GoItem) (gap : Int) (j : Nat) (it : GoItem)
    (hget : items.get? j = some it) :
    canonStart items gap (j + 1) = canonStart items gap j + (itemHeight it + gap) := by
  unfold canonStart
  have hg2 : items[j]? = some it := by rw [← List.get?_eq_getElem?]; exact hget
  rw [List.take_succ, hg2]
  simp

theorem canonStart_cons_succ (it : GoItem) (rest : List GoItem) (gap : Int) (j : Nat) :
    canonStart (it :: rest) gap (j + 1) = (itemHeight it + gap) + canonStart rest gap j := by
  unfold canonStart
  rw [List.take_succ_cons]
  simp

theorem sum_gapHeights_nonneg (gap : Int) (hg : 0 ≤ gap) (l : List GoItem) :
    0 ≤ (l.map (fun it => itemHeight it + gap)).sum := by
  induction l with
  | nil => simp
  | cons x xs ih =>
    simp only [List.map_cons, List.sum_cons]
    have := itemHeight_pos x
    omega

theorem canonStart_nonneg (items : List GoItem) (gap : Int) (hg : 0 ≤ gap) (i : Nat) :
    0 ≤ canonStart items gap i :=
  sum_gapHeights_nonneg gap hg _

theorem canonStart_le (items : List GoItem) (gap : Int) (hg : 0 ≤ gap) (a b : Nat)
    (hab : a ≤ b) : canonStart items gap a ≤ canonStart items gap b := by
  unfold canonStart
  rw [show b = a + (b - a) by omega, List.take_add, List.map_append, List.sum_append]
  have := sum_gapHeights_nonneg gap hg ((items.drop a).take (b - a))
  omega

theorem canonStart_all (items : List GoItem) (gap : Int) :
    canonStart items gap items.length
      = (items.map (fun it => itemHeight it + gap)).sum := by
  unfold canonStart
  rw [List.take_length]

theorem joinViews_congr (gap : Int) (items1 items2 : List GoItem)
    (h : items1.map GoItem.view = items2.map GoItem.view) :
    joinViews gap items1 = joinViews gap items2 := by
  induction items1 generalizing items2 with
  | nil =>
    cases items2 with
    | nil => rfl
    | cons b bs => simp at h
  | cons a as ih =>
    cases items2 with
    | nil => simp at h
    | cons b bs =>
      simp only [List.map_cons, List.cons.injEq] at h
      cases as with
      | nil =>
        cases bs with
        | nil => simp [joinViews, h.1]
        | cons b2 bs2 => simp at h
      | cons a2 as2 =>
        cases bs with
        | cons b2 bs2 =>
          have hj := ih (b2 :: bs2) h.2
          simp only [joinViews]
          rw [h.1, hj]
        | nil => simp at h

theorem joinViews_ne_nil (gap : Int) (items : List GoItem) (hne : items ≠ [])
    (hv : ∀ it ∈ items, it.view ≠ []) : joinViews gap items ≠ [] := by
  cases items with
  | nil => cases hne rfl
  | cons it rest =>
    cases rest with
    | nil => exact hv it (by simp)
    | cons it2 rest2 =>
      simp only [joinViews]
      intro hc
      rw [List.append_assoc] at hc
      have := List.append_eq_nil.mp hc
      exact hv it (by simp) this.1

theorem heightL_joinViews (gap : Int) (hg : 0 ≤ gap) (items : List GoItem)
    (hne : items ≠ []) :
    heightL (joinViews gap items)
      = (items.map (fun it => itemHeight it + gap)).sum - gap := by
  induction items with
  | nil => cases hne rfl
  | cons it rest ih =>
    cases rest with
    | nil =>
      show heightL it.view = ([it].map (fun it => itemHeight it + gap)).sum - gap
      simp only [List.map_cons, List.map_nil, List.sum_cons, List.sum_nil]
      unfold itemHeight
      omega
    | cons it2 rest2 =>
      have hrec := ih (by simp)
      simp only [joinViews] at hrec ⊢
      rw [heightL_append, heightL_append, heightL_fragGap _ (by omega), hrec]
      simp only [List.map_cons, List.sum_cons]
      unfold itemHeight
      omega

theorem heightL_joinViews_canon (gap : Int) (hg : 0 ≤ gap) (items : List GoItem)
    (hne : items ≠ []) :
    heightL (joinViews gap items) = canonStart items gap items.length - gap := by
  rw [heightL_joinViews gap hg items hne, canonStart_all]

theorem canonFrags_length (gap : Int) (items : List GoItem) :
    (canonFrags gap items).length = items.length := by
  induction items with
  | nil => rfl
  | cons it rest ih =>
    cases rest with
    | nil => rfl
    | cons it2 rest2 =>
      simp only [canonFrags, List.length_cons] at ih ⊢
      omega

theorem canonFrags_get? (gap : Int) (items : List GoItem) (j : Nat) (it : GoItem)
    (hget : items.get? j = some it) :
    (canonFrags gap items).get? j
      = some { view := it.view, gap := if j = items.length - 1 then 0 else gap + 1 } := by
  induction items generalizing j with
  | nil => simp at hget
  | cons a rest ih =>
    cases rest with
    | nil =>
      cases j with
      | zero =>
        simp only [List.get?] at hget
        cases hget
        rfl
      | succ j0 => simp [List.get?] at hget
    | cons a2 rest2 =>
      cases j with
      | zero =>
        simp only [List.get?] at hget
        cases hget
        simp [canonFrags]
      | succ j0 =>
        simp only [List.get?] at hget
        have := ih j0 hget
        simp only [canonFrags, List.get?, this, List.length_cons]
        congr 2
        by_cases hj : j0 = (a2 :: rest2).length - 1
        · simp only [List.length_cons] at hj
          rw [if_pos hj, if_pos (by omega)]
        · simp only [List.length_cons] at hj
          rw [if_neg hj, if_neg (by omega)]

theorem assembleForward_canonFrags (gap : Int) (items : List GoItem) (hg : 0 ≤ gap) :
    assembleForward [] (canonFrags gap items) = joinViews gap items := by
  unfold assembleForward
  rw [List.nil_append]
  induction items with
  | nil => rfl
  | cons it rest ih =>
    cases rest with
    | nil =>
      show it.view ++ fragGap 0 ++ [] = it.view
      simp [fragGap]
    | cons it2 rest2 =>
      simp only [canonFrags, List.map_cons, List.join_cons, joinViews] at ih ⊢
      rw [ih, List.append_assoc]

theorem assembleBackward_canonFrags (gap : Int) (items : List GoItem) (hg : 0 ≤ gap) :
    assembleBackward [] ((canonFrags gap items).reverse) = joinViews gap items := by
  unfold assembleBackward
  rw [List.reverse_reverse, List.append_nil]
  have h := assembleForward_canonFrags gap items hg
  unfold assembleForward at h
  rw [List.nil_append] at h
  exact h

theorem mem_mapDel (m : List (String × β)) (k : String) (p : String × β)
    (h : p ∈ mapDel m k) : p ∈ m :=
  List.mem_of_mem_filter h

theorem mem_mapSet (m : List (String × β)) (k : String) (v : β) (p : String × β)
    (h : p ∈ mapSet m k v) : p = (k, v) ∨ p ∈ m := by
  rcases List.mem_cons.mp h with h1 | h1
  · exact Or.inl h1
  · exact Or.inr (mem_mapDel m k p h1)

theorem canonEntry_end_le (items : List GoItem) (gap : Int) (hg : 0 ≤ gap)
    (j : Nat) (it : GoItem) (hget : items.get? j = some it) :
    canonStart items gap j + itemHeight it - 1 ≤ heightL (joinViews gap items) - 1 := by
  have hne : items ≠ [] := by
    intro hc
    rw [hc] at hget
    simp at hget
  have hlt : j < items.length := by
    by_contra hc
    rw [List.get?_eq_none.mpr (by omega)] at hget
    exact Option.noConfusion hget
  rw [heightL_joinViews_canon gap hg items hne]
  have h1 := canonStart_succ items gap j it hget
  have h2 := canonStart_le items gap hg (j + 1) items.length (by omega)
  omega

theorem dirIdx_forward (len i : Nat) : dirIdx len .forward i = i := by
  simp [dirIdx]

theorem renderIterLoop_mono (items : List GoItem) (dir : Direction)
    (height gap : Int) (limitHeight : Bool) :
    ∀ (remaining i : Nat) (current : Int) (cache : List (String × RenderedItem))
      (frags : List RenderFragment) (key : String) (r : RenderedItem),
      mapGet cache key = some r →
      mapGet (renderIterLoop items dir height gap limitHeight
        remaining i current cache frags).2.2 key = some r := by
  intro remaining
  induction remaining with
  | zero =>
    intro i current cache frags key r h
    simpa [renderIterLoop] using h
  | succ remaining ih =>
    intro i current cache frags key r h
    simp only [renderIterLoop]
    split
    · exact h
    · split
      case h_1 => exact ih _ _ _ _ _ _ h
      case h_2 it hget =>
        split
        case h_1 rItem hhit => exact ih _ _ _ _ _ _ h
        case h_2 hmiss =>
          apply ih
          by_cases hk : key = it.id
          · rw [hk] at h
            rw [h] at hmiss
            exact Option.noConfusion hmiss
          · rw [mapGet_set_ne _ _ _ _ hk]
            exact h
theorem renderIterLoop_forward_full (items : List GoItem) (height gap : Int)
    (hnodup : (items.map GoItem.id).Nodup) :
    ∀ (remaining i : Nat) (current : Int) (cache : List (String × RenderedItem))
      (frags : List RenderFragment),
      remaining + i = items.length →
      SubCanonCache items gap cache →
      current = canonStart items gap i →
      (renderIterLoop items .forward height gap false remaining i current cache frags).1
          = frags ++ (canonFrags gap items).drop i ∧
        (∀ j it, items.get? j = some it → i ≤ j →
          mapGet (renderIterLoop items .forward height gap false
              remaining i current cache frags).2.2 it.id
            = some (canonEntry items gap j it)) ∧
        (∀ key, key ∉ items.map GoItem.id →
          mapGet (renderIterLoop items .forward height gap false
              remaining i current cache frags).2.2 key = mapGet cache key) ∧
        (CacheDomSub items cache →
          CacheDomSub items (renderIterLoop items .forward height gap false
              remaining i current cache frags).2.2) := by
  intro remaining
  induction remaining with
  | zero =>
    intro i current cache frags hsum hsub hcur
    simp only [renderIterLoop]
    have hi : i = items.length := by omega
    refine ⟨?_, ?_, ?_, ?_⟩
    · rw [List.drop_eq_nil_of_le (by rw [canonFrags_length]; omega)]
      simp
    case refine_3 =>
      intro key hk
      trivial
    case refine_4 =>
      first
      | exact fun hd => hd
      | trivial
    · intro j it hget hij
      exfalso
      have : j < items.length := by
        by_contra hc
        rw [List.get?_eq_none.mpr (by omega)] at hget
        exact Option.noConfusion hget
      omega
  | succ remaining ih =>
    intro i current cache frags hsum hsub hcur
    have hi : i < items.length := by omega
    simp only [renderIterLoop]
    rw [if_neg (by simp)]
    rw [dirIdx_forward]
    split
    case h_1 hget =>
      exfalso
      rw [List.get?_eq_none] at hget
      omega
    case h_2 it hget =>
      have hfragval : (canonFrags gap items).get? i
          = some { view := it.view, gap := if i = items.length - 1 then 0 else gap + 1 } :=
        canonFrags_get? gap items i it hget
      have hdrop : (canonFrags gap items).drop i
          = { view := it.view, gap := if i = items.length - 1 then (0 : Int) else gap + 1 }
              :: (canonFrags gap items).drop (i + 1) := by
        have hlen : i < (canonFrags gap items).length := by rw [canonFrags_length]; omega
        rw [List.drop_eq_getElem_cons hlen]
        congr 1
        have h2 := hfragval
        rw [List.get?_eq_getElem?] at h2
        rw [List.getElem?_eq_getElem hlen] at h2
        exact Option.some.inj h2
      split
      case h_1 rItem hhit =>
        -- cache hit: the cached entry is canonical
        have hr : rItem = canonEntry items gap i it := hsub i it rItem hget hhit
        have hcur2 : rItem.end_ + 1 + gap = canonStart items gap (i + 1) := by
          rw [hr, canonStart_succ items gap i it hget]
          simp only [canonEntry]
          omega
        have hstep := ih (i + 1) (rItem.end_ + 1 + gap) cache
          (frags ++ [RenderFragment.mk rItem.view
            (if i = items.length - 1 then (0 : Int) else gap + 1)])
          (by omega) hsub (by rw [hcur2])
        refine ⟨?_, ?_, ?_, ?_⟩
        · calc _ = (frags ++ [RenderFragment.mk rItem.view
                (if i = items.length - 1 then (0 : Int) else gap + 1)])
                ++ (canonFrags gap items).drop (i + 1) := hstep.1
            _ = frags ++ (canonFrags gap items).drop i := by
                rw [hdrop, hr]
                simp [canonEntry]
        · intro j it2 hget2 hij
          by_cases hji : j = i
          · subst hji
            have : it2 = it := by
              rw [hget] at hget2
              exact (Option.some.inj hget2).symm
            subst this
            apply renderIterLoop_mono
            rw [hhit, hr]
          · exact hstep.2.1 j it2 hget2 (by omega)
        · intro key hkey
          exact hstep.2.2.1 key hkey
        · exact hstep.2.2.2
      case h_2 hmiss =>
        -- fresh item: inserted at its canonical position
        have hentry : RenderedItem.mk (renderItem it).view (renderItem it).height
            current (current + (renderItem it).height - 1)
            = canonEntry items gap i it := by
          simp [renderItem, canonEntry, itemHeight, hcur]
        have hsub2 : SubCanonCache items gap (mapSet cache it.id
            (RenderedItem.mk (renderItem it).view (renderItem it).height
              current (current + (renderItem it).height - 1))) := by
          intro j2 it2 r2 hget2 hmg2
          by_cases hid : it2.id = it.id
          · have hj2 : j2 = i := id_inj_of_nodup items hnodup j2 i it2 it hget2 hget hid
            subst hj2
            have : it2 = it := by
              rw [hget] at hget2
              exact (Option.some.inj hget2).symm
            subst this
            rw [hid, mapGet_set_self] at hmg2
            rw [← Option.some.inj hmg2, hentry]
          · rw [mapGet_set_ne _ _ _ _ hid] at hmg2
            exact hsub j2 it2 r2 hget2 hmg2
        have hcur2 : current + (renderItem it).height - 1 + 1 + gap
            = canonStart items gap (i + 1) := by
          rw [canonStart_succ items gap i it hget]
          simp only [renderItem, itemHeight]
          omega
        have hstep := ih (i + 1) (current + (renderItem it).height - 1 + 1 + gap)
          (mapSet cache it.id
            (RenderedItem.mk (renderItem it).view (renderItem it).height
              current (current + (renderItem it).height - 1)))
          (frags ++ [RenderFragment.mk (renderItem it).view
            (if i = items.length - 1 then (0 : Int) else gap + 1)])
          (by omega) hsub2 (by rw [hcur2])
        refine ⟨?_, ?_, ?_, ?_⟩
        · calc _ = (frags ++ [RenderFragment.mk (renderItem it).view
                (if i = items.length - 1 then (0 : Int) else gap + 1)])
                ++ (canonFrags gap items).drop (i + 1) := hstep.1
            _ = frags ++ (canonFrags gap items).drop i := by
                rw [hdrop]
                simp [renderItem]
        · intro j it2 hget2 hij
          by_cases hji : j = i
          · subst hji
            have : it2 = it := by
              rw [hget] at hget2
              exact (Option.some.inj hget2).symm
            subst this
            apply renderIterLoop_mono
            rw [mapGet_set_self]
            rw [hentry]
          · exact hstep.2.1 j it2 hget2 (by omega)
        · intro key hkey
          refine (hstep.2.2.1 key hkey).trans ?_
          rw [mapGet_set_ne]
          intro hc
          apply hkey
          rw [hc]
          exact List.mem_map.mpr ⟨it, List.get?_mem hget, rfl⟩
        · intro hd
          apply hstep.2.2.2
          intro p hp
          rcases mem_mapSet _ _ _ _ hp with h1 | h1
          · rw [h1]
            exact List.mem_map.mpr ⟨it, List.get?_mem hget, rfl⟩
          · exact hd p h1

/-- Looking a key up after a deletion either agrees with the original map
or misses. -/
theorem mapGet_del_or (m : List (String × β)) (k key : String) :
    mapGet (mapDel m k) key = mapGet m key ∨ mapGet (mapDel m k) key = none := by
  rw [mapGet_del]
  split
  · exact Or.inr rfl
  · exact Or.inl rfl

/-- Toggling an item's focus flag leaves the identifier sequence
unchanged. -/
theorem setItemFocus_map_id (items : List GoItem) (idx : Nat) (f : Bool) :
    (setItemFocus items idx f).map GoItem.id = items.map GoItem.id := by
  unfold setItemFocus
  split
  case h_1 it hget =>
    apply List.ext_getElem?
    intro n
    rw [List.getElem?_map, List.getElem?_map]
    by_cases hn : idx = n
    · subst hn
      have hlt : idx < items.length := by
        by_contra hc
        rw [List.get?_eq_none.mpr (by omega)] at hget
        exact Option.noConfusion hget
      rw [List.getElem?_set_self hlt, List.getElem?_eq_getElem hlt]
      have : items[idx] = it := by
        have := hget
        rw [List.get?_eq_getElem?, List.getElem?_eq_getElem hlt] at this
        exact Option.some.inj this
      rw [this]
      rfl
    · rw [List.getElem?_set_ne hn]
  case h_2 => rfl

/-- Toggling an item's focus flag leaves the view sequence unchanged. -/
theorem setItemFocus_map_view (items : List GoItem) (idx : Nat) (f : Bool) :
    (setItemFocus items idx f).map GoItem.view = items.map GoItem.view := by
  unfold setItemFocus
  split
  case h_1 it hget =>
    apply List.ext_getElem?
    intro n
    rw [List.getElem?_map, List.getElem?_map]
    by_cases hn : idx = n
    · subst hn
      have hlt : idx < items.length := by
        by_contra hc
        rw [List.get?_eq_none.mpr (by omega)] at hget
        exact Option.noConfusion hget
      rw [List.getElem?_set_self hlt, List.getElem?_eq_getElem hlt]
      have : items[idx] = it := by
        have := hget
        rw [List.get?_eq_getElem?, List.getElem?_eq_getElem hlt] at this
        exact Option.some.inj this
      rw [this]
      rfl
    · rw [List.getElem?_set_ne hn]
  case h_2 => rfl

/-- Toggling an item's focus flag leaves the focusable capabilities
unchanged. -/
theorem setItemFocus_map_focusable (items : List GoItem) (idx : Nat) (f : Bool) :
    (setItemFocus items idx f).map GoItem.focusable = items.map GoItem.focusable := by
  unfold setItemFocus
  split
  case h_1 it hget =>
    apply List.ext_getElem?
    intro n
    rw [List.getElem?_map, List.getElem?_map]
    by_cases hn : idx = n
    · subst hn
      have hlt : idx < items.length := by
        by_contra hc
        rw [List.get?_eq_none.mpr (by omega)] at hget
        exact Option.noConfusion hget
      rw [List.getElem?_set_self hlt, List.getElem?_eq_getElem hlt]
      have : items[idx] = it := by
        have := hget
        rw [List.get?_eq_getElem?, List.getElem?_eq_getElem hlt] at this
        exact Option.some.inj this
      rw [this]
      rfl
    · rw [List.getElem?_set_ne hn]
  case h_2 => rfl

/-- `selectFirstItem` only rewrites the selected identifier. -/
theorem selectFirstItem_shape (s : ListState) :
    ∃ sel, selectFirstItem s = { s with selectedItem := sel } := by
  unfold selectFirstItem
  repeat' split
  all_goals exact ⟨_, rfl⟩

/-- `selectLastItem` only rewrites the selected identifier. -/
theorem selectLastItem_shape (s : ListState) :
    ∃ sel, selectLastItem s = { s with selectedItem := sel } := by
  unfold selectLastItem
  repeat' split
  all_goals exact ⟨_, rfl⟩

/-- `setDefaultSelected` only rewrites the selected identifier. -/
theorem setDefaultSelected_shape (s : ListState) :
    ∃ sel, setDefaultSelected s = { s with selectedItem := sel } := by
  unfold setDefaultSelected
  repeat' split
  · exact selectFirstItem_shape s
  · exact selectLastItem_shape s
  · exact ⟨_, rfl⟩

/-- The identifier `setDefaultSelected` writes is either the old one or an
existing item's. -/
theorem setDefaultSelected_mem (s : ListState) :
    (setDefaultSelected s).selectedItem = s.selectedItem ∨
      (setDefaultSelected s).selectedItem ∈ s.items.map GoItem.id := by
  unfold setDefaultSelected selectFirstItem selectLastItem
  repeat' split
  all_goals try exact Or.inl rfl
  case _ inx _ it hget =>
    exact Or.inr (List.mem_map.mpr ⟨it, List.get?_mem hget, rfl⟩)
  case _ inx _ it hget =>
    exact Or.inr (List.mem_map.mpr ⟨it, List.get?_mem hget, rfl⟩)

/-- `setDefaultSelected`'s choice depends only on the items (their
identifiers and focusable flags), the wrap flag, the direction and the
current selection. -/
theorem setDefaultSelected_selected_congr (s1 s2 : ListState)
    (hit : s1.items = s2.items) (hw : s1.wrap = s2.wrap)
    (hd : s1.direction = s2.direction) (hs : s1.selectedItem = s2.selectedItem) :
    (setDefaultSelected s1).selectedItem = (setDefaultSelected s2).selectedItem := by
  unfold setDefaultSelected selectFirstItem selectLastItem
  rw [hit, hw, hd, hs]
  repeat' split
  all_goals first | rfl | exact hs

/-- All fields of the state except the items, the render cache and the
previously-selected marker survive `focusSelectedItem`. -/
theorem focusSelectedItem_fields (s : ListState) :
    ((focusSelectedItem s).1).offset = s.offset ∧
    ((focusSelectedItem s).1).height = s.height ∧
    ((focusSelectedItem s).1).width = s.width ∧
    ((focusSelectedItem s).1).gap = s.gap ∧
    ((focusSelectedItem s).1).direction = s.direction ∧
    ((focusSelectedItem s).1).focused = s.focused ∧
    ((focusSelectedItem s).1).wrap = s.wrap ∧
    ((focusSelectedItem s).1).rendered = s.rendered ∧
    ((focusSelectedItem s).1).renderedHeight = s.renderedHeight ∧
    ((focusSelectedItem s).1).selectedItem = s.selectedItem ∧
    ((focusSelectedItem s).1).indexMap = s.indexMap ∧
    ((focusSelectedItem s).1).lineOffsets = s.lineOffsets ∧
    ((focusSelectedItem s).1).movingByItem = s.movingByItem := by
  simp only [focusSelectedItem]
  repeat' split
  all_goals exact ⟨rfl, rfl, rfl, rfl, rfl, rfl, rfl, rfl, rfl, rfl, rfl, rfl, rfl⟩

/-- All fields of the state except the items and the render cache survive
`blurSelectedItem`. -/
theorem blurSelectedItem_fields (s : ListState) :
    ((blurSelectedItem s).1).offset = s.offset ∧
    ((blurSelectedItem s).1).height = s.height ∧
    ((blurSelectedItem s).1).width = s.width ∧
    ((blurSelectedItem s).1).gap = s.gap ∧
    ((blurSelectedItem s).1).direction = s.direction ∧
    ((blurSelectedItem s).1).focused = s.focused ∧
    ((blurSelectedItem s).1).wrap = s.wrap ∧
    ((blurSelectedItem s).1).rendered = s.rendered ∧
    ((blurSelectedItem s).1).renderedHeight = s.renderedHeight ∧
    ((blurSelectedItem s).1).selectedItem = s.selectedItem ∧
    ((blurSelectedItem s).1).indexMap = s.indexMap ∧
    ((blurSelectedItem s).1).lineOffsets = s.lineOffsets ∧
    ((blurSelectedItem s).1).movingByItem = s.movingByItem := by
  simp only [blurSelectedItem]
  repeat' split
  all_goals exact ⟨rfl, rfl, rfl, rfl, rfl, rfl, rfl, rfl, rfl, rfl, rfl, rfl, rfl⟩

/-- `focusSelectedItem` preserves the identifier, view and focusable-flag
sequences of the items. -/
theorem focusSelectedItem_maps (s : ListState) :
    ((focusSelectedItem s).1).items.map GoItem.id = s.items.map GoItem.id ∧
    ((focusSelectedItem s).1).items.map GoItem.view = s.items.map GoItem.view ∧
    ((focusSelectedItem s).1).items.map GoItem.focusable = s.items.map GoItem.focusable := by
  simp only [focusSelectedItem]
  repeat' split
  all_goals
    simp only [setItemFocus_map_id, setItemFocus_map_view, setItemFocus_map_focusable]
  all_goals simp

/-- `blurSelectedItem` preserves the identifier, view and focusable-flag
sequences of the items. -/
theorem blurSelectedItem_maps (s : ListState) :
    ((blurSelectedItem s).1).items.map GoItem.id = s.items.map GoItem.id ∧
    ((blurSelectedItem s).1).items.map GoItem.view = s.items.map GoItem.view ∧
    ((blurSelectedItem s).1).items.map GoItem.focusable = s.items.map GoItem.focusable := by
  simp only [blurSelectedItem]
  repeat' split
  all_goals
    simp only [setItemFocus_map_id, setItemFocus_map_view, setItemFocus_map_focusable]
  all_goals simp

/-- Every cache lookup after `focusSelectedItem` agrees with the original
cache or misses (the step only evicts entries). -/
theorem focusSelectedItem_mapGet (s : ListState) (key : String) :
    mapGet ((focusSelectedItem s).1).renderedItems key = mapGet s.renderedItems key ∨
    mapGet ((focusSelectedItem s).1).renderedItems key = none := by
  simp only [focusSelectedItem]
  repeat' split
  all_goals try exact Or.inl rfl
  all_goals rcases mapGet_del_or s.renderedItems _ key with h | h
  all_goals try exact Or.inl h
  all_goals try exact Or.inr h
  all_goals rcases mapGet_del_or (mapDel s.renderedItems _) _ key with h2 | h2
  all_goals rw [h2] at *
  all_goals try exact Or.inl h
  all_goals try exact Or.inr h
  all_goals exact Or.inr rfl

/-- Every cache lookup after `blurSelectedItem` agrees with the original
cache or misses. -/
theorem blurSelectedItem_mapGet (s : ListState) (key : String) :
    mapGet ((blurSelectedItem s).1).renderedItems key = mapGet s.renderedItems key ∨
    mapGet ((blurSelectedItem s).1).renderedItems key = none := by
  simp only [blurSelectedItem]
  repeat' split
  all_goals try exact Or.inl rfl
  all_goals exact mapGet_del_or s.renderedItems _ key

/-- `scrollCore` only rewrites the scroll offset. -/
theorem scrollCore_shape (s : ListState) (r : RenderedItem) (a b : Int) :
    ∃ o, scrollCore s r a b = { s with offset := o } := by
  unfold scrollCore
  repeat' split
  all_goals exact ⟨_, rfl⟩

/-- `scrollToSelection` either rewrites only the offset and the
moving-by-item flag, or (when the selected identifier has no cache entry)
clears the selection and re-selects the default. -/
theorem scrollToSelection_shape (s : ListState) :
    (∃ o m, scrollToSelection s = { s with offset := o, movingByItem := m }) ∨
    (mapGet s.renderedItems s.selectedItem = none ∧
      scrollToSelection s = setDefaultSelected { s with selectedItem := "" }) := by
  simp only [scrollToSelection]
  split
  case h_1 hnone => exact Or.inr ⟨hnone, rfl⟩
  case h_2 rItem hget =>
    left
    repeat' split
    all_goals try exact ⟨s.offset, s.movingByItem, rfl⟩
    · obtain ⟨o, ho⟩ := scrollCore_shape { s with movingByItem := false } rItem
        (viewPositionS s).1 (viewPositionS s).2
      exact ⟨o, false, by rw [ho]⟩
    · obtain ⟨o, ho⟩ := scrollCore_shape s rItem (viewPositionS s).1 (viewPositionS s).2
      exact ⟨o, s.movingByItem, by rw [ho]⟩

/-- `incrementOffset` only rewrites the scroll offset. -/
theorem incrementOffset_shape (s : ListState) (n : Int) :
    ∃ o, incrementOffset s n = { s with offset := o } := by
  simp only [incrementOffset]
  repeat' split
  all_goals exact ⟨_, rfl⟩

/-- `decrementOffset` only rewrites the scroll offset. -/
theorem decrementOffset_shape (s : ListState) (n : Int) :
    ∃ o, decrementOffset s n = { s with offset := o } := by
  simp only [decrementOffset]
  repeat' split
  all_goals exact ⟨_, rfl⟩

/-- The invariant transfers along equality of the three fields it
reads. -/
theorem inv_of_fields (s s2 : ListState) (ho : s2.offset = s.offset)
    (hr : s2.renderedHeight = s.renderedHeight) (hh : s2.height = s.height)
    (h : Inv s) : Inv s2 := by
  unfold Inv at *
  rw [ho, hr, hh]
  exact h

/-- `incrementOffset` preserves the scroll-offset invariant
unconditionally. -/
theorem incrementOffset_inv (s : ListState) (n : Int) (h : Inv s) :
    Inv (incrementOffset s n) := by
  unfold Inv at *
  simp only [incrementOffset]
  repeat' split
  all_goals try dsimp only
  all_goals omega

/-- `decrementOffset` preserves the scroll-offset invariant
unconditionally. -/
theorem decrementOffset_inv (s : ListState) (n : Int) (h : Inv s) :
    Inv (decrementOffset s n) := by
  unfold Inv at *
  simp only [decrementOffset]
  repeat' split
  all_goals try dsimp only
  all_goals omega

/-- `dirIdx` for the backward direction. -/
theorem dirIdx_backward (len i : Nat) : dirIdx len .backward i = len - 1 - i := by
  simp [dirIdx]

/-- `dirIdx` is an involution on indices below the length. -/
theorem dirIdx_invol (len : Nat) (dir : Direction) (j : Nat) (h : j < len) :
    dirIdx len dir (dirIdx len dir j) = j := by
  cases dir <;> simp [dirIdx] <;> omega

/-- After a full unlimited pass of the render loop, every item visited at
or after the current iteration has a cache entry (no assumptions on the
incoming cache). -/
theorem renderIterLoop_covers (items : List GoItem) (dir : Direction)
    (height gap : Int) :
    ∀ (remaining i : Nat) (current : Int) (cache : List (String × RenderedItem))
      (frags : List RenderFragment),
      remaining + i = items.length →
      ∀ k it, i ≤ k → k < items.length →
      items.get? (dirIdx items.length dir k) = some it →
      (mapGet (renderIterLoop items dir height gap false remaining i current
        cache frags).2.2 it.id).isSome = true := by
  intro remaining
  induction remaining with
  | zero =>
    intro i current cache frags hsum k it hik hklen hget
    omega
  | succ remaining ih =>
    intro i current cache frags hsum k it hik hklen hget
    simp only [renderIterLoop]
    rw [if_neg (by simp)]
    split
    case h_1 hnone =>
      rcases Nat.eq_or_lt_of_le hik with hk | hk
      · rw [← hk] at hget
        rw [hget] at hnone
        exact Option.noConfusion hnone
      · exact ih (i + 1) current cache frags (by omega) k it (by omega) hklen hget
    case h_2 item hitem =>
      split
      case h_1 rItem hhit =>
        rcases Nat.eq_or_lt_of_le hik with hk | hk
        · rw [← hk] at hget
          rw [hget] at hitem
          have : it = item := Option.some.inj hitem
          subst this
          rw [renderIterLoop_mono items dir height gap false _ _ _ _ _ _ _ hhit]
          rfl
        · exact ih (i + 1) _ cache _ (by omega) k it (by omega) hklen hget
      case h_2 hmiss =>
        rcases Nat.eq_or_lt_of_le hik with hk | hk
        · rw [← hk] at hget
          rw [hget] at hitem
          have : it = item := Option.some.inj hitem
          subst this
          rw [renderIterLoop_mono items dir height gap false _ _ _ _ _ _ _
            (mapGet_set_self cache it.id _)]
          rfl
        · exact ih (i + 1) _ _ _ (by omega) k it (by omega) hklen hget

/-- Recomputing positions never evicts a cache entry. -/
theorem recalcLoop_isSome (gap : Int) :
    ∀ (rest : List GoItem) (current : Int) (cache : List (String × RenderedItem))
      (key : String), (mapGet cache key).isSome = true →
      (mapGet (recalcLoop gap rest current cache) key).isSome = true := by
  intro rest
  induction rest with
  | nil => intro current cache key h; exact h
  | cons it rest ih =>
    intro current cache key h
    simp only [recalcLoop]
    split
    case h_1 hnone => exact ih current cache key h
    case h_2 r hr =>
      apply ih
      by_cases hk : key = it.id
      · subst hk
        rw [mapGet_set_self]
        rfl
      · rw [mapGet_set_ne _ _ _ _ hk]
        exact h

/-- Recomputing positions from a non-negative base keeps every retrievable
entry's bounds sane. -/
theorem recalcLoop_ok (gap : Int) (hg : 0 ≤ gap) :
    ∀ (rest : List GoItem) (current : Int) (cache : List (String × RenderedItem)),
      0 ≤ current → CacheOK cache →
      CacheOK (recalcLoop gap rest current cache) := by
  intro rest
  induction rest with
  | nil => intro current cache _ hok; exact hok
  | cons it rest ih =>
    intro current cache hcur hok
    simp only [recalcLoop]
    split
    case h_1 hnone => exact ih current cache hcur hok
    case h_2 r hr =>
      have hrb := hok it.id r hr
      apply ih
      · dsimp only
        omega
      · intro k r2 hk2
        by_cases hk : k = it.id
        · subst hk
          rw [mapGet_set_self] at hk2
          have := Option.some.inj hk2
          rw [← this]
          refine ⟨by dsimp only; omega, by dsimp only; omega, ?_, ?_⟩
          · dsimp only
            exact hrb.2.2.1
          · dsimp only
            exact hrb.2.2.2
        · rw [mapGet_set_ne _ _ _ _ hk] at hk2
          exact hok k r2 hk2

/-- A full unlimited render pass from a non-negative base keeps every
retrievable entry's bounds sane and accumulates only fragments with
non-empty views; with at least one iteration left the fragment list
grows. -/
theorem renderIterLoop_ok (items : List GoItem) (dir : Direction)
    (height gap : Int) (hg : 0 ≤ gap)
    (hviews : ∀ it ∈ items, it.view ≠ []) :
    ∀ (remaining i : Nat) (current : Int) (cache : List (String × RenderedItem))
      (frags : List RenderFragment),
      0 ≤ current → CacheOK cache →
      CacheOK (renderIterLoop items dir height gap false remaining i current
          cache frags).2.2 ∧
      (∃ rest, (renderIterLoop items dir height gap false remaining i current
          cache frags).1 = frags ++ rest ∧
        (∀ f ∈ rest, f.view ≠ []) ∧
        (1 ≤ remaining → dirIdx items.length dir i < items.length → rest ≠ [])) := by
  intro remaining
  induction remaining with
  | zero =>
    intro i current cache frags hcur hok
    refine ⟨hok, [], by simp [renderIterLoop], by simp, ?_⟩
    intro h1
    omega
  | succ remaining ih =>
    intro i current cache frags hcur hok
    simp only [renderIterLoop]
    rw [if_neg (by simp)]
    split
    case h_1 hnone =>
      have hbad : ¬ dirIdx items.length dir i < items.length := by
        intro hc
        rw [List.get?_eq_none] at hnone
        omega
      obtain ⟨hok2, rest, hfr, hfv, hfne⟩ := ih (i + 1) current cache frags hcur hok
      exact ⟨hok2, rest, hfr, hfv, fun _ hc => absurd hc hbad⟩
    case h_2 item hitem =>
      have hmem : item ∈ items := List.get?_mem hitem
      split
      case h_1 rItem hhit =>
        have hrb := hok item.id rItem hhit
        obtain ⟨hok2, rest, hfr, hfv, _⟩ := ih (i + 1) (rItem.end_ + 1 + gap)
          cache (frags ++ [RenderFragment.mk rItem.view
            (if dirIdx items.length dir i = items.length - 1 then 0 else gap + 1)])
          (by omega) hok
        refine ⟨hok2, RenderFragment.mk rItem.view
          (if dirIdx items.length dir i = items.length - 1 then 0 else gap + 1) :: rest,
          ?_, ?_, ?_⟩
        · rw [hfr, List.append_assoc]
          rfl
        · intro f hf
          rcases List.mem_cons.mp hf with h1 | h1
          · rw [h1]
            exact hrb.2.2.2
          · exact hfv f h1
        · intro _ _
          simp
      case h_2 hmiss =>
        have hok3 : CacheOK (mapSet cache item.id (RenderedItem.mk (renderItem item).view
            (renderItem item).height current (current + (renderItem item).height - 1))) := by
          intro k r2 hk2
          by_cases hk : k = item.id
          · subst hk
            rw [mapGet_set_self] at hk2
            have := Option.some.inj hk2
            rw [← this]
            have hh := itemHeight_pos item
            unfold itemHeight at hh
            refine ⟨hcur, by simp only [renderItem]; omega, by simp only [renderItem]; omega, ?_⟩
            simp only [renderItem]
            exact hviews item hmem
          · rw [mapGet_set_ne _ _ _ _ hk] at hk2
            exact hok k r2 hk2
        obtain ⟨hok2, rest, hfr, hfv, _⟩ := ih (i + 1)
          (current + (renderItem item).height - 1 + 1 + gap)
          (mapSet cache item.id (RenderedItem.mk (renderItem item).view
            (renderItem item).height current (current + (renderItem item).height - 1)))
          (frags ++ [RenderFragment.mk (renderItem item).view
            (if dirIdx items.length dir i = items.length - 1 then 0 else gap + 1)])
          (by have := itemHeight_pos item; simp only [renderItem]; unfold itemHeight at this; omega)
          hok3
        refine ⟨hok2, RenderFragment.mk (renderItem item).view
          (if dirIdx items.length dir i = items.length - 1 then 0 else gap + 1) :: rest,
          ?_, ?_, ?_⟩
        · rw [hfr, List.append_assoc]
          rfl
        · intro f hf
          rcases List.mem_cons.mp hf with h1 | h1
          · rw [h1]
            simp only [renderItem]
            exact hviews item hmem
          · exact hfv f h1
        · intro _ _
          simp

/-- An identifier occurring at position `i` does not recur among the
identifiers of the items after `i` when identifiers are unique. -/
theorem id_not_mem_drop (items : List GoItem)
    (hnodup : (items.map GoItem.id).Nodup) (i : Nat) (it : GoItem)
    (hget : items.get? i = some it) :
    it.id ∉ (items.drop (i + 1)).map GoItem.id := by
  intro hc
  obtain ⟨it2, hmem2, hid2⟩ := List.mem_map.mp hc
  obtain ⟨⟨j2, hj2lt⟩, hj2⟩ := List.mem_iff_get.mp hmem2
  have hget2 : items.get? (i + 1 + j2) = some it2 := by
    rw [← List.get?_drop]
    rw [List.get?_eq_getElem?]
    rw [List.getElem?_eq_getElem hj2lt]
    rw [← hj2]
    rfl
  have := id_inj_of_nodup items hnodup (i + 1 + j2) i it2 it hget2 hget hid2
  omega

/-- A forward assembly over a fragment list with a non-empty head view is
non-empty. -/
theorem assembleForward_ne_nil (rendered : Str) (f : RenderFragment)
    (rest : List RenderFragment) (hf : f.view ≠ []) :
    assembleForward rendered (f :: rest) ≠ [] := by
  unfold assembleForward
  simp only [List.map_cons, List.flatten_cons]
  intro hc
  rw [List.append_eq_nil] at hc
  rw [List.append_eq_nil] at hc
  exact hf (List.append_eq_nil.mp hc.2.1).1

/-- A backward assembly over a fragment list containing a non-empty view
is non-empty. -/
theorem assembleBackward_ne_nil (rendered : Str) (frags : List RenderFragment)
    (f : RenderFragment) (hmem : f ∈ frags) (hf : f.view ≠ []) :
    assembleBackward rendered frags ≠ [] := by
  unfold assembleBackward
  intro hc
  rw [List.append_eq_nil] at hc
  have := List.flatten_eq_nil_iff.mp hc.1 (f.view ++ fragGap f.gap)
    (List.mem_map.mpr ⟨f, List.mem_reverse.mpr hmem, rfl⟩)
  rw [List.append_eq_nil] at this
  exact hf this.1

/-- The backward full-scan of the render loop: fragments accumulate as the
reverse of the canonical fragment sequence; every present cache entry
keeps recording its item's view and height, all items visited so far are
present, unknown keys are untouched, and cache keys stay inside the item
identifiers. -/
theorem renderIterLoop_backward_full (items : List GoItem) (height gap : Int)
    (hnodup : (items.map GoItem.id).Nodup) :
    ∀ (remaining i : Nat) (current : Int) (cache : List (String × RenderedItem))
      (frags : List RenderFragment),
      remaining + i = items.length →
      HVCache items cache →
      (renderIterLoop items .backward height gap false remaining i current
          cache frags).1
        = frags ++ ((canonFrags gap items).take (items.length - i)).reverse ∧
      HVCache items (renderIterLoop items .backward height gap false remaining i
          current cache frags).2.2 ∧
      (∀ j it, items.get? j = some it → j + i < items.length →
        (mapGet (renderIterLoop items .backward height gap false remaining i
          current cache frags).2.2 it.id).isSome = true) ∧
      (∀ key, key ∉ items.map GoItem.id →
        mapGet (renderIterLoop items .backward height gap false remaining i
          current cache frags).2.2 key = mapGet cache key) ∧
      (CacheDomSub items cache →
        CacheDomSub items (renderIterLoop items .backward height gap false
          remaining i current cache frags).2.2) := by
  intro remaining
  induction remaining with
  | zero =>
    intro i current cache frags hsum hhv
    have hi : i = items.length := by omega
    subst hi
    refine ⟨?_, hhv, ?_, fun key _ => rfl, fun h => h⟩
    · simp [renderIterLoop]
    · intro j it _ hj
      omega
  | succ remaining ih =>
    intro i current cache frags hsum hhv
    have hi : i < items.length := by omega
    simp only [renderIterLoop]
    rw [if_neg (by simp)]
    rw [dirIdx_backward]
    have hinx : items.length - 1 - i < items.length := by omega
    have htake : (canonFrags gap items).take (items.length - i)
        = (canonFrags gap items).take (items.length - (i + 1))
          ++ [RenderFragment.mk ((items.get ⟨items.length - 1 - i, hinx⟩).view)
              (if items.length - 1 - i = items.length - 1 then (0 : Int) else gap + 1)] := by
      have hlen : items.length - 1 - i < (canonFrags gap items).length := by
        rw [canonFrags_length]
        exact hinx
      have hstep : items.length - i = (items.length - (i + 1)) + 1 := by omega
      rw [hstep, List.take_succ]
      congr 1
      have hcf := canonFrags_get? gap items (items.length - 1 - i)
        (items.get ⟨items.length - 1 - i, hinx⟩)
        (by rw [List.get?_eq_getElem?, List.getElem?_eq_getElem hinx]; rfl)
      have h2 : items.length - (i + 1) = items.length - 1 - i := by omega
      rw [h2]
      rw [List.get?_eq_getElem?] at hcf
      rw [hcf]
      rfl
    split
    case h_1 hnone =>
      exfalso
      rw [List.get?_eq_none] at hnone
      omega
    case h_2 it hget =>
      have hiteq : it = items.get ⟨items.length - 1 - i, hinx⟩ := by
        rw [List.get?_eq_getElem?, List.getElem?_eq_getElem hinx] at hget
        exact (Option.some.inj hget).symm
      split
      case h_1 rItem hhit =>
        have hrv := hhv (items.length - 1 - i) it rItem hget hhit
        have hstep := ih (i + 1) (rItem.end_ + 1 + gap) cache
          (frags ++ [RenderFragment.mk rItem.view
            (if items.length - 1 - i = items.length - 1 then (0 : Int) else gap + 1)])
          (by omega) hhv
        refine ⟨?_, hstep.2.1, ?_, hstep.2.2.2.1, hstep.2.2.2.2⟩
        · rw [hstep.1, htake]
          rw [List.reverse_append]
          simp only [List.reverse_cons, List.reverse_nil, List.nil_append,
            List.singleton_append, List.append_assoc]
          rw [hrv.1, hiteq]
          try rfl
        · intro j it2 hget2 hj
          by_cases hji : j = items.length - 1 - i
          · subst hji
            have : it2 = it := by
              rw [hget] at hget2
              exact (Option.some.inj hget2).symm
            subst this
            rw [renderIterLoop_mono items .backward height gap false _ _ _ _ _ _ _ hhit]
            rfl
          · exact hstep.2.2.1 j it2 hget2 (by omega)
      case h_2 hmiss =>
        have hhv2 : HVCache items (mapSet cache it.id
            (RenderedItem.mk (renderItem it).view (renderItem it).height
              current (current + (renderItem it).height - 1))) := by
          intro j2 it2 r2 hget2 hmg2
          by_cases hid : it2.id = it.id
          · have hj2 : j2 = items.length - 1 - i :=
              id_inj_of_nodup items hnodup j2 (items.length - 1 - i) it2 it hget2 hget hid
            subst hj2
            have : it2 = it := by
              rw [hget] at hget2
              exact (Option.some.inj hget2).symm
            subst this
            rw [hid, mapGet_set_self] at hmg2
            rw [← Option.some.inj hmg2]
            exact ⟨rfl, rfl⟩
          · rw [mapGet_set_ne _ _ _ _ hid] at hmg2
            exact hhv j2 it2 r2 hget2 hmg2
        have hstep := ih (i + 1) (current + (renderItem it).height - 1 + 1 + gap)
          (mapSet cache it.id
            (RenderedItem.mk (renderItem it).view (renderItem it).height
              current (current + (renderItem it).height - 1)))
          (frags ++ [RenderFragment.mk (renderItem it).view
            (if items.length - 1 - i = items.length - 1 then (0 : Int) else gap + 1)])
          (by omega) hhv2
        refine ⟨?_, hstep.2.1, ?_, ?_, ?_⟩
        · rw [hstep.1, htake]
          rw [List.reverse_append]
          simp only [List.reverse_cons, List.reverse_nil, List.nil_append,
            List.singleton_append, List.append_assoc]
          rw [hiteq]
          try rfl
        · intro j it2 hget2 hj
          by_cases hji : j = items.length - 1 - i
          · subst hji
            have : it2 = it := by
              rw [hget] at hget2
              exact (Option.some.inj hget2).symm
            rw [this]
            rw [renderIterLoop_mono items .backward height gap false _ _ _ _ _ _ _
              (mapGet_set_self cache it.id (RenderedItem.mk (renderItem it).view
                (renderItem it).height current (current + (renderItem it).height - 1)))]
            rfl
          · exact hstep.2.2.1 j it2 hget2 (by omega)
        · intro key hkey
          rw [hstep.2.2.2.1 key hkey]
          rw [mapGet_set_ne]
          intro hc
          apply hkey
          rw [hc]
          exact List.mem_map.mpr ⟨it, List.get?_mem hget, rfl⟩
        · intro hd
          apply hstep.2.2.2.2
          intro p hp
          rcases mem_mapSet _ _ _ _ hp with h1 | h1
          · rw [h1]
            exact List.mem_map.mpr ⟨it, List.get?_mem hget, rfl⟩
          · exact hd p h1

/-- Recomputing positions from the top of the buffer over a cache that
records every item's view and height rewrites the cache into the canonical
one, leaves unknown keys alone, and keeps cache keys inside the item
identifiers. -/
theorem recalcLoop_canon (items : List GoItem) (gap : Int)
    (hnodup : (items.map GoItem.id).Nodup) :
    ∀ (remaining i : Nat) (cache : List (String × RenderedItem)),
      remaining + i = items.length →
      FullHVCache items cache →
      (∀ j it, items.get? j = some it → i ≤ j →
        mapGet (recalcLoop gap (items.drop i) (canonStart items gap i) cache) it.id
          = some (canonEntry items gap j it)) ∧
      (∀ key, key ∉ (items.drop i).map GoItem.id →
        mapGet (recalcLoop gap (items.drop i) (canonStart items gap i) cache) key
          = mapGet cache key) ∧
      (CacheDomSub items cache →
        CacheDomSub items (recalcLoop gap (items.drop i) (canonStart items gap i) cache)) := by
  intro remaining
  induction remaining with
  | zero =>
    intro i cache hsum hhv
    have hi : i = items.length := by omega
    subst hi
    rw [List.drop_length]
    refine ⟨?_, fun key _ => rfl, fun h => h⟩
    intro j it hget hj
    exfalso
    have : j < items.length := by
      by_contra hc
      rw [List.get?_eq_none.mpr (by omega)] at hget
      exact Option.noConfusion hget
    omega
  | succ remaining ih =>
    intro i cache hsum hhv
    have hlt : i < items.length := by omega
    obtain ⟨it, hget⟩ : ∃ it, items.get? i = some it :=
      ⟨items.get ⟨i, hlt⟩, by rw [List.get?_eq_getElem?, List.getElem?_eq_getElem hlt]; rfl⟩
    have hdropeq : items.drop i = it :: items.drop (i + 1) := by
      rw [List.drop_eq_getElem_cons hlt]
      congr 1
      rw [List.get?_eq_getElem?, List.getElem?_eq_getElem hlt] at hget
      exact Option.some.inj hget
    rw [hdropeq]
    simp only [recalcLoop]
    obtain ⟨r, hr, hrview, hrheight⟩ := hhv i it hget
    split
    case h_1 hnone =>
      rw [hr] at hnone
      exact Option.noConfusion hnone
    case h_2 r2 hr2 =>
      rw [hr] at hr2
      have hreq : r2 = r := (Option.some.inj hr2).symm
      subst hreq
      have hcanon : ({ r2 with start := canonStart items gap i, end_ := canonStart items gap i + r2.height - 1 } : RenderedItem) = canonEntry items gap i it := by
        simp only [canonEntry]
        rw [hrview, hrheight]
      have hnext : canonStart items gap i + r2.height - 1 + 1 + gap = canonStart items gap (i + 1) := by
        rw [canonStart_succ items gap i it hget, hrheight]
        omega
      have hhv2 : FullHVCache items (mapSet cache it.id ({ r2 with start := canonStart items gap i, end_ := canonStart items gap i + r2.height - 1 })) := by
        intro j2 it2 hget2
        by_cases hid : it2.id = it.id
        · have hj2 : j2 = i := id_inj_of_nodup items hnodup j2 i it2 it hget2 hget hid
          have heq2 : it2 = it := by
            rw [hj2] at hget2
            rw [hget] at hget2
            exact (Option.some.inj hget2).symm
          refine ⟨{ r2 with start := canonStart items gap i, end_ := canonStart items gap i + r2.height - 1 }, ?_, ?_, ?_⟩
          · rw [hid, mapGet_set_self]
          · rw [heq2]
            exact hrview
          · rw [heq2]
            exact hrheight
        · obtain ⟨r3, hr3, hv3, hh3⟩ := hhv j2 it2 hget2
          refine ⟨r3, ?_, hv3, hh3⟩
          rw [mapGet_set_ne _ _ _ _ hid]
          exact hr3
      have hstep := ih (i + 1) (mapSet cache it.id ({ r2 with start := canonStart items gap i, end_ := canonStart items gap i + r2.height - 1 })) (by omega) hhv2
      rw [show ({ r2 with start := canonStart items gap i, end_ := canonStart items gap i + r2.height - 1 } : RenderedItem).end_ + 1 + gap = canonStart items gap (i + 1) from hnext]
      refine ⟨?_, ?_, ?_⟩
      · intro j it2 hget2 hij
        rcases Nat.eq_or_lt_of_le hij with hji | hji
        · subst hji
          have heq2 : it2 = it := by
            rw [hget] at hget2
            exact (Option.some.inj hget2).symm
          rw [heq2]
          rw [hstep.2.1 it.id (id_not_mem_drop items hnodup i it hget)]
          rw [mapGet_set_self, hcanon]
        · exact hstep.1 j it2 hget2 (by omega)
      · intro key hkey
        simp only [List.map_cons, List.mem_cons] at hkey
        push_neg at hkey
        rw [hstep.2.1 key hkey.2]
        rw [mapGet_set_ne _ _ _ _ hkey.1]
      · intro hd
        apply hstep.2.2
        intro p hp
        rcases mem_mapSet _ _ _ _ hp with h1 | h1
        · rw [h1]
          exact List.mem_map.mpr ⟨it, List.get?_mem hget, rfl⟩
        · exact hd p h1

/-- Canonical start offsets depend only on the item views. -/
theorem canonStart_congr (items1 items2 : List GoItem) (gap : Int)
    (hview : items1.map GoItem.view = items2.map GoItem.view) (i : Nat) :
    canonStart items1 gap i = canonStart items2 gap i := by
  unfold canonStart
  have h1 : ∀ items : List GoItem,
      (items.take i).map (fun it => itemHeight it + gap)
      = ((items.map GoItem.view).take i).map (fun v => heightL v + gap) := by
    intro items
    rw [← List.map_take, List.map_map]
    rfl
  rw [h1, h1, hview]

/-- Canonical cache entries depend only on the item views (and the
entry's own view). -/
theorem canonEntry_congr (items1 items2 : List GoItem) (gap : Int)
    (hview : items1.map GoItem.view = items2.map GoItem.view) (i : Nat)
    (it1 it2 : GoItem) (hv : it1.view = it2.view) :
    canonEntry items1 gap i it1 = canonEntry items2 gap i it2 := by
  unfold canonEntry itemHeight
  rw [hv, canonStart_congr items1 items2 gap hview i]

/-- A cache whose lookups are a restriction of a canonical cache is
canonical for any item sequence with the same identifiers and views. -/
theorem subCanon_transport (items1 items2 : List GoItem) (gap : Int)
    (cache1 cache2 : List (String × RenderedItem))
    (hid : items2.map GoItem.id = items1.map GoItem.id)
    (hview : items2.map GoItem.view = items1.map GoItem.view)
    (hget : ∀ key, mapGet cache2 key = mapGet cache1 key ∨ mapGet cache2 key = none)
    (hsub : SubCanonCache items1 gap cache1) :
    SubCanonCache items2 gap cache2 := by
  intro j it2 r hget2 hmg2
  rcases hget it2.id with hk | hk
  swap
  · rw [hk] at hmg2
    exact Option.noConfusion hmg2
  rw [hk] at hmg2
  have hj : j < items2.length := by
    by_contra hc
    rw [List.get?_eq_none.mpr (by omega)] at hget2
    exact Option.noConfusion hget2
  have hlen : items2.length = items1.length := by
    simpa using congrArg List.length hid
  have hj1 : j < items1.length := by omega
  obtain ⟨it1, hget1⟩ : ∃ it1, items1.get? j = some it1 :=
    ⟨items1.get ⟨j, hj1⟩, by rw [List.get?_eq_getElem?, List.getElem?_eq_getElem hj1]; rfl⟩
  have hid1 : it1.id = it2.id := by
    have h1 := congrArg (fun l => l.get? j) hid
    simp only [List.get?_map] at h1
    rw [hget1, hget2] at h1
    exact (Option.some.inj h1).symm
  have hv1 : it1.view = it2.view := by
    have h1 := congrArg (fun l => l.get? j) hview
    simp only [List.get?_map] at h1
    rw [hget1, hget2] at h1
    exact (Option.some.inj h1).symm
  rw [← hid1] at hmg2
  have := hsub j it1 r hget1 hmg2
  rw [this]
  exact canonEntry_congr items1 items2 gap hview.symm j it1 it2 hv1

/-- Sane entry bounds transfer along a lookup restriction. -/
theorem cacheOK_of_restrict (cache1 cache2 : List (String × RenderedItem))
    (hget : ∀ key, mapGet cache2 key = mapGet cache1 key ∨ mapGet cache2 key = none)
    (hok : CacheOK cache1) : CacheOK cache2 := by
  intro k r hk
  rcases hget k with h | h
  · rw [h] at hk
    exact hok k r hk
  · rw [h] at hk
    exact Option.noConfusion hk

/-- Deleting a key preserves sane entry bounds. -/
theorem cacheOK_mapDel (cache : List (String × RenderedItem)) (k : String)
    (hok : CacheOK cache) : CacheOK (mapDel cache k) :=
  cacheOK_of_restrict cache (mapDel cache k) (fun key => mapGet_del_or cache k key) hok

/-- In a well-formed state every retrievable cache entry has sane
bounds. -/
theorem wf_cacheOK (s : ListState) (hwf : WF s) : CacheOK s.renderedItems := by
  obtain ⟨hne, hw, hh, hgap, hnodup, hiv, himap, hcanon, hdom, hrend, hrh, hsel⟩ := hwf
  intro k r hk
  have hmem := mapGet_some_mem s.renderedItems k r hk
  have hkid := hdom (k, r) hmem
  obtain ⟨it, hitmem, hitid⟩ := List.mem_map.mp hkid
  obtain ⟨⟨j, hj⟩, hjeq⟩ := List.mem_iff_get.mp hitmem
  rw [List.get_eq_getElem] at hjeq
  have hcj := hcanon j hj
  rw [hjeq] at hcj
  rw [hitid] at hcj
  rw [hk] at hcj
  have hreq : r = canonEntry s.items s.gap j it := Option.some.inj hcj
  have hstart : 0 ≤ canonStart s.items s.gap j := canonStart_nonneg s.items s.gap hgap j
  have hhgt := itemHeight_pos it
  have hviewne : it.view ≠ [] := by
    have := hiv j hj
    rw [hjeq] at this
    exact this.1
  rw [hreq]
  exact ⟨hstart, by simp only [canonEntry]; omega, by simp only [canonEntry]; omega,
    by simp only [canonEntry]; exact hviewne⟩

/-- A well-formed state is ready for re-rendering. -/
theorem wf_renderReady (s : ListState) (hwf : WF s) : RenderReady s := by
  obtain ⟨hne, hw, hh, hgap, hnodup, hiv, himap, hcanon, hdom, hrend, hrh, hsel⟩ := hwf
  refine ⟨hgap, hnodup, ?_, ?_, hdom, hrend, hrh⟩
  · intro it hmem
    obtain ⟨⟨j, hj⟩, hjeq⟩ := List.mem_iff_get.mp hmem
    rw [List.get_eq_getElem] at hjeq
    have := hiv j hj
    rw [hjeq] at this
    exact this.1
  · intro j it r hget hmg
    have hj : j < s.items.length := by
      by_contra hc
      rw [List.get?_eq_none.mpr (by omega)] at hget
      exact Option.noConfusion hget
    have hje : s.items[j] = it := by
      rw [List.get?_eq_getElem?, List.getElem?_eq_getElem hj] at hget
      exact Option.some.inj hget
    have hcj := hcanon j hj
    rw [hje, hmg] at hcj
    exact Option.some.inj hcj

/-- Every cache pair surviving `focusSelectedItem` was already present. -/
theorem focusSelectedItem_cacheMem (s : ListState) (p : String × RenderedItem)
    (hp : p ∈ ((focusSelectedItem s).1).renderedItems) : p ∈ s.renderedItems := by
  revert hp
  simp only [focusSelectedItem]
  repeat' split
  all_goals intro hp
  all_goals try exact hp
  all_goals try exact mem_mapDel _ _ _ hp
  all_goals exact mem_mapDel _ _ _ (mem_mapDel _ _ _ hp)

/-- Every cache pair surviving `blurSelectedItem` was already present. -/
theorem blurSelectedItem_cacheMem (s : ListState) (p : String × RenderedItem)
    (hp : p ∈ ((blurSelectedItem s).1).renderedItems) : p ∈ s.renderedItems := by
  revert hp
  simp only [blurSelectedItem]
  repeat' split
  all_goals intro hp
  all_goals try exact hp
  all_goals exact mem_mapDel _ _ _ hp

/-- Cache-key containment transfers along identifier equality and a
member-wise inclusion. -/
theorem cacheDomSub_transport (items1 items2 : List GoItem)
    (cache1 cache2 : List (String × RenderedItem))
    (hid : items2.map GoItem.id = items1.map GoItem.id)
    (hmem : ∀ p ∈ cache2, p ∈ cache1)
    (hdom : CacheDomSub items1 cache1) : CacheDomSub items2 cache2 := by
  intro p hp
  rw [hid]
  exact hdom p (hmem p hp)

set_option maxHeartbeats 1000000 in
/-- `scrollToSelection` preserves the scroll-offset invariant whenever the
selected item's cache entry (if any) lies inside the rendered buffer. -/
theorem scrollToSelection_inv (s : ListState) (hinv : Inv s)
    (hsel : ∀ r, mapGet s.renderedItems s.selectedItem = some r →
      0 ≤ r.start ∧ r.end_ = r.start + r.height - 1 ∧ r.end_ ≤ s.renderedHeight - 1) :
    Inv (scrollToSelection s) := by
  have hoff : 0 ≤ s.offset := hinv.1
  have hupper : s.offset ≤ max 0 (s.renderedHeight - s.height) := hinv.2
  simp only [scrollToSelection]
  split
  case h_1 hnone =>
    obtain ⟨sel, hshape⟩ := setDefaultSelected_shape { s with selectedItem := "" }
    rw [hshape]
    exact inv_of_fields s _ rfl rfl rfl hinv
  case h_2 rItem hget =>
    obtain ⟨hb1, hb2, hb3⟩ := hsel rItem hget
    unfold Inv
    rcases hdir : s.direction
    all_goals simp only [scrollCore, viewPositionS, viewPosition]
    all_goals try dsimp only
    all_goals simp only [hdir, reduceIte]
    all_goals repeat' split
    all_goals try dsimp only
    all_goals omega

set_option maxHeartbeats 1000000 in
/-- `scrollToSelection` keeps the offset non-negative over any cache with
sane entry bounds. -/
theorem scrollToSelection_offset_nonneg (s : ListState) (hoff : 0 ≤ s.offset)
    (hok : CacheOK s.renderedItems) : 0 ≤ (scrollToSelection s).offset := by
  simp only [scrollToSelection]
  split
  case h_1 hnone =>
    obtain ⟨sel, hshape⟩ := setDefaultSelected_shape { s with selectedItem := "" }
    rw [hshape]
    exact hoff
  case h_2 rItem hget =>
    obtain ⟨hb1, hb2, _, _⟩ := hok s.selectedItem rItem hget
    rcases hdir : s.direction
    all_goals simp only [scrollCore, viewPositionS, viewPosition]
    all_goals try dsimp only
    all_goals simp only [hdir, reduceIte]
    all_goals repeat' split
    all_goals try dsimp only
    all_goals omega

/-- A canonical cache records views and heights correctly. -/
theorem subCanon_hv (items : List GoItem) (gap : Int)
    (cache : List (String × RenderedItem))
    (hsub : SubCanonCache items gap cache) : HVCache items cache := by
  intro j it r hget hmg
  rw [hsub j it r hget hmg]
  exact ⟨rfl, rfl⟩

/-- A full forward re-render pass rebuilds the canonical buffer and
cache. -/
theorem rerender_forward (t : ListState) (hdirF : t.direction = .forward)
    (hgap : 0 ≤ t.gap) (hnodup : (t.items.map GoItem.id).Nodup)
    (hsub : SubCanonCache t.items t.gap t.renderedItems) :
    (renderIterator t 0 false []).1 = joinViews t.gap t.items ∧
    FullCanonCache t.items t.gap (renderIterator t 0 false []).2.2 ∧
    (CacheDomSub t.items t.renderedItems →
      CacheDomSub t.items (renderIterator t 0 false []).2.2) := by
  have hful := renderIterLoop_forward_full t.items t.height t.gap hnodup
    (t.items.length - 0) 0 0 t.renderedItems [] (by omega) hsub
    (by rw [canonStart_zero])
  simp only [renderIterator]
  rw [hdirF]
  rw [show heightL ([] : Str) - 1 = (0 : Int) by decide]
  rw [if_pos rfl]
  refine ⟨?_, ?_, ?_⟩
  · rw [hful.1]
    rw [List.nil_append, List.drop_zero]
    exact assembleForward_canonFrags t.gap t.items hgap
  · intro j it hget
    exact hful.2.1 j it hget (by omega)
  · exact hful.2.2.2

/-- A full backward re-render pass rebuilds the canonical buffer and a
cache that covers every item with its correct view and height (positions
are fixed by the subsequent recalculation). -/
theorem rerender_backward (t : ListState) (hdirB : t.direction = .backward)
    (hgap : 0 ≤ t.gap) (hnodup : (t.items.map GoItem.id).Nodup)
    (hsub : SubCanonCache t.items t.gap t.renderedItems) :
    (renderIterator t 0 false []).1 = joinViews t.gap t.items ∧
    FullHVCache t.items (renderIterator t 0 false []).2.2 ∧
    (CacheDomSub t.items t.renderedItems →
      CacheDomSub t.items (renderIterator t 0 false []).2.2) := by
  have hful := renderIterLoop_backward_full t.items t.height t.gap hnodup
    (t.items.length - 0) 0 0 t.renderedItems [] (by omega)
    (subCanon_hv t.items t.gap t.renderedItems hsub)
  simp only [renderIterator]
  rw [hdirB]
  rw [show heightL ([] : Str) - 1 = (0 : Int) by decide]
  rw [if_neg (by decide)]
  refine ⟨?_, ?_, ?_⟩
  · rw [hful.1]
    rw [List.nil_append, Nat.sub_zero]
    rw [show t.items.length = (canonFrags t.gap t.items).length from
      (canonFrags_length t.gap t.items).symm]
    rw [List.take_length]
    exact assembleBackward_canonFrags t.gap t.items hgap
  · intro j it hget
    have hj : j < t.items.length := by
      by_contra hc
      rw [List.get?_eq_none.mpr (by omega)] at hget
      exact Option.noConfusion hget
    have hpres := hful.2.2.1 j it hget (by omega)
    obtain ⟨r, hr⟩ := Option.isSome_iff_exists.mp hpres
    obtain ⟨hv, hh⟩ := hful.2.1 j it r hget hr
    exact ⟨r, hr, hv, hh⟩
  · exact hful.2.2.2.2

/-- Recomputing all positions over a cache that covers every item with
correct view and height produces the canonical cache. -/
theorem recalc_full (u : ListState) (hnodup : (u.items.map GoItem.id).Nodup)
    (hfhv : FullHVCache u.items u.renderedItems) :
    (recalculateItemPositions u).renderedItems
      = recalcLoop u.gap (u.items.drop 0) 0 u.renderedItems ∧
    FullCanonCache u.items u.gap (recalculateItemPositions u).renderedItems ∧
    (CacheDomSub u.items u.renderedItems →
      CacheDomSub u.items (recalculateItemPositions u).renderedItems) := by
  have hlem := recalcLoop_canon u.items u.gap hnodup u.items.length 0
    u.renderedItems (by omega) hfhv
  rw [canonStart_zero] at hlem
  have hshape : (recalculateItemPositions u).renderedItems
      = recalcLoop u.gap (u.items.drop 0) 0 u.renderedItems := by
    unfold recalculateItemPositions recalculateItemPositionsFrom
    rw [if_neg (by omega)]
  refine ⟨hshape, ?_, ?_⟩
  · intro j it hget
    rw [hshape]
    exact hlem.1 j it hget (by omega)
  · intro hd
    rw [hshape]
    exact hlem.2.2 hd

/-- `recalculateItemPositions` only rewrites the render cache. -/
theorem recalculateItemPositions_shape (u : ListState) :
    ∃ c, recalculateItemPositions u = { u with renderedItems := c } := by
  unfold recalculateItemPositions recalculateItemPositionsFrom
  exact ⟨_, rfl⟩

set_option maxHeartbeats 2000000 in
/-- The shared tail of a full synchronous re-render (`render` with a
non-empty buffer): re-run the iterator over the whole item sequence,
store the buffer, recompute positions for the backward direction, and
scroll the selection into view; the scroll-offset invariant holds at the
end.  `T` is the state after the focus/blur step, constrained by how that
step relates to the original state `s`. -/
theorem renderTail_inv (s T : ListState)
    (hgap : 0 ≤ s.gap) (hnodup : (s.items.map GoItem.id).Nodup)
    (hsub : SubCanonCache s.items s.gap s.renderedItems)
    (hdom : CacheDomSub s.items s.renderedItems)
    (hrend : s.rendered = joinViews s.gap s.items)
    (hrh : s.renderedHeight = heightL s.rendered)
    (hinv : Inv s)
    (hToff : T.offset = s.offset) (hTh : T.height = s.height)
    (hTg : T.gap = s.gap)
    (hTid : T.items.map GoItem.id = s.items.map GoItem.id)
    (hTv : T.items.map GoItem.view = s.items.map GoItem.view)
    (hTcm : ∀ p ∈ T.renderedItems, p ∈ s.renderedItems)
    (hTcg : ∀ key, mapGet T.renderedItems key = mapGet s.renderedItems key ∨
      mapGet T.renderedItems key = none) :
    Inv (if (if (setRendered { T with renderedItems := (renderIterator T 0 false []).2.2 }
          (renderIterator T 0 false []).1).direction = Direction.backward then
        recalculateItemPositions (setRendered { T with renderedItems :=
          (renderIterator T 0 false []).2.2 } (renderIterator T 0 false []).1)
      else setRendered { T with renderedItems := (renderIterator T 0 false []).2.2 }
        (renderIterator T 0 false []).1).focused = true then
      scrollToSelection (if (setRendered { T with renderedItems :=
          (renderIterator T 0 false []).2.2 } (renderIterator T 0 false []).1).direction
          = Direction.backward then
        recalculateItemPositions (setRendered { T with renderedItems :=
          (renderIterator T 0 false []).2.2 } (renderIterator T 0 false []).1)
      else setRendered { T with renderedItems := (renderIterator T 0 false []).2.2 }
        (renderIterator T 0 false []).1)
    else (if (setRendered { T with renderedItems := (renderIterator T 0 false []).2.2 }
          (renderIterator T 0 false []).1).direction = Direction.backward then
        recalculateItemPositions (setRendered { T with renderedItems :=
          (renderIterator T 0 false []).2.2 } (renderIterator T 0 false []).1)
      else setRendered { T with renderedItems := (renderIterator T 0 false []).2.2 }
        (renderIterator T 0 false []).1)) := by
  have hTnodup : (T.items.map GoItem.id).Nodup := by rw [hTid]; exact hnodup
  have hTgap : 0 ≤ T.gap := by rw [hTg]; exact hgap
  have hTsub : SubCanonCache T.items T.gap T.renderedItems := by
    rw [hTg]
    exact subCanon_transport s.items T.items s.gap s.renderedItems T.renderedItems
      hTid hTv hTcg hsub
  have hTdom : CacheDomSub T.items T.renderedItems :=
    cacheDomSub_transport s.items T.items s.renderedItems T.renderedItems hTid hTcm hdom
  have hTjoin : heightL (joinViews T.gap T.items) = s.renderedHeight := by
    rw [hTg, joinViews_congr s.gap T.items s.items hTv, ← hrend, ← hrh]
  set R := setRendered { T with renderedItems := (renderIterator T 0 false []).2.2 }
    (renderIterator T 0 false []).1 with hRdef
  have hRoff : R.offset = s.offset := by rw [hRdef]; simp only [setRendered]; exact hToff
  have hRh : R.height = s.height := by rw [hRdef]; simp only [setRendered]; exact hTh
  have hRg : R.gap = T.gap := by rw [hRdef]; simp only [setRendered]
  have hRit : R.items = T.items := by rw [hRdef]; simp only [setRendered]
  have hRcache : R.renderedItems = (renderIterator T 0 false []).2.2 := by
    rw [hRdef]; simp only [setRendered]
  cases hdirT : T.direction with
  | forward =>
    have hre := rerender_forward T hdirT hTgap hTnodup hTsub
    have hRrh : R.renderedHeight = s.renderedHeight := by
      rw [hRdef]; simp only [setRendered]
      rw [hre.1]
      exact hTjoin
    have hRd : R.direction = Direction.forward := by
      rw [hRdef]; simp only [setRendered]; exact hdirT
    have hcond : ¬(R.direction = Direction.backward) := by rw [hRd]; simp
    simp only [if_neg hcond]
    have hRinv : Inv R := inv_of_fields s R hRoff hRrh hRh hinv
    split
    · apply scrollToSelection_inv R hRinv
      intro r hr
      rw [hRcache] at hr
      have hrdom := hre.2.2 hTdom
      have hmem := mapGet_some_mem _ _ _ hr
      have hkid := hrdom _ hmem
      obtain ⟨it, hitmem, hitid⟩ := List.mem_map.mp hkid
      obtain ⟨⟨j, hj⟩, hjeq⟩ := List.mem_iff_get.mp hitmem
      rw [List.get_eq_getElem] at hjeq
      have hget : T.items.get? j = some it := by
        rw [List.get?_eq_getElem?, List.getElem?_eq_getElem hj, hjeq]
      have hcan := hre.2.1 j it hget
      rw [hitid] at hcan
      rw [hr] at hcan
      have hreq : r = canonEntry T.items T.gap j it := Option.some.inj hcan
      rw [hreq]
      refine ⟨canonStart_nonneg T.items T.gap hTgap j, by simp only [canonEntry], ?_⟩
      have hle := canonEntry_end_le T.items T.gap hTgap j it hget
      simp only [canonEntry]
      rw [hRrh, ← hTjoin]
      exact hle
    · exact hRinv
  | backward =>
    have hre := rerender_backward T hdirT hTgap hTnodup hTsub
    have hRrh : R.renderedHeight = s.renderedHeight := by
      rw [hRdef]; simp only [setRendered]
      rw [hre.1]
      exact hTjoin
    have hRd : R.direction = Direction.backward := by
      rw [hRdef]; simp only [setRendered]; exact hdirT
    simp only [if_pos hRd]
    obtain ⟨c, hrc⟩ := recalculateItemPositions_shape R
    have hfhv : FullHVCache R.items R.renderedItems := by
      rw [hRit, hRcache]
      exact hre.2.1
    have hRnodup : (R.items.map GoItem.id).Nodup := by rw [hRit]; exact hTnodup
    have hrf := recalc_full R hRnodup hfhv
    have hRdom : CacheDomSub R.items R.renderedItems := by
      rw [hRit, hRcache]
      exact hre.2.2 hTdom
    have hPdom := hrf.2.2 hRdom
    have hPcanon := hrf.2.1
    have hPoff : (recalculateItemPositions R).offset = s.offset := by
      rw [hrc]
      exact hRoff
    have hPh : (recalculateItemPositions R).height = s.height := by
      rw [hrc]
      exact hRh
    have hPrh : (recalculateItemPositions R).renderedHeight = s.renderedHeight := by
      rw [hrc]
      exact hRrh
    have hPinv : Inv (recalculateItemPositions R) :=
      inv_of_fields s _ hPoff hPrh hPh hinv
    have hRgap : 0 ≤ R.gap := by rw [hRg]; exact hTgap
    have hRjoin : heightL (joinViews R.gap R.items) = s.renderedHeight := by
      rw [hRg, hRit]
      exact hTjoin
    split
    · apply scrollToSelection_inv _ hPinv
      intro r hr
      have hmem := mapGet_some_mem _ _ _ hr
      have hkid := hPdom _ hmem
      obtain ⟨it, hitmem, hitid⟩ := List.mem_map.mp hkid
      obtain ⟨⟨j, hj⟩, hjeq⟩ := List.mem_iff_get.mp hitmem
      rw [List.get_eq_getElem] at hjeq
      have hget : R.items.get? j = some it := by
        rw [List.get?_eq_getElem?, List.getElem?_eq_getElem hj, hjeq]
      have hcan := hPcanon j it hget
      rw [hitid] at hcan
      rw [hr] at hcan
      have hreq : r = canonEntry R.items R.gap j it := Option.some.inj hcan
      rw [hreq]
      refine ⟨canonStart_nonneg R.items R.gap hRgap j, by simp only [canonEntry], ?_⟩
      have hle := canonEntry_end_le R.items R.gap hRgap j it hget
      simp only [canonEntry]
      rw [hPrh, ← hRjoin]
      exact hle
    · exact hPinv

set_option maxHeartbeats 1000000 in
/-- `render` preserves the scroll-offset invariant on render-ready
states. -/
theorem render_inv (s : ListState) (hrr : RenderReady s) (hinv : Inv s) :
    Inv (render s).1 := by
  obtain ⟨hgap, hnodup, hviews, hsub, hdom, hrend, hrh⟩ := hrr
  simp only [render]
  split
  case isTrue h => exact hinv
  case isFalse hguard =>
    push_neg at hguard
    obtain ⟨hw, hh, hlen⟩ := hguard
    have hitne : s.items ≠ [] := by
      intro hc
      rw [hc] at hlen
      exact hlen rfl
    obtain ⟨sel0, hD⟩ := setDefaultSelected_shape s
    rw [hD]
    split
    case isTrue hfoc =>
      have hFf := focusSelectedItem_fields { s with selectedItem := sel0 }
      have hFm := focusSelectedItem_maps { s with selectedItem := sel0 }
      have hFcm : ∀ p ∈ (focusSelectedItem { s with selectedItem := sel0 }).1.renderedItems,
          p ∈ s.renderedItems :=
        fun p hp => focusSelectedItem_cacheMem { s with selectedItem := sel0 } p hp
      have hFcg : ∀ key,
          mapGet (focusSelectedItem { s with selectedItem := sel0 }).1.renderedItems key
            = mapGet s.renderedItems key ∨
          mapGet (focusSelectedItem { s with selectedItem := sel0 }).1.renderedItems key
            = none :=
        fun key => focusSelectedItem_mapGet { s with selectedItem := sel0 } key
      have hren : (focusSelectedItem { s with selectedItem := sel0 }).1.rendered ≠ [] := by
        rw [hFf.2.2.2.2.2.2.2.1]
        show s.rendered ≠ []
        rw [hrend]
        exact joinViews_ne_nil s.gap s.items hitne hviews
      rw [if_pos hren]
      exact renderTail_inv s (focusSelectedItem { s with selectedItem := sel0 }).1
        hgap hnodup hsub hdom hrend hrh hinv
        hFf.1 hFf.2.1 hFf.2.2.2.1 hFm.1 hFm.2.1 hFcm hFcg
    case isFalse hfoc =>
      have hFf := blurSelectedItem_fields { s with selectedItem := sel0 }
      have hFm := blurSelectedItem_maps { s with selectedItem := sel0 }
      have hFcm : ∀ p ∈ (blurSelectedItem { s with selectedItem := sel0 }).1.renderedItems,
          p ∈ s.renderedItems :=
        fun p hp => blurSelectedItem_cacheMem { s with selectedItem := sel0 } p hp
      have hFcg : ∀ key,
          mapGet (blurSelectedItem { s with selectedItem := sel0 }).1.renderedItems key
            = mapGet s.renderedItems key ∨
          mapGet (blurSelectedItem { s with selectedItem := sel0 }).1.renderedItems key
            = none :=
        fun key => blurSelectedItem_mapGet { s with selectedItem := sel0 } key
      have hren : (blurSelectedItem { s with selectedItem := sel0 }).1.rendered ≠ [] := by
        rw [hFf.2.2.2.2.2.2.2.1]
        show s.rendered ≠ []
        rw [hrend]
        exact joinViews_ne_nil s.gap s.items hitne hviews
      rw [if_pos hren]
      exact renderTail_inv s (blurSelectedItem { s with selectedItem := sel0 }).1
        hgap hnodup hsub hdom hrend hrh hinv
        hFf.1 hFf.2.1 hFf.2.2.2.1 hFm.1 hFm.2.1 hFcm hFcg

/-- Render-readiness transfers along equality of the fields it reads. -/
theorem renderReady_congr (s t : ListState) (hg : t.gap = s.gap)
    (hit : t.items = s.items) (hcache : t.renderedItems = s.renderedItems)
    (hrend : t.rendered = s.rendered) (hrh : t.renderedHeight = s.renderedHeight)
    (h : RenderReady s) : RenderReady t := by
  unfold RenderReady at *
  rw [hg, hit, hcache, hrend, hrh]
  exact h

/-- The downward candidate loop of `changeSelectionWhenScrolling`
preserves the scroll-offset invariant on render-ready states. -/
theorem cswsLoopBelow_inv (start stop : Int) :
    ∀ (fuel : Nat) (inx : Int) (s : ListState), RenderReady s → Inv s →
      Inv (cswsLoopBelow s start stop fuel inx).1 := by
  intro fuel
  induction fuel with
  | zero => intro inx s _ hinv; exact hinv
  | succ fuel ih =>
    intro inx s hrr hinv
    simp only [cswsLoopBelow]
    split
    · exact hinv
    case h_2 i hfind =>
      split
      · exact ih i s hrr hinv
      case h_2 item hitem =>
        split
        · exact ih i s hrr hinv
        case h_2 rI hrI =>
          split
          · apply render_inv
            · exact renderReady_congr s _ rfl rfl rfl rfl rfl hrr
            · exact inv_of_fields s _ rfl rfl rfl hinv
          split
          · apply render_inv
            · exact renderReady_congr s _ rfl rfl rfl rfl rfl hrr
            · exact inv_of_fields s _ rfl rfl rfl hinv
          · exact ih i s hrr hinv

/-- The upward candidate loop of `changeSelectionWhenScrolling` preserves
the scroll-offset invariant on render-ready states. -/
theorem cswsLoopAbove_inv (start stop : Int) :
    ∀ (fuel inx : Nat) (s : ListState), RenderReady s → Inv s →
      Inv (cswsLoopAbove s start stop fuel inx).1 := by
  intro fuel
  induction fuel with
  | zero => intro inx s _ hinv; exact hinv
  | succ fuel ih =>
    intro inx s hrr hinv
    simp only [cswsLoopAbove]
    split
    · exact hinv
    case h_2 i hfind =>
      split
      · exact ih i s hrr hinv
      case h_2 item hitem =>
        split
        · exact ih i s hrr hinv
        case h_2 rI hrI =>
          split
          · apply render_inv
            · exact renderReady_congr s _ rfl rfl rfl rfl rfl hrr
            · exact inv_of_fields s _ rfl rfl rfl hinv
          split
          · apply render_inv
            · exact renderReady_congr s _ rfl rfl rfl rfl rfl hrr
            · exact inv_of_fields s _ rfl rfl rfl hinv
          · exact ih i s hrr hinv

/-- `changeSelectionWhenScrolling` preserves the scroll-offset invariant
on render-ready states. -/
theorem csws_inv (s : ListState) (hrr : RenderReady s) (hinv : Inv s) :
    Inv (changeSelectionWhenScrolling s).1 := by
  simp only [changeSelectionWhenScrolling]
  split
  · exact hinv
  case h_2 rItem hget =>
    repeat' split
    all_goals first
      | exact hinv
      | exact cswsLoopBelow_inv _ _ _ _ s hrr hinv
      | exact cswsLoopAbove_inv _ _ _ _ s hrr hinv

/-- `MoveDown` preserves the scroll-offset invariant on render-ready
states. -/
theorem moveDown_inv (s : ListState) (n : Int) (hrr : RenderReady s)
    (hinv : Inv s) : Inv (MoveDown s n).1 := by
  simp only [MoveDown]
  split
  · obtain ⟨o, ho⟩ := incrementOffset_shape s n
    have hinv1 : Inv (incrementOffset s n) := incrementOffset_inv s n hinv
    rw [ho] at hinv1 ⊢
    split
    · exact hinv1
    · repeat' split
      all_goals apply csws_inv
      all_goals first
        | exact renderReady_congr s _ rfl rfl rfl rfl rfl hrr
        | exact inv_of_fields { s with offset := o } _ rfl rfl rfl hinv1
  · obtain ⟨o, ho⟩ := decrementOffset_shape s n
    have hinv1 : Inv (decrementOffset s n) := decrementOffset_inv s n hinv
    rw [ho] at hinv1 ⊢
    split
    · exact hinv1
    · repeat' split
      all_goals apply csws_inv
      all_goals first
        | exact renderReady_congr s _ rfl rfl rfl rfl rfl hrr
        | exact inv_of_fields { s with offset := o } _ rfl rfl rfl hinv1

/-- `MoveUp` preserves the scroll-offset invariant on render-ready
states. -/
theorem moveUp_inv (s : ListState) (n : Int) (hrr : RenderReady s)
    (hinv : Inv s) : Inv (MoveUp s n).1 := by
  simp only [MoveUp]
  split
  · obtain ⟨o, ho⟩ := decrementOffset_shape s n
    have hinv1 : Inv (decrementOffset s n) := decrementOffset_inv s n hinv
    rw [ho] at hinv1 ⊢
    split
    · exact hinv1
    · repeat' split
      all_goals apply csws_inv
      all_goals first
        | exact renderReady_congr s _ rfl rfl rfl rfl rfl hrr
        | exact inv_of_fields { s with offset := o } _ rfl rfl rfl hinv1
  · obtain ⟨o, ho⟩ := incrementOffset_shape s n
    have hinv1 : Inv (incrementOffset s n) := incrementOffset_inv s n hinv
    rw [ho] at hinv1 ⊢
    split
    · exact hinv1
    · repeat' split
      all_goals apply csws_inv
      all_goals first
        | exact renderReady_congr s _ rfl rfl rfl rfl rfl hrr
        | exact inv_of_fields { s with offset := o } _ rfl rfl rfl hinv1

/-- `GoToTop` establishes the scroll-offset invariant on render-ready
states. -/
theorem goToTop_inv (s : ListState) (hrr : RenderReady s) : Inv (GoToTop s).1 := by
  unfold GoToTop
  apply render_inv
  · exact renderReady_congr s _ rfl rfl rfl rfl rfl hrr
  · exact ⟨le_refl 0, le_max_left 0 _⟩

/-- `GoToBottom` establishes the scroll-offset invariant on render-ready
states. -/
theorem goToBottom_inv (s : ListState) (hrr : RenderReady s) : Inv (GoToBottom s).1 := by
  unfold GoToBottom
  apply render_inv
  · exact renderReady_congr s _ rfl rfl rfl rfl rfl hrr
  · exact ⟨le_refl 0, le_max_left 0 _⟩

/-- `scrollToSelection` never touches the rendered buffer. -/
theorem scrollToSelection_rendered (x : ListState) :
    (scrollToSelection x).rendered = x.rendered := by
  rcases scrollToSelection_shape x with ⟨o, m, h⟩ | ⟨_, h⟩
  · rw [h]
  · rw [h]
    obtain ⟨sel, h2⟩ := setDefaultSelected_shape { x with selectedItem := "" }
    rw [h2]

/-- Recomputing positions keeps every retrievable entry's bounds sane. -/
theorem recalc_cacheOK (u : ListState) (hg : 0 ≤ u.gap)
    (hok : CacheOK u.renderedItems) :
    CacheOK (recalculateItemPositions u).renderedItems := by
  unfold recalculateItemPositions recalculateItemPositionsFrom
  dsimp only
  rw [if_neg (by omega)]
  exact recalcLoop_ok u.gap hg _ 0 u.renderedItems (le_refl 0) hok

set_option maxHeartbeats 2000000 in
/-- The shared tail of a full synchronous re-render keeps a non-negative
offset and a non-empty buffer on any cache with sane entry bounds
(canonicity is not required: the positions may be stale after a
structural edit). -/
theorem renderTail_basic (s T : ListState)
    (hgap : 0 ≤ s.gap) (hoff : 0 ≤ s.offset)
    (hlen : s.items.length ≠ 0)
    (hviews : ∀ it ∈ s.items, it.view ≠ [])
    (hok : CacheOK s.renderedItems)
    (hToff : T.offset = s.offset) (hTg : T.gap = s.gap)
    (hTid : T.items.map GoItem.id = s.items.map GoItem.id)
    (hTv : T.items.map GoItem.view = s.items.map GoItem.view)
    (hTcg : ∀ key, mapGet T.renderedItems key = mapGet s.renderedItems key ∨
      mapGet T.renderedItems key = none) :
    0 ≤ (if (if (setRendered { T with renderedItems := (renderIterator T 0 false []).2.2 }
          (renderIterator T 0 false []).1).direction = Direction.backward then
        recalculateItemPositions (setRendered { T with renderedItems :=
          (renderIterator T 0 false []).2.2 } (renderIterator T 0 false []).1)
      else setRendered { T with renderedItems := (renderIterator T 0 false []).2.2 }
        (renderIterator T 0 false []).1).focused = true then
      scrollToSelection (if (setRendered { T with renderedItems :=
          (renderIterator T 0 false []).2.2 } (renderIterator T 0 false []).1).direction
          = Direction.backward then
        recalculateItemPositions (setRendered { T with renderedItems :=
          (renderIterator T 0 false []).2.2 } (renderIterator T 0 false []).1)
      else setRendered { T with renderedItems := (renderIterator T 0 false []).2.2 }
        (renderIterator T 0 false []).1)
    else (if (setRendered { T with renderedItems := (renderIterator T 0 false []).2.2 }
          (renderIterator T 0 false []).1).direction = Direction.backward then
        recalculateItemPositions (setRendered { T with renderedItems :=
          (renderIterator T 0 false []).2.2 } (renderIterator T 0 false []).1)
      else setRendered { T with renderedItems := (renderIterator T 0 false []).2.2 }
        (renderIterator T 0 false []).1)).offset ∧
    (if (if (setRendered { T with renderedItems := (renderIterator T 0 false []).2.2 }
          (renderIterator T 0 false []).1).direction = Direction.backward then
        recalculateItemPositions (setRendered { T with renderedItems :=
          (renderIterator T 0 false []).2.2 } (renderIterator T 0 false []).1)
      else setRendered { T with renderedItems := (renderIterator T 0 false []).2.2 }
        (renderIterator T 0 false []).1).focused = true then
      scrollToSelection (if (setRendered { T with renderedItems :=
          (renderIterator T 0 false []).2.2 } (renderIterator T 0 false []).1).direction
          = Direction.backward then
        recalculateItemPositions (setRendered { T with renderedItems :=
          (renderIterator T 0 false []).2.2 } (renderIterator T 0 false []).1)
      else setRendered { T with renderedItems := (renderIterator T 0 false []).2.2 }
        (renderIterator T 0 false []).1)
    else (if (setRendered { T with renderedItems := (renderIterator T 0 false []).2.2 }
          (renderIterator T 0 false []).1).direction = Direction.backward then
        recalculateItemPositions (setRendered { T with renderedItems :=
          (renderIterator T 0 false []).2.2 } (renderIterator T 0 false []).1)
      else setRendered { T with renderedItems := (renderIterator T 0 false []).2.2 }
        (renderIterator T 0 false []).1)).rendered ≠ [] := by
  have hTgap : 0 ≤ T.gap := by rw [hTg]; exact hgap
  have hTviews : ∀ it ∈ T.items, it.view ≠ [] := by
    intro it hmem
    have hv : it.view ∈ T.items.map GoItem.view := List.mem_map.mpr ⟨it, hmem, rfl⟩
    rw [hTv] at hv
    obtain ⟨it2, hmem2, heq⟩ := List.mem_map.mp hv
    rw [← heq]
    exact hviews it2 hmem2
  have hTlen : T.items.length ≠ 0 := by
    have h1 : (T.items.map GoItem.id).length = (s.items.map GoItem.id).length := by
      rw [hTid]
    simp only [List.length_map] at h1
    omega
  have hTok : CacheOK T.renderedItems :=
    cacheOK_of_restrict s.renderedItems T.renderedItems hTcg hok
  obtain ⟨hok2, rest, hfr, hfv, hfne⟩ := renderIterLoop_ok T.items T.direction T.height
    T.gap hTgap hTviews (T.items.length - 0) 0 0 T.renderedItems [] (le_refl 0) hTok
  have hrestne : rest ≠ [] := by
    apply hfne
    · omega
    · cases hd : T.direction with
      | forward => rw [dirIdx_forward]; omega
      | backward => rw [dirIdx_backward]; omega
  obtain ⟨f0, rest2, hrest⟩ := List.exists_cons_of_ne_nil hrestne
  have hf0 : f0.view ≠ [] := by
    apply hfv
    rw [hrest]
    exact List.mem_cons_self f0 rest2
  set R := setRendered { T with renderedItems := (renderIterator T 0 false []).2.2 }
    (renderIterator T 0 false []).1 with hRdef
  have hRoff : R.offset = s.offset := by rw [hRdef]; simp only [setRendered]; exact hToff
  have hRg : R.gap = T.gap := by rw [hRdef]; simp only [setRendered]
  have hRrendered : R.rendered = (renderIterator T 0 false []).1 := by
    rw [hRdef]; simp only [setRendered]
  have hRcache : R.renderedItems = (renderIterator T 0 false []).2.2 := by
    rw [hRdef]; simp only [setRendered]
  have hRcok : CacheOK R.renderedItems := by
    rw [hRcache]
    simp only [renderIterator]
    rw [show heightL ([] : Str) - 1 = (0 : Int) by decide]
    split
    all_goals exact hok2
  have hRne : R.rendered ≠ [] := by
    rw [hRrendered]
    simp only [renderIterator]
    rw [show heightL ([] : Str) - 1 = (0 : Int) by decide]
    rw [hfr, hrest]
    split
    · exact assembleForward_ne_nil [] f0 rest2 hf0
    · apply assembleBackward_ne_nil [] ([] ++ f0 :: rest2) f0 ?_ hf0
      simp
  have hPoffB : 0 ≤ (recalculateItemPositions R).offset := by
    obtain ⟨c, hrc⟩ := recalculateItemPositions_shape R
    rw [hrc]
    rw [show ({ R with renderedItems := c } : ListState).offset = R.offset from rfl]
    rw [hRoff]
    exact hoff
  have hPneB : (recalculateItemPositions R).rendered ≠ [] := by
    obtain ⟨c, hrc⟩ := recalculateItemPositions_shape R
    rw [hrc]
    rw [show ({ R with renderedItems := c } : ListState).rendered = R.rendered from rfl]
    exact hRne
  have hPokB : CacheOK (recalculateItemPositions R).renderedItems :=
    recalc_cacheOK R (by rw [hRg]; exact hTgap) hRcok
  have hRoff0 : 0 ≤ R.offset := by rw [hRoff]; exact hoff
  constructor
  · split
    · split
      · exact scrollToSelection_offset_nonneg _ hPoffB hPokB
      · exact hPoffB
    · split
      · exact scrollToSelection_offset_nonneg _ hRoff0 hRcok
      · exact hRoff0
  · split
    · split
      · rw [scrollToSelection_rendered]
        exact hPneB
      · exact hPneB
    · split
      · rw [scrollToSelection_rendered]
        exact hRne
      · exact hRne

set_option maxHeartbeats 1000000 in
/-- A `render` call on a state with a non-empty buffer, non-empty views
and a cache with sane entry bounds keeps the offset non-negative and the
buffer non-empty. -/
theorem render_basic (s : ListState) (hgap : 0 ≤ s.gap) (hoff : 0 ≤ s.offset)
    (hok : CacheOK s.renderedItems)
    (hviews : ∀ it ∈ s.items, it.view ≠ [])
    (hrnil : s.rendered ≠ []) :
    0 ≤ (render s).1.offset ∧ (render s).1.rendered ≠ [] := by
  simp only [render]
  split
  case isTrue h => exact ⟨hoff, hrnil⟩
  case isFalse hguard =>
    push_neg at hguard
    obtain ⟨hw, hh, hlen⟩ := hguard
    obtain ⟨sel0, hD⟩ := setDefaultSelected_shape s
    rw [hD]
    split
    case isTrue hfoc =>
      have hFf := focusSelectedItem_fields { s with selectedItem := sel0 }
      have hFm := focusSelectedItem_maps { s with selectedItem := sel0 }
      have hFcg : ∀ key,
          mapGet (focusSelectedItem { s with selectedItem := sel0 }).1.renderedItems key
            = mapGet s.renderedItems key ∨
          mapGet (focusSelectedItem { s with selectedItem := sel0 }).1.renderedItems key
            = none :=
        fun key => focusSelectedItem_mapGet { s with selectedItem := sel0 } key
      have hren : (focusSelectedItem { s with selectedItem := sel0 }).1.rendered ≠ [] := by
        rw [hFf.2.2.2.2.2.2.2.1]
        exact hrnil
      rw [if_pos hren]
      exact renderTail_basic s (focusSelectedItem { s with selectedItem := sel0 }).1
        hgap hoff hlen hviews hok hFf.1 hFf.2.2.2.1 hFm.1 hFm.2.1 hFcg
    case isFalse hfoc =>
      have hFf := blurSelectedItem_fields { s with selectedItem := sel0 }
      have hFm := blurSelectedItem_maps { s with selectedItem := sel0 }
      have hFcg : ∀ key,
          mapGet (blurSelectedItem { s with selectedItem := sel0 }).1.renderedItems key
            = mapGet s.renderedItems key ∨
          mapGet (blurSelectedItem { s with selectedItem := sel0 }).1.renderedItems key
            = none :=
        fun key => blurSelectedItem_mapGet { s with selectedItem := sel0 } key
      have hren : (blurSelectedItem { s with selectedItem := sel0 }).1.rendered ≠ [] := by
        rw [hFf.2.2.2.2.2.2.2.1]
        exact hrnil
      rw [if_pos hren]
      exact renderTail_basic s (blurSelectedItem { s with selectedItem := sel0 }).1
        hgap hoff hlen hviews hok hFf.1 hFf.2.2.2.1 hFm.1 hFm.2.1 hFcg

/-- The final offset clamp of `DeleteItem` establishes the scroll-offset
invariant after the re-render. -/
theorem renderClamp_inv (X : ListState) (hgap : 0 ≤ X.gap) (hoff : 0 ≤ X.offset)
    (hok : CacheOK X.renderedItems)
    (hviews : ∀ it ∈ X.items, it.view ≠ [])
    (hrnil : X.rendered ≠ []) :
    Inv (if (render X).1.rendered ≠ [] then
        if (render X).1.renderedHeight ≤ (render X).1.height then
          { (render X).1 with offset := 0 }
        else if (render X).1.offset > (render X).1.renderedHeight - (render X).1.height then
          { (render X).1 with offset := (render X).1.renderedHeight - (render X).1.height }
        else (render X).1
      else (render X).1) := by
  obtain ⟨ho, hrn⟩ := render_basic X hgap hoff hok hviews hrnil
  rw [if_pos hrn]
  split
  · exact ⟨le_refl 0, le_max_left 0 _⟩
  case isFalse h2 =>
    split
    case isTrue h3 =>
      unfold Inv
      dsimp only
      omega
    case isFalse h3 =>
      unfold Inv
      omega

set_option maxHeartbeats 1000000 in
/-- `DeleteItem` preserves the scroll-offset invariant on well-formed
states: the re-render keeps the offset non-negative and the final clamp
enforces the upper bound against the new buffer height. -/
theorem deleteItem_inv (s : ListState) (id : String) (hwf : WF s) (hinv : Inv s) :
    Inv (DeleteItem s id).1 := by
  have hrr := wf_renderReady s hwf
  obtain ⟨hgap, hnodup, hviews, hsub, hdom, hrend, hrh⟩ := hrr
  have hok := wf_cacheOK s hwf
  have hitne : s.items ≠ [] := hwf.1
  have hrnil : s.rendered ≠ [] := by
    rw [hrend]
    exact joinViews_ne_nil s.gap s.items hitne hviews
  simp only [DeleteItem]
  split
  · exact hinv
  case h_2 inx hinx =>
    refine renderClamp_inv _ ?_ ?_ ?_ ?_ ?_
    all_goals repeat' split
    all_goals first
      | exact hgap
      | exact hinv.1
      | exact cacheOK_mapDel s.renderedItems id hok
      | exact fun it hmem => hviews it (List.eraseIdx_subset _ _ hmem)
      | exact hrnil

set_option maxHeartbeats 400000 in
/-- A `render` on a state whose buffer is empty takes the initial
(height-limited) pass and leaves the offset untouched. -/
theorem render_offset_of_rendered_nil (s : ListState) (h : s.rendered = []) :
    (render s).1.offset = s.offset := by
  simp only [render]
  split
  · rfl
  case isFalse hguard =>
    obtain ⟨sel0, hD⟩ := setDefaultSelected_shape s
    rw [hD]
    split
    case isTrue hfoc =>
      have hFf := focusSelectedItem_fields { s with selectedItem := sel0 }
      have hren : ¬((focusSelectedItem { s with selectedItem := sel0 }).1.rendered ≠ []) := by
        rw [hFf.2.2.2.2.2.2.2.1]
        show ¬(s.rendered ≠ [])
        rw [h]
        simp
      rw [if_neg hren]
      have hro : ∀ u : ListState, (recalculateItemPositions u).offset = u.offset := by
        intro u
        obtain ⟨c, hrc⟩ := recalculateItemPositions_shape u
        rw [hrc]
      have hso : ∀ (u : ListState) (r : Str), (setRendered u r).offset = u.offset := by
        intro u r
        simp only [setRendered]
      split
      · dsimp only
        rw [hro, hso]
        exact hFf.1
      · dsimp only
        rw [hso]
        exact hFf.1
    case isFalse hfoc =>
      have hFf := blurSelectedItem_fields { s with selectedItem := sel0 }
      have hren : ¬((blurSelectedItem { s with selectedItem := sel0 }).1.rendered ≠ []) := by
        rw [hFf.2.2.2.2.2.2.2.1]
        show ¬(s.rendered ≠ [])
        rw [h]
        simp
      rw [if_neg hren]
      have hro : ∀ u : ListState, (recalculateItemPositions u).offset = u.offset := by
        intro u
        obtain ⟨c, hrc⟩ := recalculateItemPositions_shape u
        rw [hrc]
      have hso : ∀ (u : ListState) (r : Str), (setRendered u r).offset = u.offset := by
        intro u r
        simp only [setRendered]
      split
      · dsimp only
        rw [hro, hso]
        exact hFf.1
      · dsimp only
        rw [hso]
        exact hFf.1

/-- `SetItems` always ends with offset `0`, which satisfies the
scroll-offset invariant outright. -/
theorem setItems_inv (s : ListState) (items : List GoItem) :
    Inv (SetItems s items).1 := by
  simp only [SetItems, reset]
  unfold Inv
  constructor
  · rw [render_offset_of_rendered_nil _ rfl]
    try exact le_refl 0
  · rw [render_offset_of_rendered_nil _ rfl]
    exact le_max_left 0 _

/-- With no items, `setDefaultSelected` leaves the selection alone. -/
theorem setDefaultSelected_selected_nil (s : ListState) (h : s.items = []) :
    (setDefaultSelected s).selectedItem = s.selectedItem := by
  unfold setDefaultSelected selectFirstItem selectLastItem firstSelectableItemBelow
    firstSelectableItemAbove firstFocusableIn
  rw [h]
  simp

/-- A full unlimited pass of the iterator leaves every item identifier
present in the cache, regardless of the incoming cache. -/
theorem rerender_covers (T : ListState) (key : String)
    (hk : key ∈ T.items.map GoItem.id) :
    (mapGet (renderIterator T 0 false []).2.2 key).isSome = true := by
  obtain ⟨it, hmem, hid⟩ := List.mem_map.mp hk
  obtain ⟨⟨j, hj⟩, hjeq⟩ := List.mem_iff_get.mp hmem
  rw [List.get_eq_getElem] at hjeq
  have hget : T.items.get? j = some it := by
    rw [List.get?_eq_getElem?, List.getElem?_eq_getElem hj, hjeq]
  have hget2 : T.items.get? (dirIdx T.items.length T.direction
      (dirIdx T.items.length T.direction j)) = some it := by
    rw [dirIdx_invol T.items.length T.direction j hj]
    exact hget
  have hc := renderIterLoop_covers T.items T.direction T.height T.gap
    (T.items.length - 0) 0 0 T.renderedItems []
    (by omega) (dirIdx T.items.length T.direction j) it (by omega)
    (dirIdx_lt T.items.length T.direction j hj) hget2
  rw [← hid]
  simp only [renderIterator]
  rw [show heightL ([] : Str) - 1 = (0 : Int) by decide]
  split
  all_goals exact hc

/-- Recomputing positions keeps every present key present. -/
theorem recalc_isSome (u : ListState) (key : String)
    (h : (mapGet u.renderedItems key).isSome = true) :
    (mapGet (recalculateItemPositions u).renderedItems key).isSome = true := by
  unfold recalculateItemPositions recalculateItemPositionsFrom
  dsimp only
  exact recalcLoop_isSome u.gap _ _ u.renderedItems key h

set_option maxHeartbeats 1000000 in
/-- The shared re-render tail keeps the selected identifier whenever it
names an existing item: the full pass re-caches every item, so the
scroll step finds the entry and only moves the offset. -/
theorem renderTail_selected (T : ListState)
    (hmem : T.selectedItem ∈ T.items.map GoItem.id) :
    (if (if (setRendered { T with renderedItems := (renderIterator T 0 false []).2.2 }
          (renderIterator T 0 false []).1).direction = Direction.backward then
        recalculateItemPositions (setRendered { T with renderedItems :=
          (renderIterator T 0 false []).2.2 } (renderIterator T 0 false []).1)
      else setRendered { T with renderedItems := (renderIterator T 0 false []).2.2 }
        (renderIterator T 0 false []).1).focused = true then
      scrollToSelection (if (setRendered { T with renderedItems :=
          (renderIterator T 0 false []).2.2 } (renderIterator T 0 false []).1).direction
          = Direction.backward then
        recalculateItemPositions (setRendered { T with renderedItems :=
          (renderIterator T 0 false []).2.2 } (renderIterator T 0 false []).1)
      else setRendered { T with renderedItems := (renderIterator T 0 false []).2.2 }
        (renderIterator T 0 false []).1)
    else (if (setRendered { T with renderedItems := (renderIterator T 0 false []).2.2 }
          (renderIterator T 0 false []).1).direction = Direction.backward then
        recalculateItemPositions (setRendered { T with renderedItems :=
          (renderIterator T 0 false []).2.2 } (renderIterator T 0 false []).1)
      else setRendered { T with renderedItems := (renderIterator T 0 false []).2.2 }
        (renderIterator T 0 false []).1)).selectedItem = T.selectedItem := by
  set R := setRendered { T with renderedItems := (renderIterator T 0 false []).2.2 }
    (renderIterator T 0 false []).1 with hRdef
  have hRsel : R.selectedItem = T.selectedItem := by
    rw [hRdef]; simp only [setRendered]
  have hRcache : R.renderedItems = (renderIterator T 0 false []).2.2 := by
    rw [hRdef]; simp only [setRendered]
  have hcov : (mapGet R.renderedItems R.selectedItem).isSome = true := by
    rw [hRcache, hRsel]
    exact rerender_covers T T.selectedItem hmem
  split
  · obtain ⟨c, hrc⟩ := recalculateItemPositions_shape R
    have hpsel : (recalculateItemPositions R).selectedItem = R.selectedItem := by
      rw [hrc]
    have hpres : (mapGet (recalculateItemPositions R).renderedItems
        (recalculateItemPositions R).selectedItem).isSome = true := by
      rw [hpsel]
      exact recalc_isSome R R.selectedItem hcov
    split
    · rcases scrollToSelection_shape (recalculateItemPositions R) with ⟨o, m, hsh⟩ | ⟨hnone, _⟩
      · rw [hsh]
        show (recalculateItemPositions R).selectedItem = T.selectedItem
        rw [hpsel]
        exact hRsel
      · rw [hnone] at hpres
        simp at hpres
    · rw [hpsel]
      exact hRsel
  · split
    · rcases scrollToSelection_shape R with ⟨o, m, hsh⟩ | ⟨hnone, _⟩
      · rw [hsh]
        exact hRsel
      · rw [hnone] at hcov
        simp at hcov
    · exact hRsel

set_option maxHeartbeats 1000000 in
/-- The shared re-render tail with an empty selection: if
`setDefaultSelected` would not change the (empty) selection — no item is
focusable — then the re-render leaves it empty too. -/
theorem renderTail_selected_empty (T : ListState) (hsel : T.selectedItem = "")
    (hnofoc : (setDefaultSelected T).selectedItem = T.selectedItem) :
    (if (if (setRendered { T with renderedItems := (renderIterator T 0 false []).2.2 }
          (renderIterator T 0 false []).1).direction = Direction.backward then
        recalculateItemPositions (setRendered { T with renderedItems :=
          (renderIterator T 0 false []).2.2 } (renderIterator T 0 false []).1)
      else setRendered { T with renderedItems := (renderIterator T 0 false []).2.2 }
        (renderIterator T 0 false []).1).focused = true then
      scrollToSelection (if (setRendered { T with renderedItems :=
          (renderIterator T 0 false []).2.2 } (renderIterator T 0 false []).1).direction
          = Direction.backward then
        recalculateItemPositions (setRendered { T with renderedItems :=
          (renderIterator T 0 false []).2.2 } (renderIterator T 0 false []).1)
      else setRendered { T with renderedItems := (renderIterator T 0 false []).2.2 }
        (renderIterator T 0 false []).1)
    else (if (setRendered { T with renderedItems := (renderIterator T 0 false []).2.2 }
          (renderIterator T 0 false []).1).direction = Direction.backward then
        recalculateItemPositions (setRendered { T with renderedItems :=
          (renderIterator T 0 false []).2.2 } (renderIterator T 0 false []).1)
      else setRendered { T with renderedItems := (renderIterator T 0 false []).2.2 }
        (renderIterator T 0 false []).1)).selectedItem = T.selectedItem := by
  set R := setRendered { T with renderedItems := (renderIterator T 0 false []).2.2 }
    (renderIterator T 0 false []).1 with hRdef
  have hRsel : R.selectedItem = T.selectedItem := by
    rw [hRdef]; simp only [setRendered]
  split
  · obtain ⟨c, hrc⟩ := recalculateItemPositions_shape R
    have hpsel : (recalculateItemPositions R).selectedItem = R.selectedItem := by
      rw [hrc]
    have hcongr : (setDefaultSelected { recalculateItemPositions R with
        selectedItem := "" }).selectedItem = (setDefaultSelected T).selectedItem := by
      apply setDefaultSelected_selected_congr
      · rw [hrc, hRdef]
        simp only [setRendered]
      · rw [hrc, hRdef]
        simp only [setRendered]
      · rw [hrc, hRdef]
        simp only [setRendered]
      · rw [hsel]
    split
    · rcases scrollToSelection_shape (recalculateItemPositions R) with ⟨o, m, hsh⟩ | ⟨_, hsh⟩
      · rw [hsh]
        show (recalculateItemPositions R).selectedItem = T.selectedItem
        rw [hpsel]
        exact hRsel
      · rw [hsh, hcongr, hnofoc]
    · rw [hpsel]
      exact hRsel
  · have hcongr : (setDefaultSelected { R with
        selectedItem := "" }).selectedItem = (setDefaultSelected T).selectedItem := by
      apply setDefaultSelected_selected_congr
      · rw [hRdef]
        simp only [setRendered]
      · rw [hRdef]
        simp only [setRendered]
      · rw [hRdef]
        simp only [setRendered]
      · rw [hsel]
    split
    · rcases scrollToSelection_shape R with ⟨o, m, hsh⟩ | ⟨_, hsh⟩
      · rw [hsh]
        exact hRsel
      · rw [hsh, hcongr, hnofoc]
    · exact hRsel

set_option maxHeartbeats 1000000 in
/-- `render` keeps a non-empty selected identifier that names an existing
item. -/
theorem render_selected (s : ListState) (hne : s.selectedItem ≠ "")
    (hmem : s.selectedItem ∈ s.items.map GoItem.id)
    (hrnil : s.rendered ≠ []) :
    (render s).1.selectedItem = s.selectedItem := by
  simp only [render]
  split
  · rfl
  case isFalse hguard =>
    have hD : setDefaultSelected s = s := by
      unfold setDefaultSelected
      rw [if_neg hne]
    rw [hD]
    split
    case isTrue hfoc =>
      have hFf := focusSelectedItem_fields s
      have hFm := focusSelectedItem_maps s
      have hren : (focusSelectedItem s).1.rendered ≠ [] := by
        rw [hFf.2.2.2.2.2.2.2.1]
        exact hrnil
      rw [if_pos hren]
      have hmemT : (focusSelectedItem s).1.selectedItem
          ∈ (focusSelectedItem s).1.items.map GoItem.id := by
        rw [hFf.2.2.2.2.2.2.2.2.2.1, hFm.1]
        exact hmem
      exact (renderTail_selected (focusSelectedItem s).1 hmemT).trans
        hFf.2.2.2.2.2.2.2.2.2.1
    case isFalse hfoc =>
      have hFf := blurSelectedItem_fields s
      have hFm := blurSelectedItem_maps s
      have hren : (blurSelectedItem s).1.rendered ≠ [] := by
        rw [hFf.2.2.2.2.2.2.2.1]
        exact hrnil
      rw [if_pos hren]
      have hmemT : (blurSelectedItem s).1.selectedItem
          ∈ (blurSelectedItem s).1.items.map GoItem.id := by
        rw [hFf.2.2.2.2.2.2.2.2.2.1, hFm.1]
        exact hmem
      exact (renderTail_selected (blurSelectedItem s).1 hmemT).trans
        hFf.2.2.2.2.2.2.2.2.2.1

set_option maxHeartbeats 1000000 in
/-- `render` with an empty selection ends with exactly the identifier
`setDefaultSelected` picks: the default re-selection happens inside the
render. -/
theorem render_selected_empty (s : ListState) (hsel : s.selectedItem = "")
    (hids : ∀ it ∈ s.items, it.id ≠ "")
    (hw : 0 < s.width) (hh : 0 < s.height)
    (hrnil : s.rendered ≠ []) :
    (render s).1.selectedItem = (setDefaultSelected s).selectedItem := by
  simp only [render]
  split
  case isTrue hg =>
    have hitems : s.items = [] := by
      rcases hg with h | h | h
      · omega
      · omega
      · exact List.length_eq_zero.mp h
    rw [setDefaultSelected_selected_nil s hitems]
  case isFalse hguard =>
    obtain ⟨sel0, hD⟩ := setDefaultSelected_shape s
    have hsel0 : (setDefaultSelected s).selectedItem = sel0 := by rw [hD]
    by_cases h0 : sel0 = ""
    · have hDs : setDefaultSelected s = s := by
        rw [hD, h0, ← hsel]
      rw [hDs]
      have hfocid : focusSelectedItem s = (s, []) := by
        unfold focusSelectedItem
        rw [if_pos (Or.inl hsel)]
      have hblurid : blurSelectedItem s = (s, []) := by
        unfold blurSelectedItem
        rw [if_pos (Or.inl hsel)]
      have hnofoc : (setDefaultSelected s).selectedItem = s.selectedItem := by
        rw [hsel0, h0, hsel]
      split
      · rw [hfocid]
        dsimp only
        rw [if_pos hrnil]
        exact renderTail_selected_empty s hsel hnofoc
      · rw [hblurid]
        dsimp only
        rw [if_pos hrnil]
        exact renderTail_selected_empty s hsel hnofoc
    · have hmem0 : sel0 ∈ s.items.map GoItem.id := by
        rcases setDefaultSelected_mem s with h | h
        · rw [hsel0, hsel] at h
          exact absurd h h0
        · rw [hsel0] at h
          exact h
      rw [hD]
      split
      next hfoc =>
        have hFf := focusSelectedItem_fields { s with selectedItem := sel0 }
        have hFm := focusSelectedItem_maps { s with selectedItem := sel0 }
        have hren : (focusSelectedItem { s with selectedItem := sel0 }).1.rendered ≠ [] := by
          rw [hFf.2.2.2.2.2.2.2.1]
          exact hrnil
        rw [if_pos hren]
        have hmemT : (focusSelectedItem { s with selectedItem := sel0 }).1.selectedItem
            ∈ (focusSelectedItem { s with selectedItem := sel0 }).1.items.map GoItem.id := by
          rw [hFf.2.2.2.2.2.2.2.2.2.1, hFm.1]
          exact hmem0
        exact (renderTail_selected (focusSelectedItem { s with selectedItem := sel0 }).1
          hmemT).trans hFf.2.2.2.2.2.2.2.2.2.1
      next hfoc =>
        have hFf := blurSelectedItem_fields { s with selectedItem := sel0 }
        have hFm := blurSelectedItem_maps { s with selectedItem := sel0 }
        have hren : (blurSelectedItem { s with selectedItem := sel0 }).1.rendered ≠ [] := by
          rw [hFf.2.2.2.2.2.2.2.1]
          exact hrnil
        rw [if_pos hren]
        have hmemT : (blurSelectedItem { s with selectedItem := sel0 }).1.selectedItem
            ∈ (blurSelectedItem { s with selectedItem := sel0 }).1.items.map GoItem.id := by
          rw [hFf.2.2.2.2.2.2.2.2.2.1, hFm.1]
          exact hmem0
        exact (renderTail_selected (blurSelectedItem { s with selectedItem := sel0 }).1
          hmemT).trans hFf.2.2.2.2.2.2.2.2.2.1

/-- **C2 (amended).**  From a well-formed fully rendered state in which it
holds, the scroll-offset invariant
`0 ≤ offset ≤ max(0, totalRenderedHeight − viewportHeight)` is preserved
by the mutators `MoveUp`, `MoveDown`, `GoToTop`, `GoToBottom`,
`DeleteItem` and `SetItems` (for every argument).  It is not preserved in
general by `SetSize` (height-only growth keeps a stale offset, see the
counterexample), nor by `UpdateItem`, `AppendItem` and `PrependItem`,
whose offset compensation can overshoot the new maximum. -/
theorem offset_invariant_mutators (s : ListState) (hwf : WF s) (hinv : Inv s)
    (n : Int) (id : String) (newItems : List GoItem) :
    Inv (MoveUp s n).1 ∧ Inv (MoveDown s n).1 ∧
    Inv (GoToTop s).1 ∧ Inv (GoToBottom s).1 ∧
    Inv (DeleteItem s id).1 ∧ Inv (SetItems s newItems).1 := by
  have hrr := wf_renderReady s hwf
  exact ⟨moveUp_inv s n hrr hinv, moveDown_inv s n hrr hinv,
    goToTop_inv s hrr, goToBottom_inv s hrr,
    deleteItem_inv s id hwf hinv, setItems_inv s newItems⟩

/-- Witness for the C2 theorem at a concrete well-formed state. -/
theorem offset_invariant_mutators_witness :
    WF fiveReady ∧ Inv fiveReady ∧
    (Inv (MoveUp fiveReady 1).1 ∧ Inv (MoveDown fiveReady 1).1 ∧
     Inv (GoToTop fiveReady).1 ∧ Inv (GoToBottom fiveReady).1 ∧
     Inv (DeleteItem fiveReady "i0").1 ∧ Inv (SetItems fiveReady []).1) :=
  ⟨by decide, by decide,
    offset_invariant_mutators fiveReady (by decide) (by decide) 1 "i0" []⟩

/-- Counterexample to the literal C7 claim: in the two-item list with
`A` selected, deleting `A` (which has no predecessor) does not leave the
selection cleared — the triggered re-render immediately re-selects the
default item `B`. -/
theorem deleteItem_head_reselects_cex :
    pairReady.selectedItem = "A" ∧
    mapGet pairReady.indexMap "A" = some 0 ∧
    (DeleteItem pairReady "A").1.selectedItem = "B" := by
  exact ⟨by decide, by decide, by decide⟩

set_option maxHeartbeats 1000000 in
/-- **C7 (amended).**  In a well-formed state, deleting the currently
selected item by identifier selects the immediately preceding item (by
position) when one exists; when the deleted item was first, the selection
is first cleared but the re-render triggered inside `DeleteItem`
immediately re-runs the default selection on the remaining items (first
focusable item for forward direction, last for backward), so the selected
identifier ends empty only when no focusable item remains. -/
theorem deleteItem_selected_predecessor (s : ListState) (hwf : WF s)
    (hsel : s.selectedItem ≠ "") (inx : Nat)
    (hm : mapGet s.indexMap s.selectedItem = some inx) :
    (∀ p, 0 < inx → s.items.get? (inx - 1) = some p →
      (DeleteItem s s.selectedItem).1.selectedItem = p.id) ∧
    (inx = 0 →
      (DeleteItem s s.selectedItem).1.selectedItem
        = (setDefaultSelected { s with items := s.items.eraseIdx inx, selectedItem := "" }).selectedItem) := by
  obtain ⟨hne, hw, hh, hgap, hnodup, hiv, himap, hcanon, hdom, hrend, hrh, hselwf⟩ := hwf
  have hviews : ∀ it ∈ s.items, it.view ≠ [] := by
    intro it hmem
    obtain ⟨⟨j, hj⟩, hjeq⟩ := List.mem_iff_get.mp hmem
    rw [List.get_eq_getElem] at hjeq
    have := hiv j hj
    rw [hjeq] at this
    exact this.1
  have hidsne : ∀ it ∈ s.items, it.id ≠ "" := by
    intro it hmem
    obtain ⟨⟨j, hj⟩, hjeq⟩ := List.mem_iff_get.mp hmem
    rw [List.get_eq_getElem] at hjeq
    have := hiv j hj
    rw [hjeq] at this
    exact this.2
  have hrnil : s.rendered ≠ [] := by
    rw [hrend]
    exact joinViews_ne_nil s.gap s.items hne hviews
  constructor
  · intro p hpos hp
    simp only [DeleteItem]
    split
    case h_1 hnone =>
      rw [hm] at hnone
      exact Option.noConfusion hnone
    case h_2 inx2 hinx2 =>
      have hieq : inx2 = inx := by
        rw [hm] at hinx2
        exact (Option.some.inj hinx2).symm
      subst hieq
      split
      case isFalse hcond => exact (hcond (by first | rfl | trivial)).elim
      case isTrue hcond =>
        have hgetE : (s.items.eraseIdx inx2).get? (inx2 - 1) = some p := by
          rw [List.get?_eq_getElem?]
          rw [List.getElem?_eraseIdx_of_lt s.items inx2 (inx2 - 1) (by omega)]
          rw [← List.get?_eq_getElem?]
          exact hp
        rw [hgetE]
        try dsimp only
        have hpmem : p ∈ s.items := List.get?_mem hp
        have hrsel : (render { s with items := s.items.eraseIdx inx2, renderedItems := mapDel s.renderedItems s.selectedItem, indexMap := reindexFrom (mapDel s.indexMap s.selectedItem) (s.items.eraseIdx inx2) inx2, selectedItem := p.id }).1.selectedItem = p.id := by
          apply render_selected
          · exact hidsne p hpmem
          · exact List.mem_map.mpr ⟨p, List.get?_mem hgetE, rfl⟩
          · exact hrnil
        repeat' split
        all_goals exact hrsel
  · intro h0
    subst h0
    simp only [DeleteItem]
    split
    case h_1 hnone =>
      rw [hm] at hnone
      exact Option.noConfusion hnone
    case h_2 inx2 hinx2 =>
      have hieq : inx2 = 0 := by
        rw [hm] at hinx2
        exact (Option.some.inj hinx2).symm
      subst hieq
      split
      case isFalse hcond => exact (hcond (by first | rfl | trivial)).elim
      case isTrue hcond =>
        have hempty : (render { s with items := s.items.eraseIdx 0, renderedItems := mapDel s.renderedItems s.selectedItem, indexMap := reindexFrom (mapDel s.indexMap s.selectedItem) (s.items.eraseIdx 0) 0, selectedItem := "" }).1.selectedItem = (setDefaultSelected { s with items := s.items.eraseIdx 0, renderedItems := mapDel s.renderedItems s.selectedItem, indexMap := reindexFrom (mapDel s.indexMap s.selectedItem) (s.items.eraseIdx 0) 0, selectedItem := "" }).selectedItem := by
          apply render_selected_empty
          · rfl
          · intro it hmem
            exact hidsne it (List.eraseIdx_subset _ _ hmem)
          · exact hw
          · exact hh
          · exact hrnil
        have hcongr2 : (setDefaultSelected { s with items := s.items.eraseIdx 0, renderedItems := mapDel s.renderedItems s.selectedItem, indexMap := reindexFrom (mapDel s.indexMap s.selectedItem) (s.items.eraseIdx 0) 0, selectedItem := "" }).selectedItem = (setDefaultSelected { s with items := s.items.eraseIdx 0, selectedItem := "" }).selectedItem :=
          setDefaultSelected_selected_congr _ _ rfl rfl rfl rfl
        repeat' split
        all_goals first
          | exact hempty.trans hcongr2
          | omega

/-- Witness for the C7 theorem at a concrete well-formed state: in
`fiveReady` the selected item `i0` sits at index 0, and deleting it ends
with the re-selected default of the remaining items. -/
theorem deleteItem_selected_predecessor_witness :
    (DeleteItem fiveReady fiveReady.selectedItem).1.selectedItem
      = (setDefaultSelected { fiveReady with items := fiveReady.items.eraseIdx 0, selectedItem := "" }).selectedItem :=
  (deleteItem_selected_predecessor fiveReady (by decide) (by decide) 0
    (by decide)).2 rfl

end CrushList
